import Mathlib

/-!
# Proxy: header parser, serializer, filter engine, response forwarder and client session

A shallow embedding of `src/http.c`, `src/util.c`, `src/midlayer.c`, the read loop of
`src/serverside.c`, and `src/proxy_clientside.c` with `readData` of `src/util_socket.c`.

Conventions of the embedding.

* A C `char` is a `Char` (one `Char` per byte, so the byte `0xC3` is `Char.ofNat 0xC3`).
* A `const char *` string argument is represented by the list of the characters that
  precede its terminating NUL.  Where the code hands a raw byte array of known size to a
  function that expects a string, the call site takes `cstr` of the array.
* A `char *` that may be `NULL` is an `Option (List Char)`.
* `malloc`/`realloc` succeed and `regcomp` accepts the three fixed patterns, so the
  `E_ALLOC` and `E_REG_COMP` paths are not taken.
* A result of type `Option _` is `none` when the C code has no defined result
  (a `NULL` string is read) or when a loop model runs out of fuel.
-/

namespace Proxy

/-! ## Error codes (`src/http.h`) -/

def E_NO_MATCH : Int := -1
def E_ALLOC : Int := -2
def E_REG_COMP : Int := -3
def E_NOT_HTTP : Int := -4

/-- The value of `MAX_HEADER_SIZE` in `src/proxy.h`. -/
def MAX_HEADER_SIZE : Nat := 8192

/-! ## libc string functions -/

/-- The string stored in a byte array: the bytes before the first NUL. -/
def cstr (bytes : List Char) : List Char :=
  bytes.takeWhile (fun c => c != '\x00')

/-- The function `strlen`. -/
def strlen (s : List Char) : Nat := s.length

/-- The function `strcat`: the destination followed by the source. -/
def strcat (dest src : List Char) : List Char := dest ++ src

/-- The function `strstr`: offset of the first occurrence of `needle` in `haystack`,
`none` for the `NULL` result. -/
def strstr : List Char → List Char → Option Nat
  | [], needle => if needle.isPrefixOf [] then some 0 else none
  | c :: cs, needle =>
    if needle.isPrefixOf (c :: cs) then some 0
    else (strstr cs needle).map (fun i => i + 1)

/-- The function `tolower` of the C locale. -/
def tolower (c : Char) : Char := c.toLower

/-- The GNU function `strcasestr`: offset of the first occurrence of `needle` in
`haystack`, letters compared without regard to case. -/
def strcasestr (haystack needle : List Char) : Option Nat :=
  strstr (haystack.map tolower) (needle.map tolower)

/-! ## POSIX regular expressions, as used with `REG_NEWLINE | REG_EXTENDED`

Each of the three patterns of `src/http.c` starts with `^` and is a sequence of
literals and starred bracket expressions in which every starred class is followed by a
literal outside the class (or ends the pattern).  A match attempt at a given anchor is
therefore deterministic: each star takes the longest run of its class.  `regexec`
returns the leftmost match; with `REG_NEWLINE` the anchor `^` matches at offset 0 and
right after every `\n`, and a non-matching list `[^...]` does not match `\n`. -/

/-- Leftmost search of an anchored pattern: `m` is tried at offset 0 (when `bol`) and
after every newline. -/
def regexecBol {α : Type} (m : List Char → Option α) : Bool → List Char → Option α
  | bol, [] => if bol then m [] else none
  | bol, c :: cs =>
    match (if bol then m (c :: cs) else none) with
    | some r => some r
    | none => regexecBol m (c == '\n') cs

/-- The call `regexec(&regex, s, n, matches, 0)` for an anchored pattern whose match
attempt at an anchor is `m`. -/
def regexec {α : Type} (m : List Char → Option α) (s : List Char) : Option α :=
  regexecBol m true s

/-- Class `[A-Z]` (C locale). -/
def clsUpper (c : Char) : Bool := decide ('A' ≤ c) && decide (c ≤ 'Z')

/-- Class `[[:digit:]]` (C locale). -/
def clsDigit (c : Char) : Bool := decide ('0' ≤ c) && decide (c ≤ '9')

/-- Class `[^ ]` under `REG_NEWLINE`. -/
def clsNotSpace (c : Char) : Bool := c != ' ' && c != '\n'

/-- Class `[^:]` under `REG_NEWLINE`. -/
def clsNotColon (c : Char) : Bool := c != ':' && c != '\n'

/-- Class `[^\r\n]`. -/
def clsNotCRLF (c : Char) : Bool := c != '\r' && c != '\n'

/-- One match attempt of `^HTTP/([^ ]*) ([[:digit:]]*) ([^\r\n]*)` at an anchor:
the three sub-matches. -/
def matchResponseLine (s : List Char) : Option (List Char × List Char × List Char) :=
  match s with
  | 'H' :: 'T' :: 'T' :: 'P' :: '/' :: r1 =>
    match r1.span clsNotSpace with
    | (version, ' ' :: r2) =>
      match r2.span clsDigit with
      | (status, ' ' :: r3) => some (version, status, (r3.span clsNotCRLF).1)
      | _ => none
    | _ => none
  | _ => none

/-- One match attempt of `^([A-Z]*) ([^ ]*) HTTP/([^\r\n]*)` at an anchor:
the three sub-matches. -/
def matchRequestLine (s : List Char) : Option (List Char × List Char × List Char) :=
  match s.span clsUpper with
  | (req_type, ' ' :: r1) =>
    match r1.span clsNotSpace with
    | (resource, ' ' :: 'H' :: 'T' :: 'T' :: 'P' :: '/' :: r2) =>
      some (req_type, resource, (r2.span clsNotCRLF).1)
    | _ => none
  | _ => none

/-- One match attempt of `^([^:]*): ([^\r\n]*)` at an anchor: the two sub-matches and
the text that follows the match (the string at `rm_eo` of the whole match). -/
def matchField (s : List Char) : Option (List Char × List Char × List Char) :=
  match s.span clsNotColon with
  | (key, ':' :: ' ' :: r1) => some (key, (r1.span clsNotCRLF).1, (r1.span clsNotCRLF).2)
  | _ => none

/-! ## Key-value array (`src/util.c`) -/

/-- The struct `KeyValue`. -/
structure KeyValue where
  key : List Char
  key_length : Nat
  value : List Char
  value_length : Nat
deriving DecidableEq, Repr

/-- The struct `KeyValueArray`: `data` is the list, `size` its length. -/
abbrev KeyValueArray := List KeyValue

/-- The function `initKeyValueArray`. -/
def initKeyValueArray : KeyValueArray := []

/-- The function `addField`: the pair is stored behind the existing ones. -/
def addField (array : KeyValueArray) (key value : List Char) : Int × KeyValueArray :=
  (0, array ++ [{ key := key, key_length := key.length,
                  value := value, value_length := value.length }])

/-- The function `getValue`: value of the first pair whose key is `key` (`strcmp`),
`none` for `NULL`. -/
def getValue : KeyValueArray → List Char → Option (List Char)
  | [], _ => none
  | kv :: rest, key => if kv.key = key then some kv.value else getValue rest key

/-! ## Request and response headers (`src/http.c`) -/

/-- The struct `HTTPRequestInfo`. -/
structure HTTPRequestInfo where
  req_type : Option (List Char)
  resource : Option (List Char)
  http_version : Option (List Char)
deriving DecidableEq, Repr

/-- The struct `HTTPRequestHeader`. -/
structure HTTPRequestHeader where
  request_info : HTTPRequestInfo
  fields : KeyValueArray
deriving DecidableEq, Repr

/-- The struct `HTTPResponseInfo`. -/
structure HTTPResponseInfo where
  http_version : Option (List Char)
  status_code : Option (List Char)
  reason : Option (List Char)
deriving DecidableEq, Repr

/-- The struct `HTTPResponseHeader`. -/
structure HTTPResponseHeader where
  response_info : HTTPResponseInfo
  fields : KeyValueArray
deriving DecidableEq, Repr

/-- The function `initRequestHeader`. -/
def initRequestHeader : HTTPRequestHeader :=
  { request_info := { req_type := none, resource := none, http_version := none },
    fields := initKeyValueArray }

/-- The function `initResponseHeader`. -/
def initResponseHeader : HTTPResponseHeader :=
  { response_info := { http_version := none, status_code := none, reason := none },
    fields := initKeyValueArray }

/-- The function `parseResponseLine` (through `regexParse`). -/
def parseResponseLine (resp_info : HTTPResponseInfo) (buffer : List Char) :
    Int × HTTPResponseInfo :=
  match regexec matchResponseLine buffer with
  | none => (E_NO_MATCH, resp_info)
  | some (m1, m2, m3) =>
    (0, { http_version := some m1, status_code := some m2, reason := some m3 })

/-- The function `parseRequestLine` (through `regexParse`). -/
def parseRequestLine (req_info : HTTPRequestInfo) (buffer : List Char) :
    Int × HTTPRequestInfo :=
  match regexec matchRequestLine buffer with
  | none => (E_NO_MATCH, req_info)
  | some (m1, m2, m3) =>
    (0, { req_type := some m1, resource := some m2, http_version := some m3 })

/-- The `while(1)` loop of `parseFields`, run for at most `fuel` iterations from
`match_start`; `none` when the fuel is used up. -/
def parseFieldsLoop : Nat → KeyValueArray → List Char → Option KeyValueArray
  | 0, _, _ => none
  | fuel + 1, fields, match_start =>
    match regexec matchField match_start with
    | none => some fields
    | some (key, value, rest) => parseFieldsLoop fuel (addField fields key value).2 rest

/-- The function `parseFields`: return code and the extended array. -/
def parseFields (fields : KeyValueArray) (buffer : List Char) : Option (Int × KeyValueArray) :=
  (parseFieldsLoop (buffer.length + 1) fields buffer).map (fun fs => (0, fs))

/-- The function `parseRequestHeader`: return code and the header record afterwards. -/
def parseRequestHeader (header : HTTPRequestHeader) (buffer : List Char) :
    Option (Int × HTTPRequestHeader) :=
  match strstr buffer ['\r', '\n', '\r', '\n'] with
  | none => some (E_NOT_HTTP, header)
  | some header_end =>
    let header_len := header_end + 2
    let header_string := buffer.take header_len
    let (retval, info) := parseRequestLine header.request_info header_string
    if retval != 0 then some (retval, { header with request_info := info })
    else
      (parseFields header.fields header_string).map
        (fun r => (r.1, { request_info := info, fields := r.2 }))

/-- The function `parseResponseHeader`: return code and the header record afterwards. -/
def parseResponseHeader (header : HTTPResponseHeader) (buffer : List Char) :
    Option (Int × HTTPResponseHeader) :=
  match strstr buffer ['\r', '\n', '\r', '\n'] with
  | none => some (E_NOT_HTTP, header)
  | some header_end =>
    let header_len := header_end + 4
    let header_string := buffer.take header_len
    let (retval, info) := parseResponseLine header.response_info header_string
    if retval != 0 then some (retval, { header with response_info := info })
    else
      (parseFields header.fields header_string).map
        (fun r => (r.1, { response_info := info, fields := r.2 }))

/-- The function `requestHeaderLength`; `none` when a start-line string is `NULL`. -/
def requestHeaderLength (request_header : HTTPRequestHeader) : Option Nat :=
  match request_header.request_info.req_type, request_header.request_info.resource,
        request_header.request_info.http_version with
  | some req_type, some resource, some http_version =>
    let serbuffer_len := 0 + strlen req_type + strlen [' '] + strlen resource
      + strlen " HTTP/".toList + strlen http_version + strlen ['\r', '\n']
    let serbuffer_len := request_header.fields.foldl
      (fun n kv => n + strlen kv.key + strlen [':', ' '] + strlen kv.value
        + strlen ['\r', '\n']) serbuffer_len
    some (serbuffer_len + strlen ['\r', '\n'])
  | _, _, _ => none

/-- The function `serializeRequestHeader`: return code, `*target_buffer` and
`*written_length`; `none` when a start-line string is `NULL`. -/
def serializeRequestHeader (request_header : HTTPRequestHeader) :
    Option (Int × List Char × Nat) :=
  match requestHeaderLength request_header, request_header.request_info.req_type,
        request_header.request_info.resource,
        request_header.request_info.http_version with
  | some serbuffer_len, some req_type, some resource, some http_version =>
    let serbuffer : List Char := []
    let serbuffer := strcat serbuffer req_type
    let serbuffer := strcat serbuffer [' ']
    let serbuffer := strcat serbuffer resource
    let serbuffer := strcat serbuffer " HTTP/".toList
    let serbuffer := strcat serbuffer http_version
    let serbuffer := strcat serbuffer ['\r', '\n']
    let serbuffer := request_header.fields.foldl
      (fun buf kv => strcat (strcat (strcat (strcat buf kv.key) [':', ' ']) kv.value)
        ['\r', '\n']) serbuffer
    let serbuffer := strcat serbuffer ['\r', '\n']
    some (0, serbuffer, serbuffer_len)
  | _, _, _, _ => none

/-! ## Filter engine (`src/midlayer.c`) -/

/-- The table `filtered_words`, byte for byte as in the source file. -/
def filtered_words : List (List Char) :=
  [ "spongebob".toList,
    "britney spears".toList,
    "paris hilton".toList,
    "norrkoping".toList,
    "norrk".toList ++ [Char.ofNat 0xC3, Char.ofNat 0x83, Char.ofNat 0xC2, Char.ofNat 0xB6]
      ++ "ping".toList,
    "norrk%C3%B6ping".toList,
    "norrk%C3%96ping".toList,
    "norrkoeping".toList ]

/-- The string `filtered_redirect_content`. -/
def filtered_redirect_content : List Char :=
  ("HTTP/1.1 301 Moved Permanently\r\n"
    ++ "Location: http://www.ida.liu.se/~TDTS04/labs/2011/ass2/error2.html\r\n"
    ++ "Connection: close\r\n\r\n").toList

/-- The function `containsWord`. -/
def containsWord (buffer word : List Char) : Bool :=
  (strcasestr buffer word).isSome

/-- The function `applyFilter`: the loop over `filtered_words` stops at the first hit. -/
def applyFilter (buffer : List Char) : Bool :=
  filtered_words.any (fun word => containsWord buffer word)

/-- The function `shouldApplyContentFilterHeader`; `none` when `strstr` is called on the
`NULL` value of an absent `Content-Type`. -/
def shouldApplyContentFilterHeader (resp_header : HTTPResponseHeader) : Option Bool :=
  let is_text := false
  let is_encoded := false
  let content_type_value := getValue resp_header.fields "Content-Type".toList
  let is_text :=
    match content_type_value with
    | some v => (strstr v "text".toList).isSome
    | none => is_text
  match getValue resp_header.fields "Content-Encoding".toList with
  | some _ =>
    match content_type_value with
    | some v =>
      let is_text := (strstr v "identity".toList).isSome
      some (is_text && !is_encoded)
    | none => none
  | none => some (is_text && !is_encoded)

/-! ## Response forwarder (`src/midlayer.c`, `src/serverside.c`) -/

/-- The struct `MidlayerCallbackEnv` without the client socket, which is the sink of the
bytes sent; `cache_buffer_size` is the length of `cache_buffer`. -/
structure MidlayerCallbackEnv where
  call_counter : Int
  cache_buffer : List Char
  have_header : Bool
  block_response : Bool
  apply_filter : Bool
deriving DecidableEq, Repr

/-- The function `initMidlayerCallbackEnv`. -/
def initMidlayerCallbackEnv : MidlayerCallbackEnv :=
  { call_counter := 0, block_response := false, apply_filter := true,
    have_header := false, cache_buffer := [] }

/-- The first part of `forwardToClient` (the `if(mid_env->apply_filter)` block): the
chunk is stored in the cache and the cache searched for a response header.  The result
is `Except.error` with the state when the block returns -1. -/
def bufferChunk (recv_buffer : List Char) (env : MidlayerCallbackEnv) :
    Option (Except MidlayerCallbackEnv MidlayerCallbackEnv) :=
  if env.apply_filter then
    let env1 := { env with cache_buffer := env.cache_buffer ++ recv_buffer }
    if env1.have_header == false then
      match parseResponseHeader initResponseHeader (cstr env1.cache_buffer) with
      | none => none
      | some (retval, resp_header) =>
        let env2 : Option MidlayerCallbackEnv :=
          if retval == 0 then
            (shouldApplyContentFilterHeader resp_header).map
              (fun gate => { env1 with have_header := true, apply_filter := gate })
          else some env1
        env2.map (fun env2 =>
          if decide (env2.cache_buffer.length > MAX_HEADER_SIZE) && env2.have_header == false
          then Except.error { env2 with cache_buffer := [] }
          else Except.ok env2)
    else some (Except.ok env1)
  else some (Except.ok env)

/-- The function `forwardToClient`: return code, the buffers handed to `sendData` for the
client (in order) and the callback state afterwards. -/
def forwardToClient (recv_buffer : List Char) (env : MidlayerCallbackEnv) :
    Option (Int × List (List Char) × MidlayerCallbackEnv) :=
  match bufferChunk recv_buffer env with
  | none => none
  | some (Except.error env1) => some (-1, [], env1)
  | some (Except.ok env1) =>
    -- (str_to_send, flush_buffer, state)
    let decision : Option (List Char) × Bool × MidlayerCallbackEnv :=
      if env1.apply_filter == false then
        if env1.cache_buffer.length != 0 then (some env1.cache_buffer, true, env1)
        else (some recv_buffer, false, env1)
      else if recv_buffer.length == 0 then
        let env2 := { env1 with block_response := applyFilter (cstr env1.cache_buffer) }
        if env2.block_response then (some filtered_redirect_content, false, env2)
        else (some env2.cache_buffer, false, env2)
      else (none, false, env1)
    let str_to_send := decision.1
    let flush_buffer := decision.2.1
    let env3 := decision.2.2
    let sent : List (List Char) :=
      match str_to_send with
      | some s => [s]
      | none => []
    let env4 := if flush_buffer then { env3 with cache_buffer := [] } else env3
    if env4.block_response then some (1, sent, env4) else some (0, sent, env4)

/-- The function `readFromSocket`, run on the results of its successive `read` calls
(`none` for -1, `some bytes` otherwise, the empty read being the end of the stream):
return code, everything the callback sent, and the callback state.  The result is `none`
when the reads are used up before the loop returns. -/
def readFromSocket {σ : Type}
    (callback : List Char → σ → Option (Int × List (List Char) × σ)) :
    List (Option (List Char)) → σ → Option (Int × List (List Char) × σ)
  | [], _ => none
  | none :: _, env => some (-1, [], env)
  | some data :: reads, env =>
    match callback data env with
    | none => none
    | some (callback_stat, sent, env1) =>
      if callback_stat != 0 then some (callback_stat, sent, env1)
      else if data.length == 0 then some (0, sent, env1)
      else (readFromSocket callback reads env1).map
        (fun r => (r.1, sent ++ r.2.1, r.2.2))

/-! ## Wire form of a request header

Definitions used to state and prove the parsing theorems. -/

/-- The wire form of a request header as the specification describes it:
`METHOD SP target SP HTTP/version CRLF`, one `name: value CRLF` line per field in
order, and a final empty CRLF line. -/
def specRequestText (method target version : List Char)
    (fields : List (List Char × List Char)) : List Char :=
  method ++ [' '] ++ target ++ " HTTP/".toList ++ version ++ ['\r', '\n']
    ++ (fields.map (fun f => f.1 ++ [':', ' '] ++ f.2 ++ ['\r', '\n'])).flatten
    ++ ['\r', '\n']

/-- Lines, each closed by CRLF, followed by `tail`. -/
def wireLines (ls : List (List Char)) (tail : List Char) : List Char :=
  ls.foldr (fun l acc => l ++ '\r' :: '\n' :: acc) tail

/-- The start line `METHOD SP target SP HTTP/version`. -/
def requestLine (method target version : List Char) : List Char :=
  method ++ ' ' :: (target ++ ' ' :: 'H' :: 'T' :: 'T' :: 'P' :: '/' :: version)

/-- The field line `name: value`. -/
def fieldLine (f : List Char × List Char) : List Char :=
  f.1 ++ ':' :: ' ' :: f.2

/-- The array element that `addField` stores for a pair. -/
def fieldOf (f : List Char × List Char) : KeyValue :=
  { key := f.1, key_length := f.1.length, value := f.2, value_length := f.2.length }

/-- The pair that the field pattern takes from a line; `none` when the pattern does not
match at the start of the line. -/
def fieldOfLine (line : List Char) : Option KeyValue :=
  (matchField line).map (fun m => fieldOf (m.1, m.2.1))

/-! ## Client side (`src/proxy_clientside.c`, `src/util.c`, `src/util_socket.c`)

The model of `clientSession` covers the session up to the point where the forwarding
loop `while(1)` starts; that loop runs beside the listener thread.  The `recv` calls of
the client socket are answered by a list of outcomes, and the actions of the session on
its sockets are recorded as events. -/

/-- The string `filtered_redirect_url`. -/
def filtered_redirect_url : List Char :=
  ("HTTP/1.1 301 Moved Permanently\r\n"
    ++ "Location: http://www.ida.liu.se/~TDTS04/labs/2011/ass2/error1.html\r\n\r\n").toList

/-- The string `error_entity_too_large`. -/
def error_entity_too_large : List Char := "HTTP/1.1 413 Entity Too Large\r\n\r\n".toList

/-- The string `conn_est`. -/
def conn_est : List Char := "HTTP/1.1 200 Connection Established\r\n\r\n".toList

/-- The string `HTTP_DEFAULT_PORT`. -/
def HTTP_DEFAULT_PORT : List Char := "80".toList

/-- The value of `RECEIVE_BUFFER_SIZE` in `src/proxy.h`. -/
def RECEIVE_BUFFER_SIZE : Nat := MAX_HEADER_SIZE

/-- The function `strcmp`: zero for equal strings, otherwise the sign of the first
difference. -/
def strcmp : List Char → List Char → Int
  | [], [] => 0
  | [], _ :: _ => -1
  | _ :: _, [] => 1
  | a :: as, b :: bs => if a = b then strcmp as bs else if a < b then -1 else 1

/-- The function `setValue`: the value of the first pair whose key is `key` becomes the
first `new_value_len` bytes of `new_value`; -1 when there is no such pair. -/
def setValue : KeyValueArray → List Char → List Char → Nat → Int × KeyValueArray
  | [], _, _, _ => (-1, [])
  | kv :: rest, key, new_value, new_value_len =>
    if kv.key = key then
      (0, { kv with value := new_value.take new_value_len,
                    value_length := new_value_len } :: rest)
    else
      let r := setValue rest key new_value new_value_len
      (r.1, kv :: r.2)

/-- The function `checkHeaderExtractHost`: return code, the header record, and the
strings behind `hostname_target` and `port_target` afterwards. -/
def checkHeaderExtractHost (buffer : List Char) (request_header : HTTPRequestHeader)
    (hostname_target port_target : Option (List Char)) :
    Option (Int × HTTPRequestHeader × Option (List Char) × Option (List Char)) :=
  match parseRequestHeader request_header buffer with
  | none => none
  | some (retval, request_header1) =>
    if retval == 0 then
      match getValue request_header1.fields "Host".toList with
      | none => some (-1, request_header1, hostname_target, port_target)
      | some host_value =>
        let hostname := host_value
        let port_delim := strstr hostname [':']
        let hostname :=
          match port_delim with
          | some host_len => hostname.take host_len
          | none => hostname
        let port : Option (List Char) :=
          match port_delim with
          | some host_len =>
            let port_len := strlen (host_value.drop (host_len + 1))
            if port_len != 0 then some ((host_value.drop (host_len + 1)).take port_len)
            else none
          | none => none
        let port :=
          match port with
          | none => HTTP_DEFAULT_PORT
          | some p => p
        some (retval, request_header1, some hostname, some port)
    else some (retval, request_header1, hostname_target, port_target)

/-- The function `extractResource`: the offset of the returned pointer from
`resource`. -/
def extractResource (resource hostname port : List Char) : Nat :=
  let host_len := strlen hostname
  let port_len := strlen port
  let http_pos := strstr resource "http://".toList
  let host_pos := strstr resource hostname
  let start_http := (http_pos == some 0)
  match host_pos with
  | none => 0
  | some host_off =>
    let start_host := (host_off == 0)
      || ((host_off == 0 + strlen "http://".toList) && start_http)
    let start_port := start_host
      && (resource.getD (host_off + host_len) '\x00' == ':')
      && (strcmp (resource.drop (host_off + host_len + 1)) port != 0)
    if start_port then host_off + host_len + 1 + port_len
    else if start_host then host_off + host_len
    else 0

/-- The lines `setValue(..., "Connection", "close", ...)` and, when that returns -1,
`addField(..., "Connection", ..., "close", ...)` of `clientSession`. -/
def setConnectionClose (fields : KeyValueArray) : KeyValueArray :=
  let r := setValue fields "Connection".toList "close".toList (strlen "close".toList)
  if r.1 == -1 then (addField r.2 "Connection".toList "close".toList).2 else r.2

/-- The block `if(modify_request)` of `clientSession`: the header with
`Connection: close` and the target shortened; `none` when the target string is `NULL`
or the pointer of `extractResource` lies beyond its end. -/
def modifyRequest (request_header : HTTPRequestHeader) (hostname port : List Char) :
    Option HTTPRequestHeader :=
  let fields := setConnectionClose request_header.fields
  match request_header.request_info.resource with
  | none => none
  | some resource =>
    let extracted_resource := extractResource resource hostname port
    if extracted_resource ≤ resource.length then
      some { request_info := { request_header.request_info with
                                 resource := some (resource.drop extracted_resource) },
             fields := fields }
    else none

/-- The callback state that `serverListener` hands to `readFromSocket`:
`initMidlayerCallbackEnv`, with the filter switched off when `apply_filter_` is 0. -/
def serverListenerEnv (apply_filter_ : Bool) : MidlayerCallbackEnv :=
  if !apply_filter_ then { initMidlayerCallbackEnv with apply_filter := false }
  else initMidlayerCallbackEnv

/-- An outcome of `recv(fd, buffer, size, MSG_DONTWAIT)` on the client socket: bytes
(no bytes meaning that the peer has closed), the end of the stream, `EAGAIN`, or
another error. -/
inductive RecvResult where
  | data (bytes : List Char)
  | eof
  | again
  | error
deriving DecidableEq, Repr

/-- An action of the session on one of its sockets. -/
inductive Event where
  | sendClient (bytes : List Char)
  | connect (hostname port : List Char)
  | startListener (apply_filter : Bool)
  | sendServer (bytes : List Char)
deriving DecidableEq, Repr

/-- The function `readData` with the outcome of its `recv` call: return value, the
bytes stored in the buffer and the `open_` flag afterwards.  `recv` stores at most
`buffer_size` bytes. -/
def readData (socket_open : Bool) (buffer_size : Nat) (outcome : RecvResult) :
    Int × List Char × Bool :=
  if !socket_open then (-1, [], socket_open)
  else
    match outcome with
    | RecvResult.data bytes =>
      let stored := bytes.take buffer_size
      if stored.length == 0 then (0, [], false) else (stored.length, stored, true)
    | RecvResult.eof => (0, [], false)
    | RecvResult.again => (0, [], true)
    | RecvResult.error => (-1, [], true)

/-- The state of the header-read loop of `clientSession`. -/
structure HeaderLoopState where
  client_open : Bool
  header_buffer : List Char
  received_bytes : Nat
  request_header : HTTPRequestHeader
  hostname : Option (List Char)
  port : Option (List Char)
deriving DecidableEq, Repr

/-- How the header-read loop ends: with `goto error_header_read`, or with the header
found and the `recv` outcomes not yet used. -/
inductive HeaderLoopResult where
  | failed (ret_val : Int) (events : List Event)
  | found (state : HeaderLoopState) (reads : List RecvResult)
deriving DecidableEq, Repr

/-- The variables of `clientSession` before the header-read loop: the buffer of
`RECEIVE_BUFFER_SIZE + 1` NUL bytes, nothing received. -/
def initHeaderLoopState : HeaderLoopState :=
  { client_open := true,
    header_buffer := List.replicate (RECEIVE_BUFFER_SIZE + 1) '\x00',
    received_bytes := 0,
    request_header := initRequestHeader,
    hostname := none,
    port := none }

/-- Bytes stored in a buffer from offset `offset` on. -/
def storeAt (buffer : List Char) (offset : Nat) (bytes : List Char) : List Char :=
  buffer.take offset ++ bytes ++ buffer.drop (offset + bytes.length)

/-- The size handed to `readData` in the header-read loop:
`header_buffer_len - received_bytes`. -/
def headerReadSize (s : HeaderLoopState) : Nat :=
  RECEIVE_BUFFER_SIZE - s.received_bytes

/-- The two exits at the head of the header-read loop: the client socket is closed, or
the buffer is full. -/
def headerLoopGuard (s : HeaderLoopState) : Option HeaderLoopResult :=
  if !s.client_open then some (HeaderLoopResult.failed (-1) [])
  else if headerReadSize s == 0 then
    some (HeaderLoopResult.failed (-1) [Event.sendClient error_entity_too_large])
  else none

/-- The rest of one iteration of the header-read loop, after the two exits: the read
and the search for a header.  The result is the state after the iteration and whether
the header was found, or the exit taken. -/
def headerLoopBody (s : HeaderLoopState) (outcome : RecvResult) :
    Option (Except HeaderLoopResult (HeaderLoopState × Bool)) :=
  let r := readData s.client_open (headerReadSize s) outcome
  let read_stat := r.1
  if read_stat < 0 then some (Except.error (HeaderLoopResult.failed (-1) []))
  else
    let s1 := { s with client_open := r.2.2,
                       header_buffer := storeAt s.header_buffer s.received_bytes r.2.1,
                       received_bytes := s.received_bytes + read_stat.toNat }
    match checkHeaderExtractHost (cstr s1.header_buffer) s1.request_header
        s1.hostname s1.port with
    | none => none
    | some (header_status, request_header, hostname, port) =>
      some (Except.ok ({ s1 with request_header := request_header,
                                 hostname := hostname, port := port },
                       header_status == 0))

/-- The loop `while(!header_found)` of `clientSession`, run on the outcomes of its
`recv` calls; `none` when the outcomes are used up before the loop ends. -/
def headerLoop : List RecvResult → HeaderLoopState → Option HeaderLoopResult
  | [], s => headerLoopGuard s
  | outcome :: reads, s =>
    match headerLoopGuard s with
    | some result => some result
    | none =>
      match headerLoopBody s outcome with
      | none => none
      | some (Except.error result) => some result
      | some (Except.ok (s1, header_found)) =>
        if header_found then some (HeaderLoopResult.found s1 reads)
        else headerLoop reads s1

/-- The invariant of the header-read loop: at most `MAX_HEADER_SIZE` bytes are
received, and the buffer holds `RECEIVE_BUFFER_SIZE + 1` bytes of which all from index
`received_bytes` on are NUL. -/
def headerBufferInv (s : HeaderLoopState) : Prop :=
  s.received_bytes ≤ MAX_HEADER_SIZE
    ∧ s.header_buffer.drop s.received_bytes
        = List.replicate (RECEIVE_BUFFER_SIZE + 1 - s.received_bytes) '\x00'

/-- The outcome of `clientSession` up to its forwarding loop: the value returned, or
`none` when the forwarding loop is reached, and the actions taken so far. -/
structure SessionResult where
  ret_val : Option Int
  events : List Event
deriving DecidableEq, Repr

/-- The part of `clientSession` between the header-read loop and the forwarding loop,
for a header found in state `s`; `connect_ok` tells whether `initServerConnection`
succeeds.  The result is `none` when a `NULL` string or a byte outside the header buffer
is read. -/
def sessionAfterHeader (s : HeaderLoopState) (connect_ok : Bool) : Option SessionResult :=
  let block_request := applyFilter (cstr s.header_buffer)
  if block_request then
    some { ret_val := some 0, events := [Event.sendClient filtered_redirect_url] }
  else
    match s.hostname, s.port, s.request_header.request_info.req_type with
    | some hostname, some port, some req_type =>
      if !connect_ok then
        some { ret_val := some (-1), events := [Event.connect hostname port] }
      else
        let conn_request := (strstr req_type "CONNECT".toList).isSome
        let modify_request := !conn_request
        match requestHeaderLength s.request_header with
        | none => none
        | some header_len_pre_modifcation =>
          let request_header :=
            if modify_request then modifyRequest s.request_header hostname port
            else some s.request_header
          match request_header with
          | none => none
          | some request_header =>
            let established :=
              if conn_request then [Event.sendClient conn_est] else []
            let listener := [Event.startListener (!conn_request)]
            let header_data : Option (List Event) :=
              if modify_request && !conn_request then
                match serializeRequestHeader request_header with
                | none => none
                | some (_, serialized_request, serialized_request_length) =>
                  if header_len_pre_modifcation ≤ s.received_bytes then
                    some [ Event.sendServer
                             (serialized_request.take serialized_request_length),
                           Event.sendServer
                             ((s.header_buffer.drop header_len_pre_modifcation).take
                               (s.received_bytes - header_len_pre_modifcation)) ]
                  else none
              else if !conn_request then
                some [Event.sendServer (s.header_buffer.take s.received_bytes)]
              else some []
            header_data.map (fun sent =>
              { ret_val := none,
                events := [Event.connect hostname port] ++ established ++ listener ++ sent })
    | _, _, _ => none

/-- The function `clientSession` up to its forwarding loop. -/
def clientSession (reads : List RecvResult) (connect_ok : Bool) : Option SessionResult :=
  match headerLoop reads initHeaderLoopState with
  | none => none
  | some (HeaderLoopResult.failed ret_val events) =>
    some { ret_val := some ret_val, events := events }
  | some (HeaderLoopResult.found s _) => sessionAfterHeader s connect_ok

/-- A request `GET / HTTP/1.1` with the field `Host: x` and a field `Pad` of `pad`
letters; it is `34 + pad` bytes long. -/
def paddedRequest (pad : Nat) : List Char :=
  specRequestText "GET".toList "/".toList "1.1".toList
    [("Host".toList, "x".toList), ("Pad".toList, List.replicate pad 'a')]

/-- The state of the header-read loop in which the client socket is open and the bytes
`received` are stored at the start of the buffer, the bytes behind them being NUL. -/
def headerState (received : List Char) (request_header : HTTPRequestHeader)
    (hostname port : Option (List Char)) : HeaderLoopState :=
  { client_open := true,
    header_buffer :=
      received ++ List.replicate (RECEIVE_BUFFER_SIZE + 1 - received.length) '\x00',
    received_bytes := received.length,
    request_header := request_header,
    hostname := hostname,
    port := port }

/-- The struct `Socket` without its descriptor: the flag `open_` and whether `mutex_` is
held. -/
structure Socket where
  open_ : Bool
  locked : Bool
deriving DecidableEq, Repr

/-- A result of `send`: the number of bytes taken, or -1 with `errno` being `ECONNRESET`
or not. -/
inductive SendResult where
  | sent (n : Nat)
  | failed (econnreset : Bool)
deriving DecidableEq, Repr

/-- The function `closeSocket`. -/
def closeSocket (socket : Socket) : Socket :=
  if socket.open_ then { socket with open_ := false } else socket

/-- The loop `while(total < len)` of `sendData` with what follows it, run on the results
of its `send` calls; `none` when the results are used up before the loop ends. -/
def sendLoop : List SendResult → Nat → Nat → Socket → Option (Int × Socket)
  | [], len, total, socket =>
    if total < len then none else some ((total : Int), { socket with locked := false })
  | result :: results, len, total, socket =>
    if total < len then
      match result with
      | SendResult.failed econnreset =>
        some (-1, if econnreset then closeSocket socket else socket)
      | SendResult.sent n => sendLoop results len (total + n) socket
    else some ((total : Int), { socket with locked := false })

/-- The function `sendData`: return value and the socket afterwards; `none` when
`pthread_mutex_lock` finds the lock held, or the `send` results are used up. -/
def sendData (socket : Socket) (len : Nat) (results : List SendResult) :
    Option (Int × Socket) :=
  if !socket.open_ then some (-1, socket)
  else if socket.locked then none
  else sendLoop results len 0 { socket with locked := true }

/-! ## Outcome of a response stream

Definitions used to state the theorems on the chunking of the server stream. -/

/-- What the client gets of a server stream, and the code with which the read loop
ends, as a function of the whole stream: the stream itself with code 0, the canned
redirect with code 1, or nothing with code -1. -/
def forwarderOutcome (stream : List Char) : Option (Int × List Char) :=
  match parseResponseHeader initResponseHeader (cstr stream) with
  | none => none
  | some (retval, resp_header) =>
    if retval == 0 then
      match shouldApplyContentFilterHeader resp_header with
      | none => none
      | some false => some (0, stream)
      | some true =>
        if applyFilter (cstr stream) then some (1, filtered_redirect_content)
        else some (0, stream)
    else if stream.length > MAX_HEADER_SIZE then some (-1, [])
    else if applyFilter (cstr stream) then some (1, filtered_redirect_content)
    else some (0, stream)

/-- A stream of `pad` letters `a`, the letter `b`, and behind that line the response
header `HTTP/1.1 200 OK` without fields; it is `pad + 22` bytes long. -/
def lateHeaderStream (pad : Nat) : List Char :=
  List.replicate pad 'a' ++ "b\r\nHTTP/1.1 200 OK\r\n\r\n".toList

/-! ## Lemmas on the string functions -/

theorem strstr_eq_none_iff (haystack needle : List Char) :
    strstr haystack needle = none ↔ ¬ needle <:+: haystack := by
  induction haystack with
  | nil =>
    simp only [strstr, List.isPrefixOf_iff_prefix, List.infix_nil, List.prefix_nil]
    split <;> simp_all
  | cons c cs ih =>
    simp only [strstr, List.isPrefixOf_iff_prefix, List.infix_cons_iff]
    split
    · simp_all
    · simp_all

theorem strstr_isSome_iff (haystack needle : List Char) :
    (strstr haystack needle).isSome = true ↔ needle <:+: haystack := by
  rw [← not_iff_not, ← strstr_eq_none_iff]
  cases strstr haystack needle <;> simp

/-- The offset returned by `strstr` is the start of an occurrence. -/
theorem strstr_some_spec (haystack needle : List Char) (i : Nat)
    (h : strstr haystack needle = some i) :
    i + needle.length ≤ haystack.length ∧ needle <+: haystack.drop i := by
  induction haystack generalizing i with
  | nil =>
    simp only [strstr, List.isPrefixOf_iff_prefix, List.prefix_nil] at h
    split at h
    · simp_all
    · simp at h
  | cons c cs ih =>
    simp only [strstr, List.isPrefixOf_iff_prefix] at h
    split at h
    · rename_i hp
      simp only [Option.some.injEq] at h
      subst h
      exact ⟨by simpa using hp.length_le, by simpa using hp⟩
    · cases hs : strstr cs needle with
      | none => simp [hs] at h
      | some j =>
        simp only [hs, Option.map_some', Option.some.injEq] at h
        subst h
        have := ih j hs
        exact ⟨by simp only [List.length_cons]; omega, by simpa using this.2⟩

/-! ## Lemmas on the pattern matchers -/

/-- A leftmost search that succeeds has matched at some suffix of the text. -/
theorem regexecBol_some {α : Type} (m : List Char → Option α) (bol : Bool) (s : List Char)
    (r : α) (h : regexecBol m bol s = some r) : ∃ t, t <:+ s ∧ m t = some r := by
  induction s generalizing bol with
  | nil =>
    cases bol
    · simp [regexecBol] at h
    · exact ⟨[], List.suffix_refl _, by simpa [regexecBol] using h⟩
  | cons c cs ih =>
    cases bol
    · simp only [regexecBol, Bool.false_eq_true, if_false] at h
      obtain ⟨t, ht, hm⟩ := ih _ h
      exact ⟨t, ht.trans (List.suffix_cons c cs), hm⟩
    · simp only [regexecBol, if_true] at h
      cases hm : m (c :: cs) with
      | some r0 =>
        simp only [hm, Option.some.injEq] at h
        exact ⟨c :: cs, List.suffix_refl _, by rw [hm, h]⟩
      | none =>
        simp only [hm] at h
        obtain ⟨t, ht, hm⟩ := ih _ h
        exact ⟨t, ht.trans (List.suffix_cons c cs), hm⟩

/-- A match of the field pattern has the shape `key: value` and is followed by `rest`. -/
theorem matchField_some (s key value rest : List Char)
    (h : matchField s = some (key, value, rest)) :
    s = key ++ ':' :: ' ' :: (value ++ rest) ∧ (∀ c ∈ key, clsNotColon c = true)
      ∧ (∀ c ∈ value, clsNotCRLF c = true) := by
  unfold matchField at h
  rw [List.span_eq_take_drop] at h
  split at h
  · rename_i k r1 heq
    simp only [Prod.mk.injEq] at heq
    rw [List.span_eq_take_drop] at h
    simp only [Option.some.injEq, Prod.mk.injEq] at h
    obtain ⟨hk, hv, hr⟩ := h
    subst hk hv hr
    refine ⟨?_, ?_, ?_⟩
    · have h1 := List.takeWhile_append_dropWhile clsNotColon s
      have h2 := List.takeWhile_append_dropWhile clsNotCRLF r1
      rw [heq.1, heq.2] at h1
      rw [h2]
      exact h1.symm
    · intro c hc
      rw [← heq.1] at hc
      exact List.mem_takeWhile_imp hc
    · intro c hc
      exact List.mem_takeWhile_imp hc
  · simp at h

/-- Every successful search for a field leaves a text shorter by at least the two
bytes of the separator. -/
theorem regexec_matchField_length (s key value rest : List Char)
    (h : regexec matchField s = some (key, value, rest)) : rest.length + 2 ≤ s.length := by
  obtain ⟨t, ht, hm⟩ := regexecBol_some matchField true s _ h
  have h1 := (matchField_some t key value rest hm).1
  have h2 := ht.length_le
  rw [h1] at h2
  simp only [List.length_append, List.length_cons] at h2
  omega

/-- The loop of `parseFields` ends before its fuel does. -/
theorem parseFieldsLoop_isSome (fuel : Nat) (fields : KeyValueArray) (s : List Char)
    (h : s.length < fuel) : ∃ fs, parseFieldsLoop fuel fields s = some fs := by
  induction fuel generalizing fields s with
  | zero => omega
  | succ n ih =>
    unfold parseFieldsLoop
    cases hm : regexec matchField s with
    | none => exact ⟨fields, rfl⟩
    | some r =>
      obtain ⟨key, value, rest⟩ := r
      have := regexec_matchField_length s key value rest hm
      exact ih _ rest (by omega)

theorem parseFields_total (fields : KeyValueArray) (buffer : List Char) :
    ∃ fs, parseFields fields buffer = some (0, fs) := by
  obtain ⟨fs, h⟩ := parseFieldsLoop_isSome (buffer.length + 1) fields buffer (by omega)
  exact ⟨fs, by simp [parseFields, h]⟩

theorem parseRequestLine_code (info : HTTPRequestInfo) (s : List Char) :
    ((parseRequestLine info s).1 = 0 ∨ (parseRequestLine info s).1 = E_NO_MATCH) := by
  unfold parseRequestLine
  split <;> simp

theorem parseResponseLine_code (info : HTTPResponseInfo) (s : List Char) :
    ((parseResponseLine info s).1 = 0 ∨ (parseResponseLine info s).1 = E_NO_MATCH) := by
  unfold parseResponseLine
  split <;> simp

/-- The function `parseRequestHeader` always returns, with code `E_NOT_HTTP` and the
record untouched when there is no end-of-header marker, and with code 0 or
`E_NO_MATCH` otherwise. -/
theorem parseRequestHeader_cases (header : HTTPRequestHeader) (buffer : List Char) :
    (¬ ['\r', '\n', '\r', '\n'] <:+: buffer
        ∧ parseRequestHeader header buffer = some (E_NOT_HTTP, header))
    ∨ (['\r', '\n', '\r', '\n'] <:+: buffer
        ∧ ∃ r h, parseRequestHeader header buffer = some (r, h) ∧ (r = 0 ∨ r = E_NO_MATCH)) := by
  unfold parseRequestHeader
  cases hs : strstr buffer ['\r', '\n', '\r', '\n'] with
  | none =>
    left
    exact ⟨(strstr_eq_none_iff _ _).mp hs, rfl⟩
  | some i =>
    right
    refine ⟨?_, ?_⟩
    · rw [← strstr_isSome_iff, hs]; rfl
    · simp only
      rcases parseRequestLine_code header.request_info (List.take (i + 2) buffer) with h0 | h1
      · obtain ⟨fs, hfs⟩ := parseFields_total header.fields (List.take (i + 2) buffer)
        exact ⟨0, _, by simp [h0, hfs]; rfl, Or.inl rfl⟩
      · exact ⟨E_NO_MATCH, _, by simp [h1, E_NO_MATCH]; rfl, Or.inr rfl⟩

theorem parseResponseHeader_cases (header : HTTPResponseHeader) (buffer : List Char) :
    (¬ ['\r', '\n', '\r', '\n'] <:+: buffer
        ∧ parseResponseHeader header buffer = some (E_NOT_HTTP, header))
    ∨ (['\r', '\n', '\r', '\n'] <:+: buffer
        ∧ ∃ r h, parseResponseHeader header buffer = some (r, h) ∧ (r = 0 ∨ r = E_NO_MATCH)) := by
  unfold parseResponseHeader
  cases hs : strstr buffer ['\r', '\n', '\r', '\n'] with
  | none =>
    left
    exact ⟨(strstr_eq_none_iff _ _).mp hs, rfl⟩
  | some i =>
    right
    refine ⟨?_, ?_⟩
    · rw [← strstr_isSome_iff, hs]; rfl
    · simp only
      rcases parseResponseLine_code header.response_info (List.take (i + 4) buffer) with h0 | h1
      · obtain ⟨fs, hfs⟩ := parseFields_total header.fields (List.take (i + 4) buffer)
        exact ⟨0, _, by simp [h0, hfs]; rfl, Or.inl rfl⟩
      · exact ⟨E_NO_MATCH, _, by simp [h1, E_NO_MATCH]; rfl, Or.inr rfl⟩

theorem foldl_strcat_fields (fields : KeyValueArray) (init : List Char) :
    fields.foldl (fun buf kv => strcat (strcat (strcat (strcat buf kv.key) [':', ' ']) kv.value)
        ['\r', '\n']) init
      = init ++ (fields.map
          (fun kv => kv.key ++ [':', ' '] ++ kv.value ++ ['\r', '\n'])).flatten := by
  induction fields generalizing init with
  | nil => simp
  | cons kv rest ih =>
    rw [List.foldl_cons, ih]
    simp [strcat]

theorem foldl_strlen_fields (fields : KeyValueArray) (init : Nat) :
    fields.foldl (fun n kv => n + strlen kv.key + strlen [':', ' '] + strlen kv.value
        + strlen ['\r', '\n']) init
      = init + ((fields.map
          (fun kv => kv.key ++ [':', ' '] ++ kv.value ++ ['\r', '\n'])).flatten).length := by
  induction fields generalizing init with
  | nil => simp
  | cons kv rest ih =>
    rw [List.foldl_cons, ih]
    simp only [strlen, List.map_cons, List.flatten_cons, List.length_append,
      List.length_cons, List.length_nil]
    omega

/-- The full result of `serializeRequestHeader` on a header whose start-line strings
are set. -/
theorem serializeRequestHeader_eq (req_type resource http_version : List Char)
    (fields : KeyValueArray) :
    serializeRequestHeader
        { request_info := { req_type := some req_type, resource := some resource,
                            http_version := some http_version },
          fields := fields }
      = some (0,
          specRequestText req_type resource http_version
            (fields.map (fun kv => (kv.key, kv.value))),
          (specRequestText req_type resource http_version
            (fields.map (fun kv => (kv.key, kv.value)))).length) := by
  simp only [serializeRequestHeader, requestHeaderLength]
  rw [foldl_strcat_fields, foldl_strlen_fields]
  simp only [strcat, strlen, specRequestText, List.map_map, Function.comp_def,
    List.nil_append, Option.some.injEq, Prod.mk.injEq, true_and]
  simp only [List.length_append, List.length_cons, List.length_nil]
  omega

theorem requestHeaderLength_eq (req_type resource http_version : List Char)
    (fields : KeyValueArray) :
    requestHeaderLength
        { request_info := { req_type := some req_type, resource := some resource,
                            http_version := some http_version },
          fields := fields }
      = some (specRequestText req_type resource http_version
            (fields.map (fun kv => (kv.key, kv.value)))).length := by
  simp only [requestHeaderLength]
  rw [foldl_strlen_fields]
  simp only [strlen, specRequestText, List.map_map, Function.comp_def,
    Option.some.injEq]
  simp only [List.length_append, List.length_cons, List.length_nil]
  omega

/-! ## Lemmas on the filter engine -/

theorem infix_map_iff (f : Char → Char) (l b : List Char) :
    l <:+: b.map f ↔ ∃ pre mid post, b = pre ++ mid ++ post ∧ mid.map f = l := by
  constructor
  · rintro ⟨s, t, h⟩
    have h1 : b.map f = s ++ (l ++ t) := by rw [← h, List.append_assoc]
    obtain ⟨pre, r, hb, hpre, hr⟩ := List.map_eq_append_iff.mp h1
    obtain ⟨mid, post, hr2, hmid, hpost⟩ := List.map_eq_append_iff.mp hr
    exact ⟨pre, mid, post, by rw [hb, hr2, List.append_assoc], hmid⟩
  · rintro ⟨pre, mid, post, hb, hmid⟩
    exact ⟨pre.map f, post.map f, by rw [hb, ← hmid]; simp⟩

theorem containsWord_iff (buffer word : List Char) :
    containsWord buffer word = true
      ↔ ∃ pre mid post, buffer = pre ++ mid ++ post
          ∧ mid.map Char.toLower = word.map Char.toLower := by
  unfold containsWord strcasestr
  rw [strstr_isSome_iff, infix_map_iff]
  rfl

theorem applyFilter_words (buffer : List Char) :
    applyFilter buffer = true
      ↔ ∃ word ∈ filtered_words, ∃ pre mid post, buffer = pre ++ mid ++ post
          ∧ mid.map Char.toLower = word.map Char.toLower := by
  unfold applyFilter
  rw [List.any_eq_true]
  constructor
  · rintro ⟨w, hw, hc⟩
    exact ⟨w, hw, (containsWord_iff buffer w).mp hc⟩
  · rintro ⟨w, hw, hc⟩
    exact ⟨w, hw, (containsWord_iff buffer w).mpr hc⟩

theorem shouldApplyContentFilterHeader_no_encoding (resp_header : HTTPResponseHeader)
    (h : getValue resp_header.fields "Content-Encoding".toList = none) :
    shouldApplyContentFilterHeader resp_header
      = some (match getValue resp_header.fields "Content-Type".toList with
              | some v => (strstr v "text".toList).isSome
              | none => false) := by
  unfold shouldApplyContentFilterHeader
  simp only [h]
  cases getValue resp_header.fields "Content-Type".toList <;> simp

/-! ## Lemmas on the response forwarder -/

theorem bufferChunk_filter_off (c : List Char) (env : MidlayerCallbackEnv)
    (h : env.apply_filter = false) : bufferChunk c env = some (Except.ok env) := by
  simp [bufferChunk, h]

theorem bufferChunk_have_header (c : List Char) (env : MidlayerCallbackEnv)
    (h : env.apply_filter = true) (hh : env.have_header = true) :
    bufferChunk c env
      = some (Except.ok { env with cache_buffer := env.cache_buffer ++ c }) := by
  simp [bufferChunk, h, hh]

theorem bufferChunk_recognised (c : List Char) (env : MidlayerCallbackEnv)
    (resp_header : HTTPResponseHeader) (gate : Bool)
    (h : env.apply_filter = true) (hh : env.have_header = false)
    (hp : parseResponseHeader initResponseHeader (cstr (env.cache_buffer ++ c))
      = some (0, resp_header))
    (hg : shouldApplyContentFilterHeader resp_header = some gate) :
    bufferChunk c env
      = some (Except.ok { env with cache_buffer := env.cache_buffer ++ c,
                                   have_header := true, apply_filter := gate }) := by
  simp [bufferChunk, h, hh, hp, hg]

theorem bufferChunk_not_recognised (c : List Char) (env : MidlayerCallbackEnv)
    (r : Int) (resp_header : HTTPResponseHeader)
    (h : env.apply_filter = true) (hh : env.have_header = false)
    (hp : parseResponseHeader initResponseHeader (cstr (env.cache_buffer ++ c))
      = some (r, resp_header))
    (hr : r ≠ 0) (hlen : (env.cache_buffer ++ c).length ≤ MAX_HEADER_SIZE) :
    bufferChunk c env
      = some (Except.ok { env with cache_buffer := env.cache_buffer ++ c }) := by
  have : ¬ (MAX_HEADER_SIZE < env.cache_buffer.length + c.length) := by
    simp only [List.length_append] at hlen; omega
  simp [bufferChunk, h, hh, hp, hr, this]

/-- What the buffering block leaves behind when it does not abort. -/
theorem bufferChunk_ok (c : List Char) (env env1 : MidlayerCallbackEnv)
    (h : env.apply_filter = true) (hb : bufferChunk c env = some (Except.ok env1)) :
    env1.cache_buffer = env.cache_buffer ++ c ∧ env1.block_response = env.block_response := by
  unfold bufferChunk at hb
  simp only [h, if_true] at hb
  split at hb
  · split at hb
    · simp at hb
    · rename_i retval resp_header hp
      split at hb
      · cases hg : shouldApplyContentFilterHeader resp_header with
        | none => simp [hg] at hb
        | some g =>
          simp only [hg, Option.map_some', Option.some.injEq] at hb
          split at hb
          · simp at hb
          · simp only [Except.ok.injEq] at hb
            subst hb
            exact ⟨rfl, rfl⟩
      · simp only [Option.map_some', Option.some.injEq] at hb
        split at hb
        · simp at hb
        · simp only [Except.ok.injEq] at hb
          subst hb
          exact ⟨rfl, rfl⟩
  · simp only [Option.some.injEq, Except.ok.injEq] at hb
    subst hb
    exact ⟨rfl, rfl⟩

/-- The second part of `forwardToClient`, after a buffering block that did not abort. -/
theorem forwardToClient_of_bufferChunk (c : List Char) (env env1 : MidlayerCallbackEnv)
    (hb : bufferChunk c env = some (Except.ok env1)) (hblock : env1.block_response = false) :
    forwardToClient c env =
      if env1.apply_filter = false then
        if env1.cache_buffer = [] then some (0, [c], env1)
        else some (0, [env1.cache_buffer], { env1 with cache_buffer := [] })
      else if c = [] then
        if applyFilter (cstr env1.cache_buffer) = true then
          some (1, [filtered_redirect_content], { env1 with block_response := true })
        else some (0, [env1.cache_buffer], env1)
      else some (0, [], env1) := by
  unfold forwardToClient
  simp only [hb]
  by_cases hf : env1.apply_filter = false
  · by_cases hc : env1.cache_buffer = []
    · simp [hf, hc, hblock]
    · simp [hf, hc, hblock]
  · have hf1 : env1.apply_filter = true := by simpa using hf
    by_cases hc : c = []
    · by_cases ha : applyFilter (cstr env1.cache_buffer) = true
      · simp [hf1, hc, ha]
      · have ha0 : applyFilter (cstr env1.cache_buffer) = false := by simpa using ha
        simp [hf1, hc, ha0]
        cases env1
        simp_all
    · simp [hf1, hc, hblock]

/-- A state that has decided not to filter and holds no cached bytes forwards the chunk
and stays as it is. -/
theorem forwardToClient_filter_off (c : List Char) (env : MidlayerCallbackEnv)
    (hblock : env.block_response = false) (hf : env.apply_filter = false)
    (hc : env.cache_buffer = []) :
    forwardToClient c env = some (0, [c], env) := by
  rw [forwardToClient_of_bufferChunk c env env (bufferChunk_filter_off c env hf) hblock]
  simp [hf, hc]

/-- One call of the forwarder that returns 0, from a state that has either decided not
to filter (and then holds no cached bytes) or is still caching. -/
theorem forwardToClient_zero (c : List Char) (env env1 : MidlayerCallbackEnv)
    (sent : List (List Char))
    (hblock : env.block_response = false)
    (hinv : env.apply_filter = true ∨ env.cache_buffer = [])
    (h : forwardToClient c env = some (0, sent, env1)) :
    env1.block_response = false
      ∧ (env1.apply_filter = true ∨ env1.cache_buffer = [])
      ∧ (env1.apply_filter = true → c ≠ [] →
          sent = [] ∧ env1.cache_buffer = env.cache_buffer ++ c)
      ∧ (env1.apply_filter = false ∨ c = [] → sent.flatten = env.cache_buffer ++ c) := by
  by_cases hfe : env.apply_filter = true
  · cases hbc : bufferChunk c env with
    | none => simp [forwardToClient, hbc] at h
    | some res =>
      cases res with
      | error e => simp [forwardToClient, hbc] at h
      | ok env2 =>
        obtain ⟨hc2, hb2'⟩ := bufferChunk_ok c env env2 hfe hbc
        have hb2 : env2.block_response = false := by rw [hb2', hblock]
        rw [forwardToClient_of_bufferChunk c env env2 hbc hb2] at h
        by_cases hf : env2.apply_filter = false
        · by_cases hc : env2.cache_buffer = []
          · rw [if_pos hf, if_pos hc] at h
            simp only [Option.some.injEq, Prod.mk.injEq, true_and] at h
            obtain ⟨hs, he⟩ := h
            subst hs he
            refine ⟨hb2, Or.inr hc, ?_, ?_⟩
            · intro h1; rw [hf] at h1; exact absurd h1 (by simp)
            · intro _
              have : env.cache_buffer = [] ∧ c = [] := by
                rw [hc2] at hc; simpa using hc
              simp [this.1, this.2]
          · rw [if_pos hf, if_neg hc] at h
            simp only [Option.some.injEq, Prod.mk.injEq, true_and] at h
            obtain ⟨hs, he⟩ := h
            subst hs he
            refine ⟨hb2, Or.inr rfl, ?_, ?_⟩
            · intro h1; simp only [hf] at h1; exact absurd h1 (by simp)
            · intro _; simp [hc2]
        · have hf1 : env2.apply_filter = true := by simpa using hf
          by_cases hc : c = []
          · by_cases ha : applyFilter (cstr env2.cache_buffer) = true
            · rw [if_neg hf, if_pos hc, if_pos ha] at h
              simp at h
            · rw [if_neg hf, if_pos hc, if_neg ha] at h
              simp only [Option.some.injEq, Prod.mk.injEq, true_and] at h
              obtain ⟨hs, he⟩ := h
              subst hs he
              refine ⟨hb2, Or.inl hf1, ?_, ?_⟩
              · intro _ hne; exact absurd hc hne
              · intro _; simp [hc2, hc]
          · rw [if_neg hf, if_neg hc] at h
            simp only [Option.some.injEq, Prod.mk.injEq, true_and] at h
            obtain ⟨hs, he⟩ := h
            subst hs he
            refine ⟨hb2, Or.inl hf1, ?_, ?_⟩
            · intro _ _; exact ⟨rfl, hc2⟩
            · intro h1
              rcases h1 with h1 | h1
              · rw [hf1] at h1; exact absurd h1 (by simp)
              · exact absurd h1 hc
  · have hf0 : env.apply_filter = false := by simpa using hfe
    have hc : env.cache_buffer = [] := by
      rcases hinv with h1 | h1
      · exact absurd h1 hfe
      · exact h1
    rw [forwardToClient_filter_off c env hblock hf0 hc] at h
    simp only [Option.some.injEq, Prod.mk.injEq, true_and] at h
    obtain ⟨hs, he⟩ := h
    subst hs he
    refine ⟨hblock, Or.inr hc, ?_, ?_⟩
    · intro h1; exact absurd h1 hfe
    · intro _; simp [hc]

/-- Pass-through of a whole read loop that ends with code 0. -/
theorem readFromSocket_passthrough (chunks : List (List Char)) (env env1 : MidlayerCallbackEnv)
    (sent : List (List Char))
    (hne : ∀ c ∈ chunks, c ≠ [])
    (hblock : env.block_response = false)
    (hinv : env.apply_filter = true ∨ env.cache_buffer = [])
    (h : readFromSocket forwardToClient (chunks.map some ++ [some []]) env
      = some (0, sent, env1)) :
    sent.flatten = env.cache_buffer ++ chunks.flatten := by
  induction chunks generalizing env sent with
  | nil =>
    simp only [List.map_nil, List.nil_append, readFromSocket] at h
    cases hf : forwardToClient [] env with
    | none => simp [hf] at h
    | some r =>
      obtain ⟨stat, s1, e1⟩ := r
      simp only [hf] at h
      by_cases hs : stat = 0
      · subst hs
        simp only [bne_self_eq_false, Bool.false_eq_true, if_false, List.length_nil,
          beq_self_eq_true, if_true, Option.some.injEq, Prod.mk.injEq, true_and] at h
        obtain ⟨hs1, _⟩ := h
        subst hs1
        have := (forwardToClient_zero [] env e1 s1 hblock hinv hf).2.2.2 (Or.inr rfl)
        simpa using this
      · have hs2 : (stat != 0) = true := by simpa using hs
        rw [if_pos hs2] at h
        simp only [Option.some.injEq, Prod.mk.injEq] at h
        exact absurd h.1 hs
  | cons c cs ih =>
    have hc : c ≠ [] := hne c (List.mem_cons_self _ _)
    simp only [List.map_cons, List.cons_append, readFromSocket] at h
    cases hf : forwardToClient c env with
    | none => simp [hf] at h
    | some r =>
      obtain ⟨stat, s1, e1⟩ := r
      simp only [hf] at h
      by_cases hs : stat = 0
      · subst hs
        have hlen : ¬ (c.length = 0) := by
          intro h0; exact hc (List.length_eq_zero.mp h0)
        simp only [bne_self_eq_false, Bool.false_eq_true, if_false, beq_iff_eq, hlen] at h
        cases hr : readFromSocket forwardToClient (cs.map some ++ [some []]) e1 with
        | none => simp [hr] at h
        | some r2 =>
          obtain ⟨stat2, s2, e2⟩ := r2
          simp only [List.append_eq, hr, Option.map_some', Option.some.injEq,
            Prod.mk.injEq] at h
          obtain ⟨hstat, hsent, he⟩ := h
          subst hstat hsent he
          obtain ⟨hb1, hinv1, hA, hB⟩ := forwardToClient_zero c env e1 s1 hblock hinv hf
          have ih1 := ih e1 s2 (fun x hx => hne x (List.mem_cons_of_mem _ hx)) hb1 hinv1 hr
          rw [List.flatten_append, ih1, List.flatten_cons]
          by_cases hf1 : e1.apply_filter = true
          · obtain ⟨hs1, hc1⟩ := hA hf1 hc
            rw [hs1, hc1]
            simp
          · have hf0 : e1.apply_filter = false := by simpa using hf1
            have hc1 : e1.cache_buffer = [] := by
              rcases hinv1 with h1 | h1
              · exact absurd h1 hf1
              · exact h1
            rw [hB (Or.inl hf0), hc1]
            simp
      · have hs2 : (stat != 0) = true := by simpa using hs
        rw [if_pos hs2] at h
        simp only [Option.some.injEq, Prod.mk.injEq] at h
        exact absurd h.1 hs

/-- A filter-armed state keeps a non-empty chunk in the cache and sends nothing. -/
theorem forwardToClient_caching (c : List Char) (env env1 : MidlayerCallbackEnv)
    (hb : bufferChunk c env = some (Except.ok env1))
    (hblock : env1.block_response = false) (hf : env1.apply_filter = true) (hc : c ≠ []) :
    forwardToClient c env = some (0, [], env1) := by
  rw [forwardToClient_of_bufferChunk c env env1 hb hblock]
  simp [hf, hc]

/-- At the end of the stream a filter-armed state whose cached string holds a keyword
sends the canned redirect and returns 1. -/
theorem forwardToClient_eof_block (env : MidlayerCallbackEnv)
    (hblock : env.block_response = false) (hf : env.apply_filter = true)
    (hh : env.have_header = true) (ha : applyFilter (cstr env.cache_buffer) = true) :
    forwardToClient [] env
      = some (1, [filtered_redirect_content], { env with block_response := true }) := by
  have hb := bufferChunk_have_header [] env hf hh
  rw [List.append_nil] at hb
  rw [forwardToClient_of_bufferChunk [] env _ hb hblock]
  simp [hf, ha]

theorem readFromSocket_cons_zero {σ : Type}
    (callback : List Char → σ → Option (Int × List (List Char) × σ))
    (d : List Char) (reads : List (Option (List Char))) (env env1 : σ)
    (sent : List (List Char)) (hd : d ≠ []) (h : callback d env = some (0, sent, env1)) :
    readFromSocket callback (some d :: reads) env
      = (readFromSocket callback reads env1).map (fun r => (r.1, sent ++ r.2.1, r.2.2)) := by
  have hlen : ¬ (d.length = 0) := fun h0 => hd (List.length_eq_zero.mp h0)
  simp [readFromSocket, h, hlen]

/-- Once the header is recognised and the filter stays armed, data chunks are only
cached. -/
theorem readFromSocket_caching (post : List (List Char)) (reads : List (Option (List Char)))
    (env : MidlayerCallbackEnv)
    (hne : ∀ x ∈ post, x ≠ [])
    (hblock : env.block_response = false) (hf : env.apply_filter = true)
    (hh : env.have_header = true) :
    readFromSocket forwardToClient (post.map some ++ reads) env
      = readFromSocket forwardToClient reads
          { env with cache_buffer := env.cache_buffer ++ post.flatten } := by
  induction post generalizing env with
  | nil => simp
  | cons c cs ih =>
    have hc : c ≠ [] := hne c (List.mem_cons_self _ _)
    have hstep := forwardToClient_caching c env _ (bufferChunk_have_header c env hf hh)
      hblock hf hc
    rw [List.map_cons, List.cons_append, readFromSocket_cons_zero _ c _ env _ [] hc hstep]
    rw [ih { env with cache_buffer := env.cache_buffer ++ c }
      (fun x hx => hne x (List.mem_cons_of_mem _ hx)) hblock hf hh]
    simp only [List.nil_append, List.flatten_cons, List.append_assoc]
    cases readFromSocket forwardToClient reads
      { env with cache_buffer := env.cache_buffer ++ (c ++ cs.flatten) } <;> rfl

/-- Before a header is recognised, and while the cache stays within
`MAX_HEADER_SIZE`, data chunks are only cached. -/
theorem readFromSocket_before_header (pre : List (List Char))
    (reads : List (Option (List Char))) (env : MidlayerCallbackEnv)
    (hne : ∀ x ∈ pre, x ≠ [])
    (hblock : env.block_response = false) (hf : env.apply_filter = true)
    (hh : env.have_header = false)
    (hpre : ∀ p, p <+: pre → p ≠ [] →
      (env.cache_buffer ++ p.flatten).length ≤ MAX_HEADER_SIZE
        ∧ ∀ h, parseResponseHeader initResponseHeader (cstr (env.cache_buffer ++ p.flatten))
            ≠ some (0, h)) :
    readFromSocket forwardToClient (pre.map some ++ reads) env
      = readFromSocket forwardToClient reads
          { env with cache_buffer := env.cache_buffer ++ pre.flatten } := by
  induction pre generalizing env with
  | nil => simp
  | cons c cs ih =>
    have hc : c ≠ [] := hne c (List.mem_cons_self _ _)
    have h1 := hpre [c] (by simp [List.prefix_cons_iff]) (by simp)
    simp only [List.flatten_cons, List.flatten_nil, List.append_nil] at h1
    obtain ⟨hlen, hnot⟩ := h1
    have hparse : ∃ r h, parseResponseHeader initResponseHeader (cstr (env.cache_buffer ++ c))
        = some (r, h) ∧ r ≠ 0 := by
      rcases parseResponseHeader_cases initResponseHeader (cstr (env.cache_buffer ++ c))
        with ⟨_, h2⟩ | ⟨_, r, h, h2, h3⟩
      · exact ⟨_, _, h2, by decide⟩
      · refine ⟨r, h, h2, ?_⟩
        intro h0
        subst h0
        exact hnot h h2
    obtain ⟨r, h, hp, hr⟩ := hparse
    have hbc := bufferChunk_not_recognised c env r h hf hh hp hr hlen
    have hstep := forwardToClient_caching c env _ hbc hblock hf hc
    rw [List.map_cons, List.cons_append, readFromSocket_cons_zero _ c _ env _ [] hc hstep]
    rw [ih { env with cache_buffer := env.cache_buffer ++ c }
      (fun x hx => hne x (List.mem_cons_of_mem _ hx)) hblock hf hh]
    · simp only [List.nil_append, List.flatten_cons, List.append_assoc]
      cases readFromSocket forwardToClient reads
        { env with cache_buffer := env.cache_buffer ++ (c ++ cs.flatten) } <;> rfl
    · intro p hp1 hp2
      have := hpre (c :: p) (by simpa [List.prefix_cons_iff] using hp1) (by simp)
      simpa [List.append_assoc] using this

/-! ## Parsing a well-formed header text -/

theorem wireLines_append_tail (ls : List (List Char)) (tail : List Char) :
    wireLines ls tail = wireLines ls [] ++ tail := by
  induction ls with
  | nil => simp [wireLines]
  | cons l ls ih =>
    simp only [wireLines, List.foldr_cons] at ih ⊢
    rw [ih]
    simp

theorem wireLines_length (ls : List (List Char)) :
    ls.length ≤ (wireLines ls []).length := by
  induction ls with
  | nil => simp [wireLines]
  | cons l ls ih =>
    simp only [wireLines, List.foldr_cons, List.length_append, List.length_cons] at ih ⊢
    omega

theorem specRequestText_eq_wireLines (method target version : List Char)
    (fields : List (List Char × List Char)) :
    specRequestText method target version fields
      = wireLines (requestLine method target version :: fields.map fieldLine) ['\r', '\n'] := by
  have h : ∀ fs : List (List Char × List Char), ∀ tail : List Char,
      (fs.map (fun f => f.1 ++ [':', ' '] ++ f.2 ++ ['\r', '\n'])).flatten ++ tail
        = wireLines (fs.map fieldLine) tail := by
    intro fs tail
    induction fs with
    | nil => simp [wireLines]
    | cons f fs ih =>
      simp only [wireLines, List.map_cons, List.foldr_cons, List.flatten_cons] at ih ⊢
      rw [List.append_assoc, ih]
      simp [fieldLine]
  unfold specRequestText
  rw [List.append_assoc _ _ ['\r', '\n'], h]
  simp [wireLines, requestLine]

/-! ### `strstr` on a text made of lines -/

theorem strstr_cons_ne (c : Char) (s : List Char) (hc : c ≠ '\r') :
    strstr (c :: s) ['\r', '\n', '\r', '\n']
      = (strstr s ['\r', '\n', '\r', '\n']).map (fun i => i + 1) := by
  simp [strstr, List.isPrefixOf, hc.symm]

theorem strstr_cons_cons_ne (c d : Char) (s : List Char) (hd : d ≠ '\n') :
    strstr (c :: d :: s) ['\r', '\n', '\r', '\n']
      = (strstr (d :: s) ['\r', '\n', '\r', '\n']).map (fun i => i + 1) := by
  have : (['\r', '\n', '\r', '\n'].isPrefixOf (c :: d :: s)) = false := by
    simp [List.isPrefixOf, hd.symm]
  rw [strstr, this]
  simp

/-- The search skips a line without LF that is closed by CRLF. -/
theorem strstr_skip_line (l tail : List Char) (hl : ∀ c ∈ l, c ≠ '\n') :
    strstr (l ++ '\r' :: '\n' :: tail) ['\r', '\n', '\r', '\n']
      = (strstr ('\r' :: '\n' :: tail) ['\r', '\n', '\r', '\n']).map
          (fun i => i + l.length) := by
  induction l with
  | nil => simp
  | cons c l ih =>
    have ih1 := ih (fun x hx => hl x (List.mem_cons_of_mem _ hx))
    have hstep : strstr (c :: (l ++ '\r' :: '\n' :: tail)) ['\r', '\n', '\r', '\n']
        = (strstr (l ++ '\r' :: '\n' :: tail) ['\r', '\n', '\r', '\n']).map
            (fun i => i + 1) := by
      cases l with
      | nil => exact strstr_cons_cons_ne c '\r' _ (by decide)
      | cons d l2 =>
        exact strstr_cons_cons_ne c d _ (hl d (by simp))
    rw [List.cons_append, hstep, ih1]
    cases strstr ('\r' :: '\n' :: tail) ['\r', '\n', '\r', '\n'] with
    | none => rfl
    | some i => simp only [Option.map_some', List.length_cons, Option.some.injEq]; omega

/-- A CRLF followed by a non-empty line is not the end-of-header marker. -/
theorem strstr_crlf_line (l tail : List Char) (hne : l ≠ []) (hl : ∀ c ∈ l, c ≠ '\n') :
    strstr ('\r' :: '\n' :: (l ++ '\r' :: '\n' :: tail)) ['\r', '\n', '\r', '\n']
      = (strstr (l ++ '\r' :: '\n' :: tail) ['\r', '\n', '\r', '\n']).map
          (fun i => i + 2) := by
  cases l with
  | nil => exact absurd rfl hne
  | cons c l2 =>
    have hc : c ≠ '\n' := hl c (by simp)
    have h0 : (['\r', '\n', '\r', '\n'].isPrefixOf
        ('\r' :: '\n' :: (c :: l2 ++ '\r' :: '\n' :: tail))) = false := by
      cases l2 with
      | nil =>
        simp only [List.isPrefixOf, List.cons_append, List.nil_append]
        simp
      | cons d l3 =>
        have hd : d ≠ '\n' := hl d (by simp)
        simp only [List.isPrefixOf, List.cons_append]
        simp [hd.symm]
    rw [strstr, h0]
    simp only [Bool.false_eq_true, if_false]
    rw [strstr_cons_ne '\n' _ (by decide)]
    cases strstr (c :: l2 ++ '\r' :: '\n' :: tail) ['\r', '\n', '\r', '\n'] with
    | none => rfl
    | some i => simp

/-- The end-of-header marker of a text made of non-empty lines without LF is the CRLF
of the last line followed by the empty line. -/
theorem strstr_wireLines (l : List Char) (ls : List (List Char)) (rest : List Char)
    (hne : ∀ x ∈ l :: ls, x ≠ []) (hl : ∀ x ∈ l :: ls, ∀ c ∈ x, c ≠ '\n') :
    ∃ i, strstr (wireLines (l :: ls) ('\r' :: '\n' :: rest)) ['\r', '\n', '\r', '\n'] = some i
      ∧ i + 2 = (wireLines (l :: ls) []).length := by
  induction ls generalizing l with
  | nil =>
    refine ⟨l.length, ?_, by simp [wireLines]⟩
    simp only [wireLines, List.foldr_cons, List.foldr_nil]
    rw [strstr_skip_line l _ (hl l (by simp))]
    simp [strstr, List.isPrefixOf]
  | cons l1 ls ih =>
    obtain ⟨i, hi, hlen⟩ := ih l1 (fun x hx => hne x (List.mem_cons_of_mem _ hx))
      (fun x hx => hl x (List.mem_cons_of_mem _ hx))
    refine ⟨i + 2 + l.length, ?_, ?_⟩
    · simp only [wireLines, List.foldr_cons] at hi ⊢
      rw [strstr_skip_line l _ (hl l (by simp)),
        strstr_crlf_line l1 _ (hne l1 (by simp)) (hl l1 (by simp)), hi]
      simp
    · simp only [wireLines, List.foldr_cons, List.length_append, List.length_cons] at hlen ⊢
      omega

/-! ### The pattern matchers on a text made of lines -/

theorem span_append_cons (p : Char → Bool) (l r : List Char) (c : Char)
    (hl : ∀ x ∈ l, p x = true) (hc : p c = false) :
    (l ++ c :: r).span p = (l, c :: r) := by
  rw [List.span_eq_take_drop, List.takeWhile_append_of_pos hl,
    List.dropWhile_append_of_pos hl]
  simp [hc]

theorem regexecBol_of_match {α : Type} (m : List Char → Option α) (s : List Char) (r : α)
    (h : m s = some r) : regexecBol m true s = some r := by
  cases s with
  | nil => simp [regexecBol, h]
  | cons c cs => simp [regexecBol, h]

/-- Without an anchor the search moves on to the next line. -/
theorem regexecBol_false_line {α : Type} (m : List Char → Option α) (l s : List Char)
    (hl : ∀ c ∈ l, c ≠ '\n') :
    regexecBol m false (l ++ '\n' :: s) = regexecBol m true s := by
  induction l with
  | nil => simp [regexecBol]
  | cons c l ih =>
    have hc : c ≠ '\n' := hl c (by simp)
    simp only [List.cons_append, regexecBol, Bool.false_eq_true, if_false]
    have : (c == '\n') = false := by simpa using hc
    rw [this]
    exact ih (fun x hx => hl x (List.mem_cons_of_mem _ hx))

/-- A line on which the pattern does not match is passed over. -/
theorem regexecBol_skip_line {α : Type} (m : List Char → Option α) (l s : List Char)
    (hl : ∀ c ∈ l, c ≠ '\n') (hm : m (l ++ '\r' :: '\n' :: s) = none) :
    regexecBol m true (l ++ '\r' :: '\n' :: s) = regexecBol m true s := by
  cases l with
  | nil =>
    simp only [List.nil_append] at hm ⊢
    simp only [regexecBol, if_true, hm]
    have : ('\r' == '\n') = false := by decide
    rw [this]
    exact regexecBol_false_line m [] s (by simp)
  | cons c l2 =>
    have hc : c ≠ '\n' := hl c (by simp)
    simp only [List.cons_append] at hm ⊢
    simp only [regexecBol, if_true, hm]
    have : (c == '\n') = false := by simpa using hc
    rw [this]
    have h2 := regexecBol_false_line m (l2 ++ ['\r']) s (by
      intro x hx
      simp only [List.mem_append, List.mem_singleton] at hx
      rcases hx with hx | hx
      · exact hl x (List.mem_cons_of_mem _ hx)
      · rw [hx]; decide)
    simpa using h2

theorem matchRequestLine_requestLine (method target version tail : List Char)
    (hm : ∀ c ∈ method, clsUpper c = true)
    (ht : ∀ c ∈ target, c ≠ ' ' ∧ c ≠ '\n')
    (hv : ∀ c ∈ version, c ≠ '\r' ∧ c ≠ '\n') :
    matchRequestLine (requestLine method target version ++ '\r' :: tail)
      = some (method, target, version) := by
  have h1 : (requestLine method target version ++ '\r' :: tail).span clsUpper
      = (method, ' ' :: (target ++ ' ' :: 'H' :: 'T' :: 'T' :: 'P' :: '/'
          :: (version ++ '\r' :: tail))) := by
    have := span_append_cons clsUpper method
      (target ++ ' ' :: 'H' :: 'T' :: 'T' :: 'P' :: '/' :: (version ++ '\r' :: tail)) ' '
      hm (by decide)
    simpa [requestLine] using this
  have h2 : (target ++ ' ' :: 'H' :: 'T' :: 'T' :: 'P' :: '/'
      :: (version ++ '\r' :: tail)).span clsNotSpace
      = (target, ' ' :: 'H' :: 'T' :: 'T' :: 'P' :: '/' :: (version ++ '\r' :: tail)) :=
    span_append_cons clsNotSpace target _ ' '
      (fun x hx => by simp [clsNotSpace, (ht x hx).1, (ht x hx).2]) (by decide)
  have h3 : (version ++ '\r' :: tail).span clsNotCRLF = (version, '\r' :: tail) :=
    span_append_cons clsNotCRLF version _ '\r'
      (fun x hx => by simp [clsNotCRLF, (hv x hx).1, (hv x hx).2]) (by decide)
  unfold matchRequestLine
  rw [h1]
  simp only
  rw [h2]
  simp only
  rw [h3]

theorem matchField_fieldLine (f : List Char × List Char) (tail : List Char)
    (hk : ∀ c ∈ f.1, c ≠ ':' ∧ c ≠ '\n') (hv : ∀ c ∈ f.2, c ≠ '\r' ∧ c ≠ '\n') :
    matchField (fieldLine f ++ '\r' :: tail) = some (f.1, f.2, '\r' :: tail) := by
  have h1 : (fieldLine f ++ '\r' :: tail).span clsNotColon
      = (f.1, ':' :: ' ' :: (f.2 ++ '\r' :: tail)) := by
    have := span_append_cons clsNotColon f.1 (' ' :: (f.2 ++ '\r' :: tail)) ':'
      (fun x hx => by simp [clsNotColon, (hk x hx).1, (hk x hx).2]) (by decide)
    simpa [fieldLine] using this
  have h3 : (f.2 ++ '\r' :: tail).span clsNotCRLF = (f.2, '\r' :: tail) :=
    span_append_cons clsNotCRLF f.2 _ '\r'
      (fun x hx => by simp [clsNotCRLF, (hv x hx).1, (hv x hx).2]) (by decide)
  unfold matchField
  rw [h1]
  simp only
  rw [h3]

theorem matchField_crlf (tail : List Char) : matchField ('\r' :: '\n' :: tail) = none := by
  have h1 : ('\r' :: '\n' :: tail).span clsNotColon = (['\r'], '\n' :: tail) := by
    have := span_append_cons clsNotColon ['\r'] tail '\n' (by decide) (by decide)
    simpa using this
  unfold matchField
  rw [h1]
  simp

/-- The field pattern does not match at a line whose first colon, if any, is not
followed by a space. -/
theorem matchField_none_of_line (l tail : List Char)
    (hline : ∀ k x, (∀ c ∈ k, c ≠ ':') → l ≠ k ++ ':' :: ' ' :: x) :
    matchField (l ++ '\r' :: '\n' :: tail) = none := by
  cases hm : matchField (l ++ '\r' :: '\n' :: tail) with
  | none => rfl
  | some r =>
    exfalso
    obtain ⟨key, value, rest⟩ := r
    obtain ⟨hs, hkey, _⟩ := matchField_some _ key value rest hm
    have hk1 : ∀ c ∈ key, c ≠ ':' := by
      intro c hc h
      have := hkey c hc
      simp [clsNotColon, h] at this
    have hk2 : ∀ c ∈ key ++ [':', ' '], c ≠ '\n' := by
      intro c hc h
      simp only [List.mem_append, List.mem_cons, List.mem_singleton] at hc
      rcases hc with hc | hc | hc | hc
      · have := hkey c hc
        simp [clsNotColon, h] at this
      · rw [h] at hc; revert hc; decide
      · rw [h] at hc; revert hc; decide
      · simp at hc
    -- `key ++ ": "` and `l ++ "\r\n"` are both initial segments of the same text
    have hp1 : (key ++ [':', ' ']) <+: (l ++ '\r' :: '\n' :: tail) :=
      ⟨value ++ rest, by rw [hs]; simp⟩
    have hp2 : l <+: (l ++ '\r' :: '\n' :: tail) := ⟨_, rfl⟩
    rcases Nat.lt_or_ge l.length (key ++ [':', ' ']).length with hlt | hge
    · -- the separator would have to reach into the CRLF
      have hp3 : l <+: key ++ [':', ' '] :=
        List.prefix_of_prefix_length_le hp2 hp1 (Nat.le_of_lt hlt)
      obtain ⟨u, hu⟩ := hp3
      have hu2 : u ≠ [] := by
        intro h0
        rw [h0, List.append_nil] at hu
        rw [hu] at hlt
        exact Nat.lt_irrefl _ hlt
      obtain ⟨w, hw⟩ := hp1
      rw [← hu, List.append_assoc] at hw
      have hw2 := List.append_cancel_left hw
      cases u with
      | nil => exact hu2 rfl
      | cons a u2 =>
        simp only [List.cons_append, List.cons.injEq] at hw2
        have ha : a = '\r' := hw2.1
        cases u2 with
        | nil =>
          -- `key ++ ": " = l ++ "\r"`: the last bytes differ
          have h3 := congrArg List.getLast? hu
          simp [ha] at h3
        | cons b u3 =>
          simp only [List.cons_append, List.cons.injEq] at hw2
          have hb : b = '\n' := hw2.2.1
          exact hk2 b (by rw [← hu]; simp) hb
    · have hp3 : (key ++ [':', ' ']) <+: l :=
        List.prefix_of_prefix_length_le hp1 hp2 hge
      obtain ⟨x, hx⟩ := hp3
      exact hline key x hk1 (by rw [← hx]; simp)



theorem regexec_matchField_crlf (tail : List Char) :
    regexec matchField ('\r' :: '\n' :: tail) = regexecBol matchField true tail :=
  regexecBol_skip_line matchField [] tail (by simp) (matchField_crlf tail)

/-- The loop of `parseFields` over well-formed field lines stores one pair per line. -/
theorem parseFieldsLoop_fieldLines (pairs : List (List Char × List Char))
    (fuel : Nat) (acc : KeyValueArray) (start : List Char)
    (hfuel : pairs.length < fuel)
    (hp : ∀ p ∈ pairs, (∀ c ∈ p.1, c ≠ ':' ∧ c ≠ '\n') ∧ (∀ c ∈ p.2, c ≠ '\r' ∧ c ≠ '\n'))
    (hstart : regexec matchField start
      = regexecBol matchField true (wireLines (pairs.map fieldLine) [])) :
    parseFieldsLoop fuel acc start = some (acc ++ pairs.map fieldOf) := by
  induction pairs generalizing fuel acc start with
  | nil =>
    cases fuel with
    | zero => simp at hfuel
    | succ n =>
      simp only [List.map_nil, wireLines, List.foldr_nil, regexecBol, if_true] at hstart
      have : matchField [] = none := by decide
      rw [this] at hstart
      simp [parseFieldsLoop, hstart]
  | cons p ps ih =>
    cases fuel with
    | zero => simp at hfuel
    | succ n =>
      have hp0 := hp p (by simp)
      have hm := matchField_fieldLine p ('\n' :: wireLines (ps.map fieldLine) []) hp0.1 hp0.2
      have hs : regexec matchField start
          = some (p.1, p.2, '\r' :: '\n' :: wireLines (ps.map fieldLine) []) := by
        rw [hstart]
        simp only [List.map_cons, wireLines, List.foldr_cons]
        exact regexecBol_of_match _ _ _ hm
      simp only [parseFieldsLoop, hs, addField]
      have hih := ih n (acc ++ [fieldOf p])
        ('\r' :: '\n' :: wireLines (ps.map fieldLine) []) (by simpa using hfuel)
        (fun q hq => hp q (List.mem_cons_of_mem _ hq)) (regexec_matchField_crlf _)
      simp only [fieldOf] at hih ⊢
      rw [hih]
      simp [fieldOf]

/-- Parsing a text made of a start line, field lines and the empty line, possibly
followed by further bytes. -/
theorem parseRequestHeader_wire (header : HTTPRequestHeader)
    (method target version : List Char) (pairs : List (List Char × List Char))
    (rest : List Char)
    (hm : ∀ c ∈ method, clsUpper c = true)
    (ht : ∀ c ∈ target, c ≠ ' ' ∧ c ≠ '\n')
    (hv : ∀ c ∈ version, c ≠ '\r' ∧ c ≠ '\n')
    (hline : ∀ k x, (∀ c ∈ k, c ≠ ':') →
      requestLine method target version ≠ k ++ ':' :: ' ' :: x)
    (hp : ∀ p ∈ pairs, (∀ c ∈ p.1, c ≠ ':' ∧ c ≠ '\n') ∧ (∀ c ∈ p.2, c ≠ '\r' ∧ c ≠ '\n')) :
    parseRequestHeader header
        (wireLines (requestLine method target version :: pairs.map fieldLine)
          ('\r' :: '\n' :: rest))
      = some (0, { request_info := { req_type := some method, resource := some target,
                                      http_version := some version },
                   fields := header.fields ++ pairs.map fieldOf }) := by
  have hne : ∀ x ∈ requestLine method target version :: pairs.map fieldLine, x ≠ [] := by
    intro x hx
    simp only [List.mem_cons, List.mem_map] at hx
    rcases hx with hx | ⟨p, _, hx⟩
    · rw [hx]; simp [requestLine]
    · rw [← hx]; simp [fieldLine]
  have hlf : ∀ x ∈ requestLine method target version :: pairs.map fieldLine,
      ∀ c ∈ x, c ≠ '\n' := by
    intro x hx c hc
    simp only [List.mem_cons, List.mem_map] at hx
    rcases hx with hx | ⟨p, hpm, hx⟩
    · rw [hx] at hc
      simp only [requestLine, List.mem_append, List.mem_cons] at hc
      rcases hc with hc | hc | hc | hc | hc | hc | hc | hc | hc | hc
      · intro h; rw [h] at hc; exact absurd (hm _ hc) (by decide)
      · rw [hc]; decide
      · exact (ht c hc).2
      · rw [hc]; decide
      · rw [hc]; decide
      · rw [hc]; decide
      · rw [hc]; decide
      · rw [hc]; decide
      · rw [hc]; decide
      · exact (hv c hc).2
    · rw [← hx] at hc
      simp only [fieldLine, List.mem_append, List.mem_cons] at hc
      rcases hc with hc | hc | hc | hc
      · exact ((hp p hpm).1 c hc).2
      · rw [hc]; decide
      · rw [hc]; decide
      · exact ((hp p hpm).2 c hc).2
  obtain ⟨i, hi, hlen⟩ := strstr_wireLines (requestLine method target version)
    (pairs.map fieldLine) rest hne hlf
  have htake : List.take (i + 2)
      (wireLines (requestLine method target version :: pairs.map fieldLine)
        ('\r' :: '\n' :: rest))
      = wireLines (requestLine method target version :: pairs.map fieldLine) [] := by
    rw [wireLines_append_tail, hlen]
    simp
  have hrl : parseRequestLine header.request_info
      (wireLines (requestLine method target version :: pairs.map fieldLine) [])
      = (0, { req_type := some method, resource := some target,
              http_version := some version }) := by
    unfold parseRequestLine regexec
    simp only [wireLines, List.foldr_cons]
    rw [regexecBol_of_match _ _ _
      (matchRequestLine_requestLine method target version _ hm ht hv)]
  have hpf : parseFields header.fields
      (wireLines (requestLine method target version :: pairs.map fieldLine) [])
      = some (0, header.fields ++ pairs.map fieldOf) := by
    unfold parseFields
    rw [parseFieldsLoop_fieldLines pairs _ header.fields _ ?_ hp ?_]
    · rfl
    · have := wireLines_length (requestLine method target version :: pairs.map fieldLine)
      simp only [List.length_cons, List.length_map] at this
      omega
    · simp only [wireLines, List.foldr_cons]
      exact regexecBol_skip_line matchField _ _ (hlf _ (by simp))
        (matchField_none_of_line _ _ hline)
  unfold parseRequestHeader
  simp only [hi, htake, hrl, hpf]
  rfl

/-- A line that does not continue with `: ` at its first colon is not of the form
`name: value`. -/
theorem not_fieldForm_of_dropWhile (l : List Char)
    (h : [':', ' '].isPrefixOf (l.dropWhile (fun c => c != ':')) = false) :
    ∀ k x, (∀ c ∈ k, c ≠ ':') → l ≠ k ++ [':', ' '] ++ x := by
  intro k x hk hl
  have hd : l.dropWhile (fun c => c != ':') = ':' :: ' ' :: x := by
    rw [hl, List.append_assoc,
      List.dropWhile_append_of_pos (fun c hc => by simpa using hk c hc)]
    simp
  rw [hd] at h
  simp [List.isPrefixOf] at h

/-! ## The claims -/

/-- C2 (as amended): round trip.  For every request header (method of uppercase letters,
target without spaces, field names without colon, no CR or LF in any string) whose
serialized start line is not itself of the form `name: value` (its first colon is not
followed by a space), `parseRequestHeader` applied to the output of
`serializeRequestHeader` returns 0 and yields the same method, target, version and
ordered list of (name, value) pairs. -/
theorem parse_serialize_roundtrip (method target version : List Char)
    (fields : KeyValueArray)
    (hm : ∀ c ∈ method, 'A' ≤ c ∧ c ≤ 'Z')
    (ht : ∀ c ∈ target, c ≠ ' ' ∧ c ≠ '\r' ∧ c ≠ '\n')
    (hv : ∀ c ∈ version, c ≠ '\r' ∧ c ≠ '\n')
    (hline : ∀ k x, (∀ c ∈ k, c ≠ ':') →
      method ++ [' '] ++ target ++ " HTTP/".toList ++ version ≠ k ++ [':', ' '] ++ x)
    (hf : ∀ kv ∈ fields, (∀ c ∈ kv.key, c ≠ ':' ∧ c ≠ '\r' ∧ c ≠ '\n')
      ∧ (∀ c ∈ kv.value, c ≠ '\r' ∧ c ≠ '\n')) :
    ∃ bytes written_length parsed,
      serializeRequestHeader
          { request_info := { req_type := some method, resource := some target,
                              http_version := some version },
            fields := fields } = some (0, bytes, written_length)
      ∧ parseRequestHeader initRequestHeader bytes = some (0, parsed)
      ∧ parsed.request_info = { req_type := some method, resource := some target,
                                http_version := some version }
      ∧ parsed.fields.map (fun kv => (kv.key, kv.value))
          = fields.map (fun kv => (kv.key, kv.value)) := by
  refine ⟨_, _,
    { request_info := { req_type := some method, resource := some target,
                        http_version := some version },
      fields := initRequestHeader.fields
        ++ (fields.map (fun kv => (kv.key, kv.value))).map fieldOf },
    serializeRequestHeader_eq method target version fields, ?_, rfl, ?_⟩
  · rw [specRequestText_eq_wireLines]
    exact parseRequestHeader_wire initRequestHeader method target version
      (fields.map (fun kv => (kv.key, kv.value))) []
      (fun c hc => by simp [clsUpper, hm c hc])
      (fun c hc => ⟨(ht c hc).1, (ht c hc).2.2⟩) hv
      (fun k x hk heq => hline k x hk (by simpa [requestLine] using heq))
      (fun p hp => by
        simp only [List.mem_map] at hp
        obtain ⟨kv, hkv, rfl⟩ := hp
        exact ⟨fun c hc => ⟨((hf kv hkv).1 c hc).1, ((hf kv hkv).1 c hc).2.2⟩,
          (hf kv hkv).2⟩)
  · simp [initRequestHeader, initKeyValueArray, fieldOf, Function.comp_def]

/-- Witness for C2: `GET http://example.com/ HTTP/1.1` with a `Host` field. -/
theorem parse_serialize_roundtrip_witness :
    ∃ bytes written_length parsed,
      serializeRequestHeader
          { request_info := { req_type := some "GET".toList,
                              resource := some "http://example.com/".toList,
                              http_version := some "1.1".toList },
            fields := [ { key := "Host".toList, key_length := 4,
                          value := "example.com".toList, value_length := 11 } ] }
        = some (0, bytes, written_length)
      ∧ parseRequestHeader initRequestHeader bytes = some (0, parsed)
      ∧ parsed.request_info = { req_type := some "GET".toList,
                                resource := some "http://example.com/".toList,
                                http_version := some "1.1".toList }
      ∧ parsed.fields.map (fun kv => (kv.key, kv.value))
          = [("Host".toList, "example.com".toList)] :=
  parse_serialize_roundtrip "GET".toList "http://example.com/".toList "1.1".toList
    [ { key := "Host".toList, key_length := 4,
        value := "example.com".toList, value_length := 11 } ]
    (by decide) (by decide) (by decide)
    (not_fieldForm_of_dropWhile
      ("GET".toList ++ [' '] ++ "http://example.com/".toList ++ " HTTP/".toList
        ++ "1.1".toList) (by decide))
    (by decide)

/-- Counterexample to C2 as stated: the header `GET /a: HTTP/1.1` with the single field
`Host: x` meets the stated conditions, and parsing its serialization yields two fields,
the first one made of the start line. -/
theorem parse_serialize_roundtrip_counterexample :
    (∀ c ∈ "GET".toList, 'A' ≤ c ∧ c ≤ 'Z')
      ∧ (∀ c ∈ "/a:".toList, c ≠ ' ' ∧ c ≠ '\r' ∧ c ≠ '\n')
      ∧ (∀ c ∈ "1.1".toList, c ≠ '\r' ∧ c ≠ '\n')
      ∧ (∀ c ∈ "Host".toList, c ≠ ':' ∧ c ≠ '\r' ∧ c ≠ '\n')
      ∧ (∀ c ∈ "x".toList, c ≠ '\r' ∧ c ≠ '\n')
      ∧ serializeRequestHeader
          { request_info := { req_type := some "GET".toList, resource := some "/a:".toList,
                              http_version := some "1.1".toList },
            fields := [ { key := "Host".toList, key_length := 4,
                          value := "x".toList, value_length := 1 } ] }
        = some (0, "GET /a: HTTP/1.1\r\nHost: x\r\n\r\n".toList, 29)
      ∧ parseRequestHeader initRequestHeader "GET /a: HTTP/1.1\r\nHost: x\r\n\r\n".toList
        = some (0,
            { request_info := { req_type := some "GET".toList,
                                resource := some "/a:".toList,
                                http_version := some "1.1".toList },
              fields := [ { key := "GET /a".toList, key_length := 6,
                            value := "HTTP/1.1".toList, value_length := 8 },
                          { key := "Host".toList, key_length := 4,
                            value := "x".toList, value_length := 1 } ] }) := by
  decide

/-- C3: for every request header, `serializeRequestHeader` returns 0 and produces exactly
the bytes `method ++ " " ++ target ++ " HTTP/" ++ version ++ CRLF`, then for each field
in insertion order `key ++ ": " ++ value ++ CRLF`, then a final CRLF, and nothing else. -/
theorem serializeRequestHeader_bytes (method target version : List Char)
    (fields : KeyValueArray) :
    ∃ written_length,
      serializeRequestHeader
          { request_info := { req_type := some method, resource := some target,
                              http_version := some version },
            fields := fields }
        = some (0,
            method ++ " ".toList ++ target ++ " HTTP/".toList ++ version ++ "\r\n".toList
              ++ (fields.map (fun kv =>
                    kv.key ++ ": ".toList ++ kv.value ++ "\r\n".toList)).flatten
              ++ "\r\n".toList,
            written_length) := by
  refine ⟨(specRequestText method target version
    (fields.map (fun kv => (kv.key, kv.value)))).length, ?_⟩
  rw [serializeRequestHeader_eq]
  simp [specRequestText, Function.comp_def]

/-- C4: for every request header, `requestHeaderLength` equals the number of bytes of the
string produced by `serializeRequestHeader`, which reports that same number in
`written_length`; with the terminating NUL the bytes written fill exactly the
`serbuffer_len + 1` bytes allocated. -/
theorem requestHeaderLength_serialized (method target version : List Char)
    (fields : KeyValueArray) :
    ∃ bytes serbuffer_len,
      requestHeaderLength
          { request_info := { req_type := some method, resource := some target,
                              http_version := some version },
            fields := fields } = some serbuffer_len
      ∧ serializeRequestHeader
          { request_info := { req_type := some method, resource := some target,
                              http_version := some version },
            fields := fields } = some (0, bytes, serbuffer_len)
      ∧ strlen bytes = serbuffer_len
      ∧ strlen bytes + 1 ≤ serbuffer_len + 1 :=
  ⟨_, _, requestHeaderLength_eq method target version fields,
    serializeRequestHeader_eq method target version fields, rfl, Nat.le_refl _⟩

/-- C5 (as amended): both parsers read the buffer as a C string.  For every byte buffer,
`parseRequestHeader` and `parseResponseHeader` return `E_NOT_HTTP` if and only if the
bytes before the first NUL of the buffer (all of them when there is none) contain no
`\r\n\r\n`, and in that case the header record passed in is left unchanged; in
particular they return `E_NOT_HTTP` for every buffer that contains no `\r\n\r\n` at
all. -/
theorem parse_not_http_iff (request : HTTPRequestHeader) (response : HTTPResponseHeader)
    (buffer : List Char) :
    (∃ r h, parseRequestHeader request (cstr buffer) = some (r, h)
        ∧ (r = E_NOT_HTTP ↔ ¬ "\r\n\r\n".toList <:+: cstr buffer)
        ∧ (r = E_NOT_HTTP → h = request))
      ∧ (∃ r h, parseResponseHeader response (cstr buffer) = some (r, h)
        ∧ (r = E_NOT_HTTP ↔ ¬ "\r\n\r\n".toList <:+: cstr buffer)
        ∧ (r = E_NOT_HTTP → h = response))
      ∧ (¬ "\r\n\r\n".toList <:+: buffer →
          parseRequestHeader request (cstr buffer) = some (E_NOT_HTTP, request)
            ∧ parseResponseHeader response (cstr buffer) = some (E_NOT_HTTP, response)) := by
  refine ⟨?_, ?_, ?_⟩
  · rcases parseRequestHeader_cases request (cstr buffer) with ⟨h1, h2⟩ | ⟨h1, r, h, h2, h3⟩
    · exact ⟨_, _, h2, ⟨fun _ => h1, fun _ => rfl⟩, fun _ => rfl⟩
    · have hr : r ≠ E_NOT_HTTP := by
        rcases h3 with h3 | h3 <;> rw [h3] <;> decide
      exact ⟨r, h, h2, ⟨fun h4 => absurd h4 hr, fun h4 => absurd h1 h4⟩,
        fun h4 => absurd h4 hr⟩
  · rcases parseResponseHeader_cases response (cstr buffer) with ⟨h1, h2⟩ | ⟨h1, r, h, h2, h3⟩
    · exact ⟨_, _, h2, ⟨fun _ => h1, fun _ => rfl⟩, fun _ => rfl⟩
    · have hr : r ≠ E_NOT_HTTP := by
        rcases h3 with h3 | h3 <;> rw [h3] <;> decide
      exact ⟨r, h, h2, ⟨fun h4 => absurd h4 hr, fun h4 => absurd h1 h4⟩,
        fun h4 => absurd h4 hr⟩
  · intro hno
    have hc : ¬ "\r\n\r\n".toList <:+: cstr buffer := by
      intro hin
      exact hno (hin.trans ( List.takeWhile_prefix _).isInfix)
    constructor
    · rcases parseRequestHeader_cases request (cstr buffer) with ⟨_, h2⟩ | ⟨h1, _⟩
      · exact h2
      · exact absurd h1 hc
    · rcases parseResponseHeader_cases response (cstr buffer) with ⟨_, h2⟩ | ⟨h1, _⟩
      · exact h2
      · exact absurd h1 hc

/-- Counterexample to C5 as stated: the buffer `abc`, NUL, CRLF, CRLF contains
`\r\n\r\n`, but behind a NUL, where `strstr` does not look: both parsers return
`E_NOT_HTTP` and leave the record unchanged. -/
theorem parse_not_http_iff_counterexample :
    "\r\n\r\n".toList <:+: "abc\x00\r\n\r\n".toList
      ∧ parseRequestHeader initRequestHeader (cstr "abc\x00\r\n\r\n".toList)
          = some (E_NOT_HTTP, initRequestHeader)
      ∧ parseResponseHeader initResponseHeader (cstr "abc\x00\r\n\r\n".toList)
          = some (E_NOT_HTTP, initResponseHeader) :=
  ⟨⟨"abc\x00".toList, [], rfl⟩, by decide, by decide⟩

/-- C6 (as amended): `applyFilter` reads the buffer as a C string.  For every byte
buffer, `applyFilter` returns true if and only if the bytes before the first NUL of the
buffer (all of them when there is none) contain, as a case-insensitive substring, at
least one of the eight keywords of `filtered_words`. -/
theorem applyFilter_iff (buffer : List Char) :
    applyFilter (cstr buffer) = true
      ↔ ∃ word ∈ filtered_words, ∃ pre mid post, cstr buffer = pre ++ mid ++ post
          ∧ mid.map Char.toLower = word.map Char.toLower :=
  applyFilter_words (cstr buffer)

/-- Counterexample to C6 as stated: the buffer NUL, `spongebob` contains the keyword
`spongebob`, but behind a NUL, where `strcasestr` does not look: `applyFilter` returns
false. -/
theorem applyFilter_iff_counterexample :
    (∃ word ∈ filtered_words, ∃ pre mid post,
        "\x00spongebob".toList = pre ++ mid ++ post
          ∧ mid.map Char.toLower = word.map Char.toLower)
      ∧ applyFilter (cstr "\x00spongebob".toList) = false :=
  ⟨⟨"spongebob".toList, by decide, ['\x00'], "spongebob".toList, [], rfl, rfl⟩, by decide⟩

/-- C7 (the code at the failing inputs): with `Content-Type: text/html` and
`Content-Encoding: identity` the gate returns false, and with
`Content-Type: text/identity` and `Content-Encoding: gzip` it returns true. -/
theorem shouldApplyContentFilterHeader_encoding_slip :
    shouldApplyContentFilterHeader
        { response_info := initResponseHeader.response_info,
          fields := [ { key := "Content-Type".toList, key_length := 12,
                        value := "text/html".toList, value_length := 9 },
                      { key := "Content-Encoding".toList, key_length := 16,
                        value := "identity".toList, value_length := 8 } ] }
      = some false
    ∧ shouldApplyContentFilterHeader
        { response_info := initResponseHeader.response_info,
          fields := [ { key := "Content-Type".toList, key_length := 12,
                        value := "text/identity".toList, value_length := 13 },
                      { key := "Content-Encoding".toList, key_length := 16,
                        value := "gzip".toList, value_length := 4 } ] }
      = some true := by
  decide

/-- C8: for every response header that has no `Content-Encoding` field,
`shouldApplyContentFilterHeader` returns true exactly when a `Content-Type` field is
present and its value contains `text` (case-sensitively). -/
theorem shouldApplyContentFilterHeader_without_encoding (resp_header : HTTPResponseHeader)
    (h : getValue resp_header.fields "Content-Encoding".toList = none) :
    ∃ gate, shouldApplyContentFilterHeader resp_header = some gate
      ∧ (gate = true ↔ ∃ v, getValue resp_header.fields "Content-Type".toList = some v
          ∧ "text".toList <:+: v) := by
  refine ⟨_, shouldApplyContentFilterHeader_no_encoding resp_header h, ?_⟩
  cases hv : getValue resp_header.fields "Content-Type".toList with
  | none => simp
  | some v => simp [strstr_isSome_iff]

/-- Witness for C8: the header with the single field `Content-Type: text/html`. -/
theorem shouldApplyContentFilterHeader_without_encoding_witness :
    ∃ gate, shouldApplyContentFilterHeader
        { response_info := initResponseHeader.response_info,
          fields := [ { key := "Content-Type".toList, key_length := 12,
                        value := "text/html".toList, value_length := 9 } ] } = some gate
      ∧ (gate = true ↔ ∃ v, getValue
            [ { key := "Content-Type".toList, key_length := 12,
                value := "text/html".toList, value_length := 9 } ]
            "Content-Type".toList = some v
          ∧ "text".toList <:+: v) :=
  shouldApplyContentFilterHeader_without_encoding
    { response_info := initResponseHeader.response_info,
      fields := [ { key := "Content-Type".toList, key_length := 12,
                    value := "text/html".toList, value_length := 9 } ] }
    (by decide)

/-- The two responses named with C8: `Content-Type: text/html` is cached and nothing is
sent, `Content-Type: image/png` is sent on at once and the filter is switched off. -/
theorem forwardToClient_content_type_examples :
    forwardToClient "HTTP/1.1 200 OK\r\nContent-Type: text/html\r\n\r\n<html>".toList
        initMidlayerCallbackEnv
      = some (0, [],
          { call_counter := 0,
            cache_buffer := "HTTP/1.1 200 OK\r\nContent-Type: text/html\r\n\r\n<html>".toList,
            have_header := true, block_response := false, apply_filter := true })
    ∧ forwardToClient "HTTP/1.1 200 OK\r\nContent-Type: image/png\r\n\r\n.PNG".toList
        initMidlayerCallbackEnv
      = some (0, ["HTTP/1.1 200 OK\r\nContent-Type: image/png\r\n\r\n.PNG".toList],
          { call_counter := 0, cache_buffer := [],
            have_header := true, block_response := false, apply_filter := false }) := by
  decide

/-- C9: pass-through.  For every sequence of non-empty server chunks followed by the
empty end-of-stream chunk, fed one by one to `forwardToClient` from the initial forwarder
state (filter armed or not), if no call returns non-zero then the concatenation of all
bytes sent to the client equals the concatenation of the chunks, in order. -/
theorem forwardToClient_passthrough (filter : Bool) (chunks : List (List Char))
    (sent : List (List Char)) (env1 : MidlayerCallbackEnv)
    (hne : ∀ c ∈ chunks, c ≠ [])
    (h : readFromSocket forwardToClient (chunks.map some ++ [some []])
        { initMidlayerCallbackEnv with apply_filter := filter } = some (0, sent, env1)) :
    sent.flatten = chunks.flatten := by
  have := readFromSocket_passthrough chunks
    { initMidlayerCallbackEnv with apply_filter := filter } env1 sent hne rfl
    (Or.inr rfl) h
  simpa [initMidlayerCallbackEnv] using this

/-- Witness for C9: the response of the pass-through scenario, read in two chunks. -/
theorem forwardToClient_passthrough_witness :
    readFromSocket forwardToClient
        (["HTTP/1.1 200 OK\r\nContent-Type: text/html\r\n\r\n".toList,
          "<html>hello</html>".toList].map some ++ [some []])
        { initMidlayerCallbackEnv with apply_filter := true }
      = some (0,
          [("HTTP/1.1 200 OK\r\nContent-Type: text/html\r\n\r\n"
            ++ "<html>hello</html>").toList],
          { call_counter := 0,
            cache_buffer := ("HTTP/1.1 200 OK\r\nContent-Type: text/html\r\n\r\n"
              ++ "<html>hello</html>").toList,
            have_header := true, block_response := false, apply_filter := true })
    ∧ [("HTTP/1.1 200 OK\r\nContent-Type: text/html\r\n\r\n"
          ++ "<html>hello</html>").toList].flatten
      = ["HTTP/1.1 200 OK\r\nContent-Type: text/html\r\n\r\n".toList,
          "<html>hello</html>".toList].flatten :=
  ⟨by decide,
    forwardToClient_passthrough true
      ["HTTP/1.1 200 OK\r\nContent-Type: text/html\r\n\r\n".toList,
        "<html>hello</html>".toList]
      [("HTTP/1.1 200 OK\r\nContent-Type: text/html\r\n\r\n"
        ++ "<html>hello</html>").toList]
      { call_counter := 0,
        cache_buffer := ("HTTP/1.1 200 OK\r\nContent-Type: text/html\r\n\r\n"
          ++ "<html>hello</html>").toList,
        have_header := true, block_response := false, apply_filter := true }
      (by decide) (by decide)⟩

/-- C10 (as amended): blocked body.  For every sequence of non-empty server chunks
followed by the end of the stream, fed to `forwardToClient` from the initial filter-armed
state, in which the response header is recognised (at chunk `c`, the cache not having
grown beyond `MAX_HEADER_SIZE` without a header before) and passes the content gate, if
the accumulated response bytes before their first NUL byte contain a filter keyword
case-insensitively, then the only bytes ever sent to the client are the canned
content-blocked 301 and the end-of-stream call returns 1. -/
theorem forwardToClient_blocked_body (pre post : List (List Char)) (c : List Char)
    (resp_header : HTTPResponseHeader)
    (hne : ∀ x ∈ pre ++ c :: post, x ≠ [])
    (hpre : ∀ p ∈ pre.inits, p ≠ [] →
      p.flatten.length ≤ MAX_HEADER_SIZE
        ∧ (parseResponseHeader initResponseHeader (cstr p.flatten)).map Prod.fst ≠ some 0)
    (hrec : parseResponseHeader initResponseHeader (cstr (pre ++ [c]).flatten)
      = some (0, resp_header))
    (hgate : shouldApplyContentFilterHeader resp_header = some true)
    (hword : ∃ word ∈ filtered_words, ∃ a mid b,
      cstr (pre ++ c :: post).flatten = a ++ mid ++ b
        ∧ mid.map Char.toLower = word.map Char.toLower) :
    readFromSocket forwardToClient ((pre ++ c :: post).map some ++ [some []])
        initMidlayerCallbackEnv
      = some (1, [filtered_redirect_content],
          { call_counter := 0, cache_buffer := (pre ++ c :: post).flatten,
            have_header := true, block_response := true, apply_filter := true }) := by
  have hne1 : ∀ x ∈ pre, x ≠ [] := fun x hx => hne x (by simp [hx])
  have hc : c ≠ [] := hne c (by simp)
  have hne2 : ∀ x ∈ post, x ≠ [] := fun x hx => hne x (by simp [hx])
  -- the chunks before the header is complete
  have h1 : readFromSocket forwardToClient
        (pre.map some ++ (some c :: (post.map some ++ [some []]))) initMidlayerCallbackEnv
      = readFromSocket forwardToClient (some c :: (post.map some ++ [some []]))
          { call_counter := 0, cache_buffer := pre.flatten,
            have_header := false, block_response := false, apply_filter := true } :=
    readFromSocket_before_header pre (some c :: (post.map some ++ [some []]))
      initMidlayerCallbackEnv hne1 rfl rfl rfl (by
        intro p hp hp0
        have := hpre p ((List.mem_inits _ _).mpr hp) hp0
        refine ⟨this.1, ?_⟩
        intro h hh
        apply this.2
        have hh2 : parseResponseHeader initResponseHeader (cstr p.flatten) = some (0, h) := hh
        rw [hh2]
        rfl)
  -- the chunk that completes the header
  have hflat : (pre ++ [c]).flatten = pre.flatten ++ c := by simp
  have hb : bufferChunk c
        { call_counter := 0, cache_buffer := pre.flatten,
          have_header := false, block_response := false, apply_filter := true }
      = some (Except.ok
          { call_counter := 0, cache_buffer := pre.flatten ++ c,
            have_header := true, block_response := false, apply_filter := true }) :=
    bufferChunk_recognised c
      { call_counter := 0, cache_buffer := pre.flatten,
        have_header := false, block_response := false, apply_filter := true }
      resp_header true rfl rfl (by rw [← hflat]; exact hrec) hgate
  have h2 := forwardToClient_caching c _ _ hb rfl rfl hc
  -- the chunks after it
  have h3 : readFromSocket forwardToClient (post.map some ++ [some []])
        { call_counter := 0, cache_buffer := pre.flatten ++ c,
          have_header := true, block_response := false, apply_filter := true }
      = readFromSocket forwardToClient [some []]
          { call_counter := 0, cache_buffer := pre.flatten ++ c ++ post.flatten,
            have_header := true, block_response := false, apply_filter := true } :=
    readFromSocket_caching post [some []]
      { call_counter := 0, cache_buffer := pre.flatten ++ c,
        have_header := true, block_response := false, apply_filter := true }
      hne2 rfl rfl rfl
  -- the end of the stream
  have hflat2 : (pre ++ c :: post).flatten = pre.flatten ++ c ++ post.flatten := by simp
  have hfilter : applyFilter (cstr (pre.flatten ++ c ++ post.flatten)) = true := by
    rw [← hflat2]
    exact (applyFilter_words _).mpr hword
  have h4 : forwardToClient []
        { call_counter := 0, cache_buffer := pre.flatten ++ c ++ post.flatten,
          have_header := true, block_response := false, apply_filter := true }
      = some (1, [filtered_redirect_content],
          { call_counter := 0, cache_buffer := pre.flatten ++ c ++ post.flatten,
            have_header := true, block_response := true, apply_filter := true }) :=
    forwardToClient_eof_block
      { call_counter := 0, cache_buffer := pre.flatten ++ c ++ post.flatten,
        have_header := true, block_response := false, apply_filter := true }
      rfl rfl rfl hfilter
  have hall : (pre ++ c :: post).map some ++ [some []]
      = pre.map some ++ (some c :: (post.map some ++ [some []])) := by simp
  rw [hall, h1, readFromSocket_cons_zero forwardToClient c _ _ _ [] hc h2, h3, hflat2]
  simp only [readFromSocket]
  rw [h4]
  rfl

/-- Witness for C10: the response of the blocked-body scenario, read in three chunks,
the header being complete with the second one. -/
theorem forwardToClient_blocked_body_witness :
    readFromSocket forwardToClient
        ((["HTTP/1.1 200 OK\r\nContent-".toList]
            ++ "Type: text/plain\r\n\r\nI love ".toList :: ["SpongeBob".toList]).map some
          ++ [some []])
        initMidlayerCallbackEnv
      = some (1, [filtered_redirect_content],
          { call_counter := 0,
            cache_buffer := (["HTTP/1.1 200 OK\r\nContent-".toList]
              ++ "Type: text/plain\r\n\r\nI love ".toList :: ["SpongeBob".toList]).flatten,
            have_header := true, block_response := true, apply_filter := true }) :=
  forwardToClient_blocked_body ["HTTP/1.1 200 OK\r\nContent-".toList] ["SpongeBob".toList]
    "Type: text/plain\r\n\r\nI love ".toList
    { response_info := { http_version := some "1.1".toList, status_code := some "200".toList,
                         reason := some "OK".toList },
      fields := [ { key := "Content-Type".toList, key_length := 12,
                    value := "text/plain".toList, value_length := 10 } ] }
    (by decide) (by decide) (by decide) (by decide)
    ⟨"spongebob".toList, by decide,
      "HTTP/1.1 200 OK\r\nContent-Type: text/plain\r\n\r\nI love ".toList,
      "SpongeBob".toList, [], by decide, by decide⟩

/-- Counterexample to C10 as stated: the response
`HTTP/1.1 200 OK CRLF Content-Type: text/plain CRLF CRLF NUL I love SpongeBob` has a
recognised header that passes the gate and contains `SpongeBob`, yet it is sent to the
client unchanged and the end-of-stream call returns 0. -/
theorem forwardToClient_blocked_body_counterexample :
    parseResponseHeader initResponseHeader
        (cstr "HTTP/1.1 200 OK\r\nContent-Type: text/plain\r\n\r\n\x00I love SpongeBob".toList)
      = some (0,
          { response_info := { http_version := some "1.1".toList,
                               status_code := some "200".toList,
                               reason := some "OK".toList },
            fields := [ { key := "Content-Type".toList, key_length := 12,
                          value := "text/plain".toList, value_length := 10 } ] })
    ∧ shouldApplyContentFilterHeader
        { response_info := { http_version := some "1.1".toList,
                             status_code := some "200".toList,
                             reason := some "OK".toList },
          fields := [ { key := "Content-Type".toList, key_length := 12,
                        value := "text/plain".toList, value_length := 10 } ] }
      = some true
    ∧ "HTTP/1.1 200 OK\r\nContent-Type: text/plain\r\n\r\n\x00I love SpongeBob".toList
      = "HTTP/1.1 200 OK\r\nContent-Type: text/plain\r\n\r\n\x00I love ".toList
          ++ "SpongeBob".toList ++ []
    ∧ "SpongeBob".toList.map Char.toLower = "spongebob".toList.map Char.toLower
    ∧ "spongebob".toList ∈ filtered_words
    ∧ readFromSocket forwardToClient
        [some "HTTP/1.1 200 OK\r\nContent-Type: text/plain\r\n\r\n\x00I love SpongeBob".toList,
         some []]
        initMidlayerCallbackEnv
      = some (0,
          ["HTTP/1.1 200 OK\r\nContent-Type: text/plain\r\n\r\n\x00I love SpongeBob".toList],
          { call_counter := 0,
            cache_buffer :=
              "HTTP/1.1 200 OK\r\nContent-Type: text/plain\r\n\r\n\x00I love SpongeBob".toList,
            have_header := true, block_response := false, apply_filter := true }) := by
  decide

/-! ## Further lemmas on the response forwarder -/

theorem bufferChunk_abort (c : List Char) (env : MidlayerCallbackEnv)
    (r : Int) (resp_header : HTTPResponseHeader)
    (h : env.apply_filter = true) (hh : env.have_header = false)
    (hp : parseResponseHeader initResponseHeader (cstr (env.cache_buffer ++ c))
      = some (r, resp_header))
    (hr : r ≠ 0) (hlen : MAX_HEADER_SIZE < (env.cache_buffer ++ c).length) :
    bufferChunk c env = some (Except.error { env with cache_buffer := [] }) := by
  have : MAX_HEADER_SIZE < env.cache_buffer.length + c.length := by
    simpa using hlen
  simp [bufferChunk, h, hh, hp, hr, this]

/-- What the buffering block leaves behind when it aborts. -/
theorem bufferChunk_error (c : List Char) (env env1 : MidlayerCallbackEnv)
    (hb : bufferChunk c env = some (Except.error env1)) :
    env1.cache_buffer = [] ∧ env1.apply_filter = true := by
  by_cases h : env.apply_filter = true
  · unfold bufferChunk at hb
    simp only [h, if_true] at hb
    split at hb
    · split at hb
      · simp at hb
      · rename_i retval resp_header hp
        split at hb
        · cases hg : shouldApplyContentFilterHeader resp_header with
          | none => simp [hg] at hb
          | some g =>
            simp only [hg, Option.map_some', Option.some.injEq] at hb
            split at hb
            · rename_i hcond
              simp at hcond
            · simp at hb
        · simp only [Option.map_some', Option.some.injEq] at hb
          split at hb
          · simp only [Except.error.injEq] at hb
            subst hb
            exact ⟨rfl, rfl⟩
          · simp at hb
    · simp at hb
  · have h0 : env.apply_filter = false := by simpa using h
    rw [bufferChunk_filter_off c env h0] at hb
    simp at hb

/-- The second part of `forwardToClient`, after a buffering block that did not abort,
for any value of `block_response`. -/
theorem forwardToClient_ok_eq (c : List Char) (env env1 : MidlayerCallbackEnv)
    (hb : bufferChunk c env = some (Except.ok env1)) :
    forwardToClient c env =
      if env1.apply_filter = false then
        if env1.cache_buffer = [] then
          some (if env1.block_response then 1 else 0, [c], env1)
        else some (if env1.block_response then 1 else 0, [env1.cache_buffer],
          { env1 with cache_buffer := [] })
      else if c = [] then
        if applyFilter (cstr env1.cache_buffer) = true then
          some (1, [filtered_redirect_content], { env1 with block_response := true })
        else some (0, [env1.cache_buffer], { env1 with block_response := false })
      else some (if env1.block_response then 1 else 0, [], env1) := by
  unfold forwardToClient
  simp only [hb]
  by_cases hf : env1.apply_filter = false
  · by_cases hc : env1.cache_buffer = []
    · by_cases hbl : env1.block_response = true <;> simp [hf, hc, hbl]
    · by_cases hbl : env1.block_response = true <;> simp [hf, hc, hbl]
  · have hf1 : env1.apply_filter = true := by simpa using hf
    by_cases hc : c = []
    · by_cases ha : applyFilter (cstr env1.cache_buffer) = true
      · simp [hf1, hc, ha]
      · have ha0 : applyFilter (cstr env1.cache_buffer) = false := by simpa using ha
        simp [hf1, hc, ha0]
    · by_cases hbl : env1.block_response = true <;> simp [hf1, hc, hbl]

/-- A cache of `n` bytes `a`, `n` at least `MAX_HEADER_SIZE`, overflows with the next
byte: the cache is discarded and the call returns -1. -/
theorem forwardToClient_overflow (n : Nat) (hn : MAX_HEADER_SIZE ≤ n) :
    forwardToClient ['b']
        { call_counter := 0, cache_buffer := List.replicate n 'a',
          have_header := false, block_response := false, apply_filter := true }
      = some (-1, [],
          { call_counter := 0, cache_buffer := [],
            have_header := false, block_response := false, apply_filter := true }) := by
  have hno : ¬ ['\r', '\n', '\r', '\n'] <:+: cstr (List.replicate n 'a' ++ ['b']) := by
    intro hin
    have h1 : '\r' ∈ cstr (List.replicate n 'a' ++ ['b']) :=
      hin.subset (by simp)
    have h2 : '\r' ∈ List.replicate n 'a' ++ ['b'] :=
      ( List.takeWhile_prefix _).subset h1
    simp only [List.mem_append, List.mem_replicate, List.mem_singleton] at h2
    rcases h2 with h2 | h2
    · exact absurd h2.2 (by decide)
    · exact absurd h2 (by decide)
  have hparse : parseResponseHeader initResponseHeader
      (cstr (List.replicate n 'a' ++ ['b'])) = some (E_NOT_HTTP, initResponseHeader) := by
    rcases parseResponseHeader_cases initResponseHeader
      (cstr (List.replicate n 'a' ++ ['b'])) with ⟨_, h2⟩ | ⟨h1, _⟩
    · exact h2
    · exact absurd h1 hno
  have hb := bufferChunk_abort ['b']
    { call_counter := 0, cache_buffer := List.replicate n 'a',
      have_header := false, block_response := false, apply_filter := true }
    E_NOT_HTTP initResponseHeader rfl rfl hparse (by decide)
    (by simp only [List.length_append, List.length_replicate, List.length_singleton]; omega)
  simp only [forwardToClient, hb]

/-! ## Lemmas on `checkHeaderExtractHost` -/

theorem strstr_colon_none (s : List Char) (h : ∀ c ∈ s, c ≠ ':') :
    strstr s [':'] = none := by
  rw [strstr_eq_none_iff]
  intro hin
  exact h ':' (hin.subset (by simp)) rfl

theorem strstr_colon_some (a b : List Char) (h : ∀ c ∈ a, c ≠ ':') :
    strstr (a ++ ':' :: b) [':'] = some a.length := by
  induction a with
  | nil => simp [strstr, List.isPrefixOf]
  | cons c a ih =>
    have hc : c ≠ ':' := h c (by simp)
    have ih1 := ih (fun x hx => h x (List.mem_cons_of_mem _ hx))
    have hpre : ([':'].isPrefixOf (c :: (a ++ ':' :: b))) = false := by
      simp [List.isPrefixOf, hc.symm]
    rw [List.cons_append, strstr, hpre, ih1]
    simp

/-- The result of `checkHeaderExtractHost` on a buffer whose header is parsed and has a
`Host` field without colon. -/
theorem checkHeaderExtractHost_no_port (buffer : List Char)
    (request_header parsed : HTTPRequestHeader)
    (hostname_target port_target : Option (List Char)) (v : List Char)
    (hparse : parseRequestHeader request_header buffer = some (0, parsed))
    (hhost : getValue parsed.fields "Host".toList = some v)
    (hv : ∀ c ∈ v, c ≠ ':') :
    checkHeaderExtractHost buffer request_header hostname_target port_target
      = some (0, parsed, some v, some "80".toList) := by
  have hhost1 : getValue parsed.fields ['H', 'o', 's', 't'] = some v := hhost
  simp [checkHeaderExtractHost, hparse, hhost1, strstr_colon_none v hv, HTTP_DEFAULT_PORT]

/-- The result of `checkHeaderExtractHost` on a buffer whose header is parsed and has a
`Host` field with a colon. -/
theorem checkHeaderExtractHost_port (buffer : List Char)
    (request_header parsed : HTTPRequestHeader)
    (hostname_target port_target : Option (List Char)) (a b : List Char)
    (hparse : parseRequestHeader request_header buffer = some (0, parsed))
    (hhost : getValue parsed.fields "Host".toList = some (a ++ ':' :: b))
    (ha : ∀ c ∈ a, c ≠ ':') :
    checkHeaderExtractHost buffer request_header hostname_target port_target
      = some (0, parsed, some a, some (if b = [] then "80".toList else b)) := by
  have hdrop : List.drop (a.length + 1) (a ++ ':' :: b) = b := by
    rw [List.drop_append_eq_append_drop]
    simp
  have hhost1 : getValue parsed.fields ['H', 'o', 's', 't'] = some (a ++ ':' :: b) := hhost
  simp only [checkHeaderExtractHost, hparse, String.toList, hhost1, strstr_colon_some a b ha,
    hdrop, HTTP_DEFAULT_PORT, strlen, beq_self_eq_true, if_true]
  by_cases hb : b = []
  · simp [hb]
  · have : b.length ≠ 0 := fun h0 => hb (List.length_eq_zero.mp h0)
    simp [hb, this]

/-- A string splits at its first colon, if it has one. -/
theorem split_first_colon (v : List Char) :
    (∀ c ∈ v, c ≠ ':') ∨ ∃ a b, v = a ++ ':' :: b ∧ ∀ c ∈ a, c ≠ ':' := by
  induction v with
  | nil => left; simp
  | cons c v ih =>
    by_cases hc : c = ':'
    · right
      exact ⟨[], v, by simp [hc], by simp⟩
    · rcases ih with h | ⟨a, b, hv, ha⟩
      · left
        intro x hx
        simp only [List.mem_cons] at hx
        rcases hx with hx | hx
        · rw [hx]; exact hc
        · exact h x hx
      · right
        refine ⟨c :: a, b, by simp [hv], ?_⟩
        intro x hx
        simp only [List.mem_cons] at hx
        rcases hx with hx | hx
        · rw [hx]; exact hc
        · exact ha x hx

/-- A return code 0 of `checkHeaderExtractHost` means that the header was parsed and has
a `Host` field. -/
theorem checkHeaderExtractHost_zero (buffer : List Char)
    (request_header parsed : HTTPRequestHeader)
    (hostname_target port_target hostname port : Option (List Char))
    (h : checkHeaderExtractHost buffer request_header hostname_target port_target
      = some (0, parsed, hostname, port)) :
    parseRequestHeader request_header buffer = some (0, parsed)
      ∧ ∃ v, getValue parsed.fields "Host".toList = some v := by
  unfold checkHeaderExtractHost at h
  cases hp : parseRequestHeader request_header buffer with
  | none => simp [hp] at h
  | some r =>
    obtain ⟨retval, h1⟩ := r
    simp only [hp] at h
    by_cases hr : retval = 0
    · subst hr
      simp only [beq_self_eq_true, if_true] at h
      cases hg : getValue h1.fields "Host".toList with
      | none =>
        rw [hg] at h
        simp at h
      | some v =>
        rw [hg] at h
        simp only [Option.some.injEq, Prod.mk.injEq, true_and] at h
        obtain ⟨he, _⟩ := h
        subst he
        exact ⟨rfl, v, hg⟩
    · have : (retval == 0) = false := by simpa using hr
      simp only [this, Bool.false_eq_true, if_false, Option.some.injEq, Prod.mk.injEq] at h
      exact absurd h.1 hr

/-! ## Lemmas on the key-value array -/

theorem getValue_append_cons (pre post : KeyValueArray) (kv : KeyValue) (key : List Char)
    (hpre : ∀ x ∈ pre, x.key ≠ key) (hkv : kv.key = key) :
    getValue (pre ++ kv :: post) key = some kv.value := by
  induction pre with
  | nil => simp [getValue, hkv]
  | cons p pre ih =>
    have hp : p.key ≠ key := hpre p (by simp)
    simp only [List.cons_append, getValue, hp, if_false]
    exact ih (fun x hx => hpre x (List.mem_cons_of_mem _ hx))

theorem getValue_eq_none (fields : KeyValueArray) (key : List Char)
    (h : ∀ x ∈ fields, x.key ≠ key) : getValue fields key = none := by
  induction fields with
  | nil => rfl
  | cons p fields ih =>
    have hp : p.key ≠ key := h p (by simp)
    simp only [getValue, hp, if_false]
    exact ih (fun x hx => h x (List.mem_cons_of_mem _ hx))

/-- An array that holds the key splits at the first pair with that key. -/
theorem split_first_key (fields : KeyValueArray) (key : List Char)
    (h : ∃ kv ∈ fields, kv.key = key) :
    ∃ pre kv post, fields = pre ++ kv :: post ∧ (∀ x ∈ pre, x.key ≠ key) ∧ kv.key = key := by
  induction fields with
  | nil => simp at h
  | cons p fields ih =>
    by_cases hp : p.key = key
    · exact ⟨[], p, fields, rfl, by simp, hp⟩
    · obtain ⟨kv, hkv, hk⟩ := h
      simp only [List.mem_cons] at hkv
      rcases hkv with hkv | hkv
      · rw [hkv] at hk; exact absurd hk hp
      · obtain ⟨pre, kv2, post, hf, hpre, hk2⟩ := ih ⟨kv, hkv, hk⟩
        refine ⟨p :: pre, kv2, post, by simp [hf], ?_, hk2⟩
        intro x hx
        simp only [List.mem_cons] at hx
        rcases hx with hx | hx
        · rw [hx]; exact hp
        · exact hpre x hx

theorem setValue_not_found (fields : KeyValueArray) (key new_value : List Char) (n : Nat)
    (h : ∀ x ∈ fields, x.key ≠ key) : setValue fields key new_value n = (-1, fields) := by
  induction fields with
  | nil => rfl
  | cons p fields ih =>
    have hp : p.key ≠ key := h p (by simp)
    simp only [setValue, hp, if_false]
    rw [ih (fun x hx => h x (List.mem_cons_of_mem _ hx))]

theorem setValue_found (pre post : KeyValueArray) (kv : KeyValue)
    (key new_value : List Char) (n : Nat)
    (hpre : ∀ x ∈ pre, x.key ≠ key) (hkv : kv.key = key) :
    setValue (pre ++ kv :: post) key new_value n
      = (0, pre ++ { key := kv.key, key_length := kv.key_length,
                     value := new_value.take n, value_length := n } :: post) := by
  induction pre with
  | nil => simp [setValue, hkv]
  | cons p pre ih =>
    have hp : p.key ≠ key := hpre p (by simp)
    simp only [List.cons_append, setValue, hp, if_false, List.append_eq]
    rw [ih (fun x hx => hpre x (List.mem_cons_of_mem _ hx))]

/-! ## Lemmas on `extractResource` -/

/-- An occurrence found by `strstr` is still the first one when the text goes on. -/
theorem strstr_append (b x needle : List Char) (i : Nat)
    (h : strstr b needle = some i) : strstr (b ++ x) needle = some i := by
  induction b generalizing i with
  | nil =>
    simp only [strstr, List.isPrefixOf_iff_prefix, List.prefix_nil] at h
    split at h
    · rename_i hn
      simp only [Option.some.injEq] at h
      subst hn h
      cases x <;> simp [strstr, List.isPrefixOf]
    · simp at h
  | cons c cs ih =>
    simp only [strstr, List.isPrefixOf_iff_prefix] at h
    split at h
    · rename_i hp
      simp only [Option.some.injEq] at h
      subst h
      have hp2 : needle <+: (c :: cs) ++ x := hp.trans ( List.prefix_append _ _)
      simp only [List.cons_append] at hp2
      simp [strstr, List.isPrefixOf_iff_prefix, hp2]
    · rename_i hnp
      cases hs : strstr cs needle with
      | none => simp [hs] at h
      | some j =>
        simp only [hs, Option.map_some', Option.some.injEq] at h
        subst h
        have hlen := (strstr_some_spec cs needle j hs).1
        have hnp2 : ¬ needle <+: c :: (cs ++ x) := by
          intro hp2
          apply hnp
          have hp3 : (c :: cs) <+: c :: (cs ++ x) := by
            rw [← List.cons_append]
            exact List.prefix_append _ _
          exact List.prefix_of_prefix_length_le hp2 hp3
            (by simp only [List.length_cons]; omega)
        simp only [List.cons_append, strstr, List.isPrefixOf_iff_prefix, List.append_eq,
          hnp2, if_false, ih j hs, Option.map_some']

theorem strstr_self_append (needle x : List Char) :
    strstr (needle ++ x) needle = some 0 := by
  cases hn : needle ++ x with
  | nil =>
    have : needle = [] := (List.append_eq_nil.mp hn).1
    simp [strstr, this, List.isPrefixOf]
  | cons c cs =>
    have hp : needle <+: c :: cs := by
      rw [← hn]
      exact List.prefix_append _ _
    simp [strstr, List.isPrefixOf_iff_prefix, hp]

theorem strcmp_eq_zero_iff (a b : List Char) : strcmp a b = 0 ↔ a = b := by
  induction a generalizing b with
  | nil => cases b <;> simp [strcmp]
  | cons x a ih =>
    cases b with
    | nil => simp [strcmp]
    | cons y b =>
      simp only [strcmp, List.cons.injEq]
      by_cases hxy : x = y
      · simp [hxy, ih]
      · simp only [hxy, if_false, false_and, iff_false]
        split <;> simp

theorem getD_append_length (a b : List Char) (c d : Char) :
    (a ++ c :: b).getD a.length d = c := by
  induction a with
  | nil => rfl
  | cons x a ih => simpa [List.getD] using ih

theorem getD_append_length_nil (a : List Char) (d : Char) :
    (a ++ []).getD a.length d = d := by
  induction a with
  | nil => rfl
  | cons x a ih => simp [List.getD]

theorem drop_append_length_succ (a b : List Char) (c : Char) :
    (a ++ c :: b).drop (a.length + 1) = b := by
  induction a with
  | nil => rfl
  | cons x a ih => simp

/-- The value of `extractResource` when the first occurrence of the hostname is at the
start of the target or right behind a leading `http://`. -/
theorem extractResource_at (pre hostname port rest : List Char)
    (hs : strstr (pre ++ hostname ++ rest) hostname = some pre.length)
    (hstart : pre.length = 0
      ∨ (pre.length = 7 ∧ strstr (pre ++ hostname ++ rest) "http://".toList = some 0)) :
    extractResource (pre ++ hostname ++ rest) hostname port
      = if rest.head? = some ':' ∧ rest.drop 1 ≠ port
        then pre.length + hostname.length + 1 + port.length
        else pre.length + hostname.length := by
  have hsh : ((pre.length == 0)
      || ((pre.length == 0 + strlen "http://".toList)
          && (strstr (pre ++ hostname ++ rest) "http://".toList == some 0))) = true := by
    rcases hstart with h0 | ⟨h7, hh⟩
    · rw [h0]; rfl
    · rw [h7, hh]; rfl
  have hlen : (pre ++ hostname).length = pre.length + hostname.length := List.length_append _ _
  unfold extractResource
  simp only [hs, strlen]
  rw [show ((pre.length == 0)
      || ((pre.length == 0 + "http://".toList.length)
          && (strstr (pre ++ hostname ++ rest) "http://".toList == some 0))) = true from hsh]
  simp only [Bool.true_and, if_true]
  cases rest with
  | nil =>
    rw [← hlen, getD_append_length_nil]
    rfl
  | cons c r =>
    rw [← hlen, getD_append_length, drop_append_length_succ]
    by_cases hc : c = ':'
    · subst hc
      by_cases hr : r = port
      · have h0 : strcmp r port = 0 := (strcmp_eq_zero_iff _ _).mpr hr
        rw [h0]
        simp [hr]
      · have h0 : strcmp r port ≠ 0 := fun h => hr ((strcmp_eq_zero_iff _ _).mp h)
        simp [h0, hr]
    · have hcb : (c == ':') = false := by simpa using hc
      rw [hcb]
      simp [hc]

/-- The four target forms of C20, for a hostname whose first occurrence in
`http://hostname` is the one behind the scheme: `extractResource` returns the path. -/
theorem extractResource_origin_form (hostname port path t : List Char)
    (hpath : path = '/' :: t) :
    (hostname ++ path).drop (extractResource (hostname ++ path) hostname port) = path
      ∧ (hostname ++ (':' :: port ++ path)).drop
          (extractResource (hostname ++ (':' :: port ++ path)) hostname port) = path
      ∧ (strstr ("http://".toList ++ hostname) hostname = some 7 →
          ("http://".toList ++ hostname ++ path).drop
            (extractResource ("http://".toList ++ hostname ++ path) hostname port) = path
          ∧ ("http://".toList ++ hostname ++ (':' :: port ++ path)).drop
              (extractResource ("http://".toList ++ hostname ++ (':' :: port ++ path))
                hostname port) = path) := by
  subst hpath
  have hne : port ++ '/' :: t ≠ port := by
    intro h
    have := congrArg List.length h
    simp at this
  have hform1 : ∀ pre : List Char,
      strstr (pre ++ hostname) hostname = some pre.length →
      (pre.length = 0 ∨ (pre.length = 7 ∧ ∀ x, strstr (pre ++ hostname ++ x) "http://".toList
        = some 0)) →
      (pre ++ hostname ++ '/' :: t).drop
        (extractResource (pre ++ hostname ++ '/' :: t) hostname port) = '/' :: t := by
    intro pre hs hstart
    rw [extractResource_at pre hostname port _ (strstr_append _ _ _ _ hs)
      (hstart.imp id (fun h => ⟨h.1, h.2 _⟩))]
    have hlen : (pre ++ hostname).length = pre.length + hostname.length :=
      List.length_append _ _
    simp only [List.head?_cons, Option.some.injEq, Char.reduceEq, false_and, if_false]
    rw [← hlen, List.drop_left]
  have hform2 : ∀ pre : List Char,
      strstr (pre ++ hostname) hostname = some pre.length →
      (pre.length = 0 ∨ (pre.length = 7 ∧ ∀ x, strstr (pre ++ hostname ++ x) "http://".toList
        = some 0)) →
      (pre ++ hostname ++ (':' :: port ++ '/' :: t)).drop
        (extractResource (pre ++ hostname ++ (':' :: port ++ '/' :: t)) hostname port)
        = '/' :: t := by
    intro pre hs hstart
    rw [extractResource_at pre hostname port _ (strstr_append _ _ _ _ hs)
      (hstart.imp id (fun h => ⟨h.1, h.2 _⟩))]
    have hlen : (pre ++ hostname ++ ':' :: port).length
        = pre.length + hostname.length + 1 + port.length := by
      simp only [List.length_append, List.length_cons]
      omega
    have hcond : (':' :: port ++ '/' :: t).head? = some ':'
        ∧ (':' :: port ++ '/' :: t).drop 1 ≠ port := ⟨rfl, hne⟩
    rw [if_pos hcond, ← hlen]
    have hassoc : pre ++ hostname ++ (':' :: port ++ '/' :: t)
        = (pre ++ hostname ++ ':' :: port) ++ '/' :: t := by
      simp
    rw [hassoc, List.drop_left]
  refine ⟨?_, ?_, ?_⟩
  · exact hform1 [] (by simpa using strstr_self_append hostname []) (Or.inl rfl)
  · exact hform2 [] (by simpa using strstr_self_append hostname []) (Or.inl rfl)
  · intro hfirst
    have hhttp : ∀ x, strstr ("http://".toList ++ hostname ++ x) "http://".toList
        = some 0 := by
      intro x
      rw [List.append_assoc]
      exact strstr_self_append _ _
    exact ⟨hform1 "http://".toList hfirst (Or.inr ⟨rfl, hhttp⟩),
      hform2 "http://".toList hfirst (Or.inr ⟨rfl, hhttp⟩)⟩

/-! ## Lemmas on the header-read loop -/

theorem cstr_append_nul (a b : List Char) : cstr (a ++ '\x00' :: b) = cstr a := by
  induction a with
  | nil => simp [cstr]
  | cons x a ih =>
    unfold cstr at ih ⊢
    by_cases hx : (x != '\x00') = true
    · simp only [List.cons_append, List.takeWhile_cons, hx, if_true, ih]
    · simp only [List.cons_append, List.takeWhile_cons, hx, if_false]
      rfl

theorem cstr_of_no_nul (a : List Char) (h : ∀ c ∈ a, c ≠ '\x00') : cstr a = a := by
  unfold cstr
  rw [List.takeWhile_eq_self_iff]
  intro c hc
  simpa using h c hc

theorem cstr_append_of_no_nul (a b : List Char) (h : ∀ c ∈ a, c ≠ '\x00') :
    cstr (a ++ b) = a ++ cstr b := by
  unfold cstr
  rw [List.takeWhile_append_of_pos (fun c hc => by simpa using h c hc)]

/-- What `readData` returns: an error, or the number of the bytes stored, which is at
most the size asked for. -/
theorem readData_stored (socket_open : Bool) (buffer_size : Nat) (outcome : RecvResult) :
    (readData socket_open buffer_size outcome).1 < 0
      ∨ ((readData socket_open buffer_size outcome).1
            = ((readData socket_open buffer_size outcome).2.1.length : Int)
          ∧ (readData socket_open buffer_size outcome).2.1.length ≤ buffer_size) := by
  unfold readData
  cases socket_open
  · left; simp
  · cases outcome with
    | data bytes =>
      right
      by_cases h : ((List.take buffer_size bytes).length == 0) = true
      · simp only [Bool.not_true, Bool.false_eq_true, if_false, h, if_true]
        simp
      · simp only [Bool.not_true, Bool.false_eq_true, if_false, h]
        simp only [List.length_take, true_and]
        omega
    | eof => right; simp
    | again => right; simp
    | error => left; simp

/-- The buffer behind the stored bytes is untouched. -/
theorem storeAt_drop (buffer bytes : List Char) (offset : Nat) (h : offset ≤ buffer.length) :
    (storeAt buffer offset bytes).drop (offset + bytes.length)
      = buffer.drop (offset + bytes.length) := by
  unfold storeAt
  have hlen : (buffer.take offset ++ bytes).length = offset + bytes.length := by
    simp only [List.length_append, List.length_take]
    omega
  rw [← hlen, List.drop_left]

/-- The buffer before the stored bytes is untouched. -/
theorem storeAt_take (buffer bytes : List Char) (offset : Nat) (h : offset ≤ buffer.length) :
    (storeAt buffer offset bytes).take (offset + bytes.length)
      = buffer.take offset ++ bytes := by
  unfold storeAt
  have hlen : (buffer.take offset ++ bytes).length = offset + bytes.length := by
    simp only [List.length_append, List.length_take]
    omega
  rw [← hlen, List.take_left]

theorem headerBufferInv_length (s : HeaderLoopState) (h : headerBufferInv s) :
    s.header_buffer.length = RECEIVE_BUFFER_SIZE + 1 := by
  obtain ⟨h1, h2⟩ := h
  have h3 := congrArg List.length h2
  simp only [List.length_drop, List.length_replicate, RECEIVE_BUFFER_SIZE] at h3 ⊢
  omega

/-- With the invariant, the string in the header buffer is the string in the bytes
received. -/
theorem headerBufferInv_cstr (s : HeaderLoopState) (h : headerBufferInv s) :
    cstr s.header_buffer = cstr (s.header_buffer.take s.received_bytes) := by
  obtain ⟨h1, h2⟩ := h
  have hsplit := List.take_append_drop s.received_bytes s.header_buffer
  rw [h2] at hsplit
  have hpos : RECEIVE_BUFFER_SIZE + 1 - s.received_bytes
      = (RECEIVE_BUFFER_SIZE - s.received_bytes) + 1 := by
    simp only [RECEIVE_BUFFER_SIZE]
    omega
  rw [hpos, List.replicate_succ] at hsplit
  rw [← hsplit, cstr_append_nul]
  rw [hsplit]

theorem headerBufferInv_init : headerBufferInv initHeaderLoopState := by
  refine ⟨Nat.zero_le _, ?_⟩
  rfl

/-- One iteration of the header-read loop keeps the invariant. -/
theorem headerLoopBody_inv (s s1 : HeaderLoopState) (outcome : RecvResult)
    (header_found : Bool) (hinv : headerBufferInv s)
    (h : headerLoopBody s outcome = some (Except.ok (s1, header_found))) :
    headerBufferInv s1
      ∧ s.received_bytes ≤ s1.received_bytes
      ∧ s1.header_buffer.take s.received_bytes = s.header_buffer.take s.received_bytes := by
  have hlen := headerBufferInv_length s hinv
  obtain ⟨hrecv, hdrop⟩ := hinv
  have hspec := readData_stored s.client_open (headerReadSize s) outcome
  unfold headerLoopBody at h
  simp only at h
  generalize readData s.client_open (headerReadSize s) outcome = rd at h hspec
  obtain ⟨stat, stored, op⟩ := rd
  simp only at h hspec
  rcases hspec with hneg | ⟨heq, hle⟩
  · simp [hneg] at h
  · have hnn : ¬ stat < 0 := by
      rw [heq]
      omega
    simp only [hnn, if_false] at h
    split at h
    · simp at h
    · rename_i status hdr host port hcheck
      simp only [Option.some.injEq, Except.ok.injEq, Prod.mk.injEq] at h
      obtain ⟨hs1, _⟩ := h
      subst hs1
      subst heq
      have hsize : headerReadSize s = MAX_HEADER_SIZE - s.received_bytes := rfl
      have hoff : s.received_bytes ≤ s.header_buffer.length := by
        rw [hlen]
        simp only [RECEIVE_BUFFER_SIZE]
        omega
      refine ⟨⟨?_, ?_⟩, ?_, ?_⟩
      · show s.received_bytes + (Int.toNat (stored.length : Int)) ≤ MAX_HEADER_SIZE
        rw [Int.toNat_ofNat]
        omega
      · show (storeAt s.header_buffer s.received_bytes stored).drop
              (s.received_bytes + (Int.toNat (stored.length : Int)))
            = List.replicate (RECEIVE_BUFFER_SIZE + 1
                - (s.received_bytes + (Int.toNat (stored.length : Int)))) '\x00'
        rw [Int.toNat_ofNat, storeAt_drop _ _ _ hoff, ← List.drop_drop, hdrop,
          List.drop_replicate]
        congr 1
        omega
      · show s.received_bytes ≤ s.received_bytes + (Int.toNat (stored.length : Int))
        omega
      · show (storeAt s.header_buffer s.received_bytes stored).take s.received_bytes = _
        have := storeAt_take s.header_buffer stored s.received_bytes hoff
        have h2 := congrArg (List.take s.received_bytes) this
        rw [List.take_take, Nat.min_eq_left (Nat.le_add_right _ _)] at h2
        rw [h2, List.take_append_of_le_length (by simp [hoff]), List.take_take]
        simp

theorem headerLoopGuard_some (s : HeaderLoopState) (r : HeaderLoopResult)
    (h : headerLoopGuard s = some r) :
    r = HeaderLoopResult.failed (-1) []
      ∨ r = HeaderLoopResult.failed (-1) [Event.sendClient error_entity_too_large] := by
  unfold headerLoopGuard at h
  split at h
  · left; simpa using h.symm
  · split at h
    · right; simpa using h.symm
    · simp at h

theorem headerLoop_cons (outcome : RecvResult) (reads : List RecvResult)
    (s : HeaderLoopState) :
    headerLoop (outcome :: reads) s
      = match headerLoopGuard s with
        | some result => some result
        | none =>
          match headerLoopBody s outcome with
          | none => none
          | some (Except.error result) => some result
          | some (Except.ok (s1, header_found)) =>
            if header_found then some (HeaderLoopResult.found s1 reads)
            else headerLoop reads s1 := rfl

/-- The only exits of one iteration through `goto error_header_read` return -1 and send
nothing. -/
theorem headerLoopBody_error (s : HeaderLoopState) (outcome : RecvResult)
    (r : HeaderLoopResult) (h : headerLoopBody s outcome = some (Except.error r)) :
    r = HeaderLoopResult.failed (-1) [] := by
  unfold headerLoopBody at h
  simp only at h
  split at h
  · simpa using h.symm
  · split at h <;> simp at h

/-- The state in which the header-read loop finds the header satisfies the invariant. -/
theorem headerLoop_found_inv (reads rest : List RecvResult) (s s1 : HeaderLoopState)
    (hinv : headerBufferInv s)
    (h : headerLoop reads s = some (HeaderLoopResult.found s1 rest)) :
    headerBufferInv s1 := by
  induction reads generalizing s with
  | nil =>
    have h1 : headerLoopGuard s = some (HeaderLoopResult.found s1 rest) := h
    rcases headerLoopGuard_some s _ h1 with h2 | h2 <;> simp at h2
  | cons o reads ih =>
    rw [headerLoop_cons] at h
    cases hg : headerLoopGuard s with
    | some r =>
      simp only [hg, Option.some.injEq] at h
      subst h
      rcases headerLoopGuard_some s _ hg with h2 | h2 <;> simp at h2
    | none =>
      simp only [hg] at h
      cases hb : headerLoopBody s o with
      | none => simp [hb] at h
      | some res =>
        cases res with
        | error r =>
          simp only [hb, Option.some.injEq] at h
          subst h
          have := headerLoopBody_error s o _ hb
          simp at this
        | ok p =>
          obtain ⟨s2, found⟩ := p
          simp only [hb] at h
          have hinv2 := (headerLoopBody_inv s s2 o found hinv hb).1
          cases found with
          | true =>
            simp only [if_true, Option.some.injEq, HeaderLoopResult.found.injEq] at h
            rw [← h.1]
            exact hinv2
          | false =>
            simp only [Bool.false_eq_true, if_false] at h
            exact ih s2 hinv2 h

theorem headerState_init : initHeaderLoopState = headerState [] initRequestHeader none none :=
  rfl

theorem cstr_replicate_nul (n : Nat) : cstr (List.replicate (n + 1) '\x00') = [] := by
  rw [List.replicate_succ]
  rfl

/-- Storing bytes behind the bytes received. -/
theorem storeAt_headerState (received stored : List Char) (n : Nat) :
    storeAt (received ++ List.replicate (n - received.length) '\x00') received.length stored
      = (received ++ stored)
          ++ List.replicate (n - (received ++ stored).length) '\x00' := by
  unfold storeAt
  rw [List.take_left, List.drop_append, List.drop_replicate]
  simp only [List.length_append]
  congr 2
  omega

theorem headerLoopGuard_headerState (received : List Char) (request_header : HTTPRequestHeader)
    (hostname port : Option (List Char)) (hlt : received.length < MAX_HEADER_SIZE) :
    headerLoopGuard (headerState received request_header hostname port) = none := by
  have h : ¬ (RECEIVE_BUFFER_SIZE - received.length = 0) := by
    simp only [RECEIVE_BUFFER_SIZE]
    omega
  simp [headerLoopGuard, headerState, headerReadSize, h]

/-- The exit of the header-read loop with the buffer full: `413 Entity Too Large` is sent
and -1 returned. -/
theorem headerLoop_full (reads : List RecvResult) (s : HeaderLoopState)
    (hopen : s.client_open = true) (hfull : s.received_bytes = MAX_HEADER_SIZE) :
    headerLoop reads s
      = some (HeaderLoopResult.failed (-1) [Event.sendClient error_entity_too_large]) := by
  have hg : headerLoopGuard s
      = some (HeaderLoopResult.failed (-1) [Event.sendClient error_entity_too_large]) := by
    simp [headerLoopGuard, headerReadSize, hopen, hfull, RECEIVE_BUFFER_SIZE]
  cases reads with
  | nil => exact hg
  | cons o reads => rw [headerLoop_cons, hg]

/-- One iteration of the header-read loop whose read returns bytes: the bytes that fit
are stored behind the bytes received, and the buffer is searched for a header. -/
theorem headerLoopBody_headerState (received chunk : List Char)
    (request_header : HTTPRequestHeader) (hostname port : Option (List Char))
    (hlt : received.length < MAX_HEADER_SIZE) (hc : chunk ≠ [])
    (hnul : ∀ c ∈ received ++ chunk.take (MAX_HEADER_SIZE - received.length), c ≠ '\x00') :
    headerLoopBody (headerState received request_header hostname port)
        (RecvResult.data chunk)
      = (checkHeaderExtractHost (received ++ chunk.take (MAX_HEADER_SIZE - received.length))
            request_header hostname port).map
          (fun r => Except.ok
            (headerState (received ++ chunk.take (MAX_HEADER_SIZE - received.length))
              r.2.1 r.2.2.1 r.2.2.2, r.1 == 0)) := by
  generalize hst : chunk.take (MAX_HEADER_SIZE - received.length) = stored at hnul
  have hlen : stored.length ≠ 0 := by
    rw [← hst, List.length_take]
    have : chunk.length ≠ 0 := by
      intro h0
      exact hc (List.length_eq_zero.mp h0)
    omega
  have hrd : readData true (RECEIVE_BUFFER_SIZE - received.length) (RecvResult.data chunk)
      = ((stored.length : Int), stored, true) := by
    simp only [readData, RECEIVE_BUFFER_SIZE, hst]
    simp [hlen]
  have hbuf := storeAt_headerState received stored (RECEIVE_BUFFER_SIZE + 1)
  have hpos : RECEIVE_BUFFER_SIZE + 1 - (received ++ stored).length
      = (RECEIVE_BUFFER_SIZE - (received ++ stored).length) + 1 := by
    have : stored.length ≤ MAX_HEADER_SIZE - received.length := by
      rw [← hst, List.length_take]
      omega
    simp only [RECEIVE_BUFFER_SIZE, List.length_append]
    omega
  have hcstr : cstr ((received ++ stored)
      ++ List.replicate (RECEIVE_BUFFER_SIZE + 1 - (received ++ stored).length) '\x00')
      = received ++ stored := by
    rw [cstr_append_of_no_nul _ _ hnul, hpos, cstr_replicate_nul, List.append_nil]
  unfold headerLoopBody
  simp only [headerState, headerReadSize, hrd, hbuf, hcstr]
  have hnn : ¬ ((stored.length : Int) < 0) := by omega
  simp only [hnn, if_false, Int.toNat_ofNat, List.length_append]
  cases checkHeaderExtractHost (received ++ stored) request_header hostname port with
  | none => rfl
  | some r =>
    obtain ⟨status, hdr, h1, p1⟩ := r
    rfl

/-- A buffer without the end-of-header marker is not a header: `E_NOT_HTTP` is returned
and nothing changes. -/
theorem checkHeaderExtractHost_not_http (buffer : List Char)
    (request_header : HTTPRequestHeader) (hostname port : Option (List Char))
    (h : strstr buffer ['\r', '\n', '\r', '\n'] = none) :
    checkHeaderExtractHost buffer request_header hostname port
      = some (E_NOT_HTTP, request_header, hostname, port) := by
  simp only [checkHeaderExtractHost, parseRequestHeader, h]
  rfl

/-- Bytes behind the end-of-header marker do not change what is parsed. -/
theorem parseRequestHeader_append (header : HTTPRequestHeader) (buffer extra : List Char)
    (i : Nat) (h : strstr buffer ['\r', '\n', '\r', '\n'] = some i) :
    parseRequestHeader header (buffer ++ extra) = parseRequestHeader header buffer := by
  have hlen := (strstr_some_spec _ _ _ h).1
  simp only [List.length_cons, List.length_nil] at hlen
  simp only [parseRequestHeader, strstr_append _ _ _ _ h, h]
  rw [List.take_append_of_le_length (by omega)]

theorem checkHeaderExtractHost_append (buffer extra : List Char)
    (request_header : HTTPRequestHeader) (hostname port : Option (List Char)) (i : Nat)
    (h : strstr buffer ['\r', '\n', '\r', '\n'] = some i) :
    checkHeaderExtractHost (buffer ++ extra) request_header hostname port
      = checkHeaderExtractHost buffer request_header hostname port := by
  simp only [checkHeaderExtractHost, parseRequestHeader_append _ _ _ _ h]

/-- A start of a text without an occurrence has none. -/
theorem strstr_none_of_append (a b needle : List Char) (h : strstr (a ++ b) needle = none) :
    strstr a needle = none := by
  cases ha : strstr a needle with
  | none => rfl
  | some j =>
    rw [strstr_append _ _ _ _ ha] at h
    simp at h

/-- A text whose first occurrence ends the text has no occurrence in a shorter start. -/
theorem strstr_none_of_last (a b needle : List Char) (hb : b ≠ [])
    (h : strstr (a ++ b) needle = some ((a ++ b).length - needle.length)) :
    strstr a needle = none := by
  cases ha : strstr a needle with
  | none => rfl
  | some j =>
    have h1 := (strstr_some_spec _ _ _ ha).1
    have h3 := (strstr_some_spec _ _ _ h).1
    rw [strstr_append _ _ _ _ ha] at h
    simp only [Option.some.injEq] at h
    have hbl : b.length ≠ 0 := fun h0 => hb (List.length_eq_zero.mp h0)
    simp only [List.length_append] at h h3
    omega

theorem headerLoop_data_not_http (received chunk : List Char) (reads : List RecvResult)
    (request_header : HTTPRequestHeader) (hostname port : Option (List Char))
    (hlt : received.length < MAX_HEADER_SIZE) (hc : chunk ≠ [])
    (hnul : ∀ c ∈ received ++ chunk.take (MAX_HEADER_SIZE - received.length), c ≠ '\x00')
    (hnone : strstr (received ++ chunk.take (MAX_HEADER_SIZE - received.length))
      ['\r', '\n', '\r', '\n'] = none) :
    headerLoop (RecvResult.data chunk :: reads)
        (headerState received request_header hostname port)
      = headerLoop reads
          (headerState (received ++ chunk.take (MAX_HEADER_SIZE - received.length))
            request_header hostname port) := by
  rw [headerLoop_cons, headerLoopGuard_headerState _ _ _ _ hlt,
    headerLoopBody_headerState _ _ _ _ _ hlt hc hnul,
    checkHeaderExtractHost_not_http _ _ _ _ hnone]
  rfl

theorem headerLoop_data_found (received chunk : List Char) (reads : List RecvResult)
    (request_header parsed : HTTPRequestHeader)
    (hostname port hostname1 port1 : Option (List Char))
    (hlt : received.length < MAX_HEADER_SIZE) (hc : chunk ≠ [])
    (hnul : ∀ c ∈ received ++ chunk.take (MAX_HEADER_SIZE - received.length), c ≠ '\x00')
    (hcheck : checkHeaderExtractHost
        (received ++ chunk.take (MAX_HEADER_SIZE - received.length))
        request_header hostname port = some (0, parsed, hostname1, port1)) :
    headerLoop (RecvResult.data chunk :: reads)
        (headerState received request_header hostname port)
      = some (HeaderLoopResult.found
          (headerState (received ++ chunk.take (MAX_HEADER_SIZE - received.length))
            parsed hostname1 port1) reads) := by
  rw [headerLoop_cons, headerLoopGuard_headerState _ _ _ _ hlt,
    headerLoopBody_headerState _ _ _ _ _ hlt hc hnul, hcheck]
  rfl

/-- A header of at most `MAX_HEADER_SIZE` bytes that arrives in pieces is found with the
read of its last piece. -/
theorem headerLoop_chunks_found (chunks : List (List Char)) (received : List Char)
    (rest : List RecvResult) (request_header parsed : HTTPRequestHeader)
    (hostname port hostname1 port1 : Option (List Char))
    (hne : ∀ c ∈ chunks, c ≠ []) (hch : chunks ≠ [])
    (hlen : (received ++ chunks.flatten).length ≤ MAX_HEADER_SIZE)
    (hnul : ∀ c ∈ received ++ chunks.flatten, c ≠ '\x00')
    (hend : strstr (received ++ chunks.flatten) ['\r', '\n', '\r', '\n']
      = some ((received ++ chunks.flatten).length - 4))
    (hcheck : checkHeaderExtractHost (received ++ chunks.flatten)
        request_header hostname port = some (0, parsed, hostname1, port1)) :
    headerLoop (chunks.map RecvResult.data ++ rest)
        (headerState received request_header hostname port)
      = some (HeaderLoopResult.found
          (headerState (received ++ chunks.flatten) parsed hostname1 port1) rest) := by
  induction chunks generalizing received with
  | nil => exact absurd rfl hch
  | cons c cs ih =>
    have hc : c ≠ [] := hne c (List.mem_cons_self _ _)
    have hcl : c.length ≠ 0 := fun h0 => hc (List.length_eq_zero.mp h0)
    simp only [List.flatten_cons, List.length_append] at hlen
    have hlt : received.length < MAX_HEADER_SIZE := by omega
    have htake : c.take (MAX_HEADER_SIZE - received.length) = c :=
      List.take_of_length_le (by omega)
    simp only [List.flatten_cons] at hnul hend hcheck ⊢
    rw [← List.append_assoc] at hnul hend hcheck ⊢
    have hnul1 : ∀ x ∈ received ++ c, x ≠ '\x00' := fun x hx =>
      hnul x (List.mem_append_left _ hx)
    cases cs with
    | nil =>
      simp only [List.flatten_nil, List.append_nil, List.map_cons, List.map_nil,
        List.cons_append, List.nil_append] at hcheck ⊢
      have := headerLoop_data_found received c rest request_header parsed hostname port
        hostname1 port1 hlt hc (by rw [htake]; exact hnul1) (by rw [htake]; exact hcheck)
      rw [htake] at this
      exact this
    | cons c2 cs2 =>
      have hc2 : c2 ≠ [] := hne c2 (by simp)
      have hrest : (c2 :: cs2).flatten ≠ [] := by
        simp [hc2]
      have hnone := strstr_none_of_last _ _ _ hrest hend
      have hstep := headerLoop_data_not_http received c
        ((c2 :: cs2).map RecvResult.data ++ rest) request_header hostname port hlt hc
        (by rw [htake]; exact hnul1) (by rw [htake]; exact hnone)
      rw [htake] at hstep
      rw [List.map_cons, List.cons_append, hstep]
      exact ih (received ++ c) (fun x hx => hne x (List.mem_cons_of_mem _ hx)) (by simp)
        (by simp only [List.length_append] at hlen ⊢; omega) hnul hend hcheck

theorem take_take_append (n : Nat) (a b : List Char) :
    (a.take n ++ b).take n = (a ++ b).take n := by
  by_cases h : a.length ≤ n
  · rw [List.take_of_length_le h]
  · have h1 : n ≤ a.length := by omega
    rw [List.take_append_of_le_length (by simp [h1]), List.take_take, Nat.min_self,
      List.take_append_of_le_length h1]

/-- Once `MAX_HEADER_SIZE` bytes without an end-of-header marker have arrived, in
whatever pieces, the loop ends with `413 Entity Too Large` and -1. -/
theorem headerLoop_chunks_full (chunks : List (List Char)) (received : List Char)
    (rest : List RecvResult) (request_header : HTTPRequestHeader)
    (hostname port : Option (List Char))
    (hne : ∀ c ∈ chunks, c ≠ []) (hrl : received.length ≤ MAX_HEADER_SIZE)
    (hlen : MAX_HEADER_SIZE ≤ (received ++ chunks.flatten).length)
    (hnul : ∀ c ∈ (received ++ chunks.flatten).take MAX_HEADER_SIZE, c ≠ '\x00')
    (hnone : strstr ((received ++ chunks.flatten).take MAX_HEADER_SIZE)
      ['\r', '\n', '\r', '\n'] = none) :
    headerLoop (chunks.map RecvResult.data ++ rest)
        (headerState received request_header hostname port)
      = some (HeaderLoopResult.failed (-1) [Event.sendClient error_entity_too_large]) := by
  induction chunks generalizing received with
  | nil =>
    simp only [List.flatten_nil, List.append_nil] at hlen
    exact headerLoop_full _ _ rfl (Nat.le_antisymm hrl hlen)
  | cons c cs ih =>
    by_cases hfull : received.length = MAX_HEADER_SIZE
    · exact headerLoop_full _ _ rfl hfull
    · have hlt : received.length < MAX_HEADER_SIZE := by omega
      have hc : c ≠ [] := hne c (List.mem_cons_self _ _)
      have hstored : received ++ c.take (MAX_HEADER_SIZE - received.length)
          = (received ++ c).take MAX_HEADER_SIZE := by
        rw [List.take_append_eq_append_take, List.take_of_length_le hrl]
      have hsame : ((received ++ c.take (MAX_HEADER_SIZE - received.length))
            ++ cs.flatten).take MAX_HEADER_SIZE
          = (received ++ (c :: cs).flatten).take MAX_HEADER_SIZE := by
        rw [hstored, take_take_append, List.flatten_cons, List.append_assoc]
      have hpre : ∃ t, (received ++ (c :: cs).flatten).take MAX_HEADER_SIZE
          = (received ++ c.take (MAX_HEADER_SIZE - received.length)) ++ t := by
        refine ⟨(cs.flatten).take (MAX_HEADER_SIZE - (received ++ c).length), ?_⟩
        rw [hstored, List.flatten_cons, ← List.append_assoc, List.take_append_eq_append_take]
      obtain ⟨t, ht⟩ := hpre
      have hnul1 : ∀ x ∈ received ++ c.take (MAX_HEADER_SIZE - received.length),
          x ≠ '\x00' := by
        intro x hx
        apply hnul x
        rw [ht]
        exact List.mem_append_left _ hx
      have hnone1 : strstr (received ++ c.take (MAX_HEADER_SIZE - received.length))
          ['\r', '\n', '\r', '\n'] = none := by
        rw [ht] at hnone
        exact strstr_none_of_append _ _ _ hnone
      rw [List.map_cons, List.cons_append,
        headerLoop_data_not_http _ _ _ _ _ _ hlt hc hnul1 hnone1]
      refine ih _ (fun x hx => hne x (List.mem_cons_of_mem _ hx)) ?_ ?_ ?_ ?_
      · rw [hstored, List.length_take]
        omega
      · have := congrArg List.length hsame
        simp only [List.length_take] at this
        omega
      · rw [hsame]
        exact hnul
      · rw [hsame]
        exact hnone

/-! ## Lemmas on the request `paddedRequest` -/

theorem paddedRequest_eq (pad : Nat) :
    paddedRequest pad
      = wireLines (requestLine "GET".toList "/".toList "1.1".toList
            :: [("Host".toList, "x".toList), ("Pad".toList, List.replicate pad 'a')].map
                fieldLine)
          ['\r', '\n'] :=
  specRequestText_eq_wireLines _ _ _ _

theorem paddedRequest_split (pad : Nat) :
    paddedRequest pad
      = "GET / HTTP/1.1\r\nHost: x\r\nPad: ".toList
          ++ (List.replicate pad 'a' ++ "\r\n\r\n".toList) := by
  simp [paddedRequest, specRequestText]

theorem paddedRequest_length (pad : Nat) : (paddedRequest pad).length = pad + 34 := by
  rw [paddedRequest_split]
  simp only [List.length_append, List.length_replicate, String.toList, List.length_cons,
    List.length_nil]
  omega

theorem paddedRequest_no_nul (pad : Nat) : ∀ c ∈ paddedRequest pad, c ≠ '\x00' := by
  intro c hc
  rw [paddedRequest_split] at hc
  simp only [List.mem_append, List.mem_replicate] at hc
  rcases hc with hc | hc | hc
  · revert c
    decide
  · rw [hc.2]
    decide
  · revert c
    decide

theorem paddedRequest_strstr (pad : Nat) :
    strstr (paddedRequest pad) ['\r', '\n', '\r', '\n'] = some (pad + 30) := by
  have hne : ∀ x ∈ requestLine "GET".toList "/".toList "1.1".toList
      :: [("Host".toList, "x".toList), ("Pad".toList, List.replicate pad 'a')].map fieldLine,
      x ≠ [] := by
    intro x hx
    simp only [List.map_cons, List.map_nil, List.mem_cons, List.mem_singleton,
      List.not_mem_nil, or_false] at hx
    rcases hx with hx | hx | hx <;> rw [hx] <;> simp [requestLine, fieldLine]
  have hlf : ∀ x ∈ requestLine "GET".toList "/".toList "1.1".toList
      :: [("Host".toList, "x".toList), ("Pad".toList, List.replicate pad 'a')].map fieldLine,
      ∀ c ∈ x, c ≠ '\n' := by
    intro x hx c hc
    simp only [List.map_cons, List.map_nil, List.mem_cons, List.mem_singleton,
      List.not_mem_nil, or_false] at hx
    rcases hx with hx | hx | hx
    · rw [hx] at hc
      revert c
      decide
    · rw [hx] at hc
      revert c
      decide
    · rw [hx] at hc
      simp only [fieldLine, List.mem_append, List.mem_cons, List.mem_replicate] at hc
      rcases hc with hc | hc | hc | hc
      · revert c
        decide
      · rw [hc]; decide
      · rw [hc]; decide
      · rw [hc.2]; decide
  obtain ⟨i, hi, hlen⟩ := strstr_wireLines _ _ [] hne hlf
  rw [paddedRequest_eq, hi]
  have h2 : (wireLines (requestLine "GET".toList "/".toList "1.1".toList
      :: [("Host".toList, "x".toList), ("Pad".toList, List.replicate pad 'a')].map fieldLine)
      ['\r', '\n']).length = pad + 34 := by
    rw [← paddedRequest_eq]
    exact paddedRequest_length pad
  have h3 : (wireLines (requestLine "GET".toList "/".toList "1.1".toList
      :: [("Host".toList, "x".toList), ("Pad".toList, List.replicate pad 'a')].map fieldLine)
      ['\r', '\n']).length
      = (wireLines (requestLine "GET".toList "/".toList "1.1".toList
      :: [("Host".toList, "x".toList), ("Pad".toList, List.replicate pad 'a')].map fieldLine)
      []).length + 2 := by
    rw [wireLines_append_tail]
    simp
  congr 1
  omega

theorem paddedRequest_parse (pad : Nat) :
    parseRequestHeader initRequestHeader (paddedRequest pad)
      = some (0, { request_info := { req_type := some "GET".toList,
                                      resource := some "/".toList,
                                      http_version := some "1.1".toList },
                   fields := [ fieldOf ("Host".toList, "x".toList),
                               fieldOf ("Pad".toList, List.replicate pad 'a') ] }) := by
  rw [paddedRequest_eq]
  have h := parseRequestHeader_wire initRequestHeader "GET".toList "/".toList "1.1".toList
    [("Host".toList, "x".toList), ("Pad".toList, List.replicate pad 'a')] []
    (by decide) (by decide) (by decide)
    (by
      intro k x hk hl
      exact not_fieldForm_of_dropWhile (requestLine "GET".toList "/".toList "1.1".toList)
        (by decide) k x hk (by rw [hl]; simp))
    (by
      intro p hp
      simp only [List.mem_cons, List.mem_singleton, List.not_mem_nil, or_false] at hp
      rcases hp with hp | hp
      · rw [hp]
        decide
      · rw [hp]
        refine ⟨fun c hc => ?_, fun c hc => ?_⟩
        · have hc1 : c ∈ "Pad".toList := hc
          clear hc
          revert c
          decide
        · rw [List.eq_of_mem_replicate hc]
          decide)
  exact h

theorem paddedRequest_check (pad : Nat) :
    checkHeaderExtractHost (paddedRequest pad) initRequestHeader none none
      = some (0, { request_info := { req_type := some "GET".toList,
                                      resource := some "/".toList,
                                      http_version := some "1.1".toList },
                   fields := [ fieldOf ("Host".toList, "x".toList),
                               fieldOf ("Pad".toList, List.replicate pad 'a') ] },
              some "x".toList, some "80".toList) := by
  simp only [checkHeaderExtractHost, paddedRequest_parse]
  rfl

theorem paddedRequest_take_none (pad k : Nat) (hk : k < pad + 34) :
    strstr ((paddedRequest pad).take k) ['\r', '\n', '\r', '\n'] = none := by
  apply strstr_none_of_last _ ((paddedRequest pad).drop k)
  · intro h0
    have := congrArg List.length h0
    rw [List.length_drop, paddedRequest_length] at this
    simp only [List.length_nil] at this
    omega
  · rw [List.take_append_drop, paddedRequest_strstr, paddedRequest_length]
    rfl

/-! ## Lemmas on the session -/

theorem clientSession_found (reads rest : List RecvResult) (s : HeaderLoopState)
    (connect_ok : Bool)
    (h : headerLoop reads initHeaderLoopState = some (HeaderLoopResult.found s rest)) :
    clientSession reads connect_ok = sessionAfterHeader s connect_ok := by
  simp only [clientSession, h]

theorem sessionAfterHeader_blocked (s : HeaderLoopState) (connect_ok : Bool)
    (h : applyFilter (cstr s.header_buffer) = true) :
    sessionAfterHeader s connect_ok
      = some { ret_val := some 0, events := [Event.sendClient filtered_redirect_url] } := by
  simp only [sessionAfterHeader, h, if_true]

/-- A session whose URL filter does not hit dials the server first, if it acts at all. -/
theorem sessionAfterHeader_not_blocked (s : HeaderLoopState) (connect_ok : Bool)
    (result : SessionResult) (h : applyFilter (cstr s.header_buffer) = false)
    (hr : sessionAfterHeader s connect_ok = some result) :
    ∃ hostname port events, result.events = Event.connect hostname port :: events := by
  simp only [sessionAfterHeader, h, Bool.false_eq_true, if_false] at hr
  split at hr
  · rename_i hostname port req_type _ _ _
    split at hr
    · simp only [Option.some.injEq] at hr
      exact ⟨hostname, port, [], by rw [← hr]⟩
    · split at hr
      · simp at hr
      · split at hr
        · simp at hr
        · simp only [Option.map_eq_some'] at hr
          obtain ⟨sent, _, hres⟩ := hr
          exact ⟨hostname, port, _, by rw [← hres]; rfl⟩
  · simp at hr

/-- What an iteration of the header-read loop that goes on has found in the buffer. -/
theorem headerLoopBody_ok (s s1 : HeaderLoopState) (outcome : RecvResult)
    (header_found : Bool)
    (h : headerLoopBody s outcome = some (Except.ok (s1, header_found))) :
    ∃ status, checkHeaderExtractHost (cstr s1.header_buffer) s.request_header
        s.hostname s.port = some (status, s1.request_header, s1.hostname, s1.port)
      ∧ header_found = (status == 0) := by
  unfold headerLoopBody at h
  simp only at h
  split at h
  · simp at h
  · split at h
    · simp at h
    · rename_i status hdr host port hcheck
      simp only [Option.some.injEq, Except.ok.injEq, Prod.mk.injEq] at h
      obtain ⟨hs1, hf⟩ := h
      subst hs1
      exact ⟨status, hcheck, hf.symm⟩

/-- A buffer that starts with a header on which `checkHeaderExtractHost` fails without a
change is never recognised, whatever arrives behind it: the loop ends with -1, with or
without `413 Entity Too Large`, or it goes on reading. -/
theorem headerLoop_stuck (text : List Char) (request_header : HTTPRequestHeader)
    (hostname port : Option (List Char)) (status : Int) (i : Nat)
    (hnul : ∀ c ∈ text, c ≠ '\x00')
    (hend : strstr text ['\r', '\n', '\r', '\n'] = some i)
    (hcheck : checkHeaderExtractHost text request_header hostname port
      = some (status, request_header, hostname, port))
    (hstatus : status ≠ 0) (reads : List RecvResult) (s : HeaderLoopState)
    (hinv : headerBufferInv s) (hrecv : text.length ≤ s.received_bytes)
    (htext : s.header_buffer.take text.length = text)
    (hhdr : s.request_header = request_header) (hhost : s.hostname = hostname)
    (hport : s.port = port) :
    headerLoop reads s = none
      ∨ headerLoop reads s = some (HeaderLoopResult.failed (-1) [])
      ∨ headerLoop reads s
          = some (HeaderLoopResult.failed (-1) [Event.sendClient error_entity_too_large]) := by
  induction reads generalizing s with
  | nil =>
    have h0 : headerLoop [] s = headerLoopGuard s := rfl
    rw [h0]
    cases hg : headerLoopGuard s with
    | none => exact Or.inl rfl
    | some r =>
      rcases headerLoopGuard_some s r hg with h1 | h1
      · exact Or.inr (Or.inl (by rw [h1]))
      · exact Or.inr (Or.inr (by rw [h1]))
  | cons o reads ih =>
    rw [headerLoop_cons]
    cases hg : headerLoopGuard s with
    | some r =>
      rcases headerLoopGuard_some s r hg with h1 | h1
      · exact Or.inr (Or.inl (by rw [h1]))
      · exact Or.inr (Or.inr (by rw [h1]))
    | none =>
      simp only
      cases hb : headerLoopBody s o with
      | none => exact Or.inl rfl
      | some res =>
        cases res with
        | error r =>
          have h1 := headerLoopBody_error s o r hb
          exact Or.inr (Or.inl (by rw [h1]))
        | ok p =>
          obtain ⟨s1, header_found⟩ := p
          obtain ⟨hinv1, hmono, hkeep⟩ := headerLoopBody_inv s s1 o header_found hinv hb
          obtain ⟨st, hck, hf⟩ := headerLoopBody_ok s s1 o header_found hb
          have htext1 : s1.header_buffer.take text.length = text := by
            have h1 := congrArg (List.take text.length) hkeep
            rw [List.take_take, List.take_take, Nat.min_eq_left hrecv] at h1
            rw [h1, htext]
          have hsplit : s1.header_buffer = text ++ s1.header_buffer.drop text.length := by
            conv_lhs => rw [← List.take_append_drop text.length s1.header_buffer, htext1]
          rw [hsplit, cstr_append_of_no_nul _ _ hnul,
            checkHeaderExtractHost_append _ _ _ _ _ _ hend, hhdr, hhost, hport, hcheck] at hck
          simp only [Option.some.injEq, Prod.mk.injEq] at hck
          obtain ⟨hst, hh, ha, hp⟩ := hck
          have hff : header_found = false := by
            rw [hf, ← hst]
            simpa using hstatus
          subst hff
          simp only [Bool.false_eq_true, if_false]
          exact ih s1 hinv1 (Nat.le_trans hrecv hmono) htext1 hh.symm ha.symm hp.symm

theorem headerBufferInv_headerState (received : List Char)
    (request_header : HTTPRequestHeader) (hostname port : Option (List Char))
    (h : received.length ≤ MAX_HEADER_SIZE) :
    headerBufferInv (headerState received request_header hostname port) := by
  refine ⟨h, ?_⟩
  show (received ++ List.replicate (RECEIVE_BUFFER_SIZE + 1 - received.length) '\x00').drop
      received.length = List.replicate (RECEIVE_BUFFER_SIZE + 1 - received.length) '\x00'
  rw [List.drop_left]

/-- A first read that brings a header on which `checkHeaderExtractHost` fails without a
change: the header is never recognised. -/
theorem headerLoop_stuck_first (text : List Char) (status : Int) (i : Nat)
    (rest : List RecvResult)
    (hne : text ≠ []) (hlen : text.length ≤ MAX_HEADER_SIZE)
    (hnul : ∀ c ∈ text, c ≠ '\x00')
    (hend : strstr text ['\r', '\n', '\r', '\n'] = some i)
    (hcheck : checkHeaderExtractHost text initRequestHeader none none
      = some (status, initRequestHeader, none, none))
    (hstatus : status ≠ 0) :
    headerLoop (RecvResult.data text :: rest) initHeaderLoopState = none
      ∨ headerLoop (RecvResult.data text :: rest) initHeaderLoopState
          = some (HeaderLoopResult.failed (-1) [])
      ∨ headerLoop (RecvResult.data text :: rest) initHeaderLoopState
          = some (HeaderLoopResult.failed (-1) [Event.sendClient error_entity_too_large]) := by
  have htake : ([] : List Char) ++ text.take (MAX_HEADER_SIZE - ([] : List Char).length)
      = text := by
    rw [List.nil_append, List.length_nil, Nat.sub_zero, List.take_of_length_le hlen]
  have hstep : headerLoop (RecvResult.data text :: rest) initHeaderLoopState
      = headerLoop rest (headerState text initRequestHeader none none) := by
    rw [headerState_init, headerLoop_cons,
      headerLoopGuard_headerState _ _ _ _ (by decide),
      headerLoopBody_headerState _ _ _ _ _ (by decide) hne (by rw [htake]; exact hnul),
      htake, hcheck]
    have hff : (status == 0) = false := by simpa using hstatus
    simp only [Option.map_some', hff, Bool.false_eq_true, if_false]
  rw [hstep]
  exact headerLoop_stuck text initRequestHeader none none status i hnul hend hcheck hstatus
    rest _ (headerBufferInv_headerState _ _ _ _ hlen) (Nat.le_refl _)
    (by
      show (text ++ List.replicate (RECEIVE_BUFFER_SIZE + 1 - text.length) '\x00').take
        text.length = text
      rw [List.take_left])
    rfl rfl rfl

/-! ## The claims C11 to C20 -/

/-- C11 (as amended): the forwarder never emits bytes before the filter decision.  For
every call of `forwardToClient` with a non-empty chunk after which `apply_filter` is
still true, no bytes are sent to the client by that call; the chunk is only appended to
the cache, except that the cache is discarded when the call aborts with -1. -/
theorem forwardToClient_no_partial_bytes (chunk : List Char) (env env1 : MidlayerCallbackEnv)
    (code : Int) (sent : List (List Char))
    (hne : chunk ≠ [])
    (h : forwardToClient chunk env = some (code, sent, env1))
    (hf : env1.apply_filter = true) :
    sent = []
      ∧ (code ≠ -1 → env1.cache_buffer = env.cache_buffer ++ chunk)
      ∧ (code = -1 → env1.cache_buffer = []) := by
  cases hbc : bufferChunk chunk env with
  | none => simp [forwardToClient, hbc] at h
  | some res =>
    cases res with
    | error e =>
      simp only [forwardToClient, hbc, Option.some.injEq, Prod.mk.injEq] at h
      obtain ⟨hcode, hsent, he⟩ := h
      subst hcode hsent he
      exact ⟨rfl, fun hc => absurd rfl hc, fun _ => (bufferChunk_error chunk env e hbc).1⟩
    | ok env2 =>
      rw [forwardToClient_ok_eq chunk env env2 hbc] at h
      by_cases hf2 : env2.apply_filter = false
      · -- the filter is off after the call: excluded
        exfalso
        rw [if_pos hf2] at h
        split at h <;>
          (simp only [Option.some.injEq, Prod.mk.injEq] at h
           obtain ⟨_, _, he⟩ := h
           subst he
           simp [hf2] at hf)
      · rw [if_neg hf2, if_neg hne] at h
        simp only [Option.some.injEq, Prod.mk.injEq] at h
        obtain ⟨hcode, hsent, he⟩ := h
        subst hsent he
        have hfe : env.apply_filter = true := by
          by_contra hcon
          have hf0 : env.apply_filter = false := by simpa using hcon
          rw [bufferChunk_filter_off chunk env hf0] at hbc
          simp only [Option.some.injEq, Except.ok.injEq] at hbc
          subst hbc
          exact hf2 hf0
        refine ⟨rfl, fun _ => (bufferChunk_ok chunk env env2 hfe hbc).1, fun hc => ?_⟩
        exfalso
        rw [← hcode] at hc
        split at hc <;> simp at hc

/-- Witness for C11: the first part of a response header is cached, nothing is sent. -/
theorem forwardToClient_no_partial_bytes_witness :
    ([] : List (List Char)) = []
      ∧ ((0 : Int) ≠ -1 →
          ({ call_counter := 0, cache_buffer := "HTTP/1.1 200 OK\r\n".toList,
             have_header := false, block_response := false, apply_filter := true }
            : MidlayerCallbackEnv).cache_buffer
            = initMidlayerCallbackEnv.cache_buffer ++ "HTTP/1.1 200 OK\r\n".toList)
      ∧ ((0 : Int) = -1 →
          ({ call_counter := 0, cache_buffer := "HTTP/1.1 200 OK\r\n".toList,
             have_header := false, block_response := false, apply_filter := true }
            : MidlayerCallbackEnv).cache_buffer = []) :=
  forwardToClient_no_partial_bytes "HTTP/1.1 200 OK\r\n".toList initMidlayerCallbackEnv
    { call_counter := 0, cache_buffer := "HTTP/1.1 200 OK\r\n".toList,
      have_header := false, block_response := false, apply_filter := true }
    0 [] (by decide) (by decide) rfl

/-- Counterexample to C11 as stated: with 8192 bytes `a` cached and no header found,
the call with the chunk `b` leaves `apply_filter` true and sends nothing, but the chunk
is not kept in the cache: the cache is discarded and the call returns -1. -/
theorem forwardToClient_no_partial_bytes_counterexample :
    forwardToClient ['b']
        { call_counter := 0, cache_buffer := List.replicate 8192 'a',
          have_header := false, block_response := false, apply_filter := true }
      = some (-1, [],
          { call_counter := 0, cache_buffer := [],
            have_header := false, block_response := false, apply_filter := true })
    ∧ ([] : List Char) ≠ List.replicate 8192 'a' ++ ['b'] :=
  ⟨forwardToClient_overflow 8192 (by decide), fun h => List.cons_ne_nil _ _
    (List.append_eq_nil.mp h.symm).2⟩

/-- C12: no body filtering for CONNECT.  The callback state that `serverListener` sets
up for a CONNECT request has `apply_filter` false and an empty cache, and from such a
state every call of `forwardToClient` sends exactly the received chunk to the client,
returns 0 and leaves the state unchanged, whatever the chunk contains. -/
theorem forwardToClient_connect (chunk : List Char) (call_counter : Int)
    (have_header : Bool) :
    serverListenerEnv false
        = { call_counter := 0, cache_buffer := [], have_header := false,
            block_response := false, apply_filter := false }
      ∧ forwardToClient chunk
          { call_counter := call_counter, cache_buffer := [], have_header := have_header,
            block_response := false, apply_filter := false }
        = some (0, [chunk],
            { call_counter := call_counter, cache_buffer := [], have_header := have_header,
              block_response := false, apply_filter := false }) :=
  ⟨rfl, forwardToClient_filter_off chunk _ rfl rfl rfl⟩

/-- C13 (as amended): URL block.  When the header-read loop has recognised a request
header, `clientSession` sends exactly the string `filtered_redirect_url` (the 301 to
`error1.html`) to the client and returns 0, with no action on the server side, if and
only if the bytes received hold a filter keyword before their first NUL byte. -/
theorem clientSession_url_block (reads rest : List RecvResult) (s : HeaderLoopState)
    (connect_ok : Bool)
    (hloop : headerLoop reads initHeaderLoopState = some (HeaderLoopResult.found s rest)) :
    clientSession reads connect_ok
        = some { ret_val := some 0, events := [Event.sendClient filtered_redirect_url] }
      ↔ applyFilter (cstr (s.header_buffer.take s.received_bytes)) = true := by
  have hinv := headerLoop_found_inv reads rest _ s headerBufferInv_init hloop
  rw [clientSession_found reads rest s connect_ok hloop, ← headerBufferInv_cstr s hinv]
  constructor
  · intro h
    cases hf : applyFilter (cstr s.header_buffer) with
    | true => rfl
    | false =>
      obtain ⟨hostname, port, events, hev⟩ :=
        sessionAfterHeader_not_blocked s connect_ok _ hf h
      simp at hev
  · intro h
    exact sessionAfterHeader_blocked s connect_ok h

/-- Witness for C13: the request `GET /spongebob HTTP/1.1` with `Host: x` is answered
with the 301. -/
theorem clientSession_url_block_witness :
    clientSession
        ([ "GET /spongebob HTTP/1.1\r\nHost: x\r\n\r\n".toList ].map RecvResult.data ++ [])
        true
      = some { ret_val := some 0, events := [Event.sendClient filtered_redirect_url] } :=
  (clientSession_url_block _ [] _ true
    (headerLoop_chunks_found [ "GET /spongebob HTTP/1.1\r\nHost: x\r\n\r\n".toList ] [] []
      initRequestHeader
      { request_info := { req_type := some "GET".toList,
                          resource := some "/spongebob".toList,
                          http_version := some "1.1".toList },
        fields := [ fieldOf ("Host".toList, "x".toList) ] }
      none none (some "x".toList) (some "80".toList)
      (by decide) (by decide) (by decide) (by decide) (by decide) (by decide))).mpr
    (by decide)

/-- Counterexample to C13 as stated: the bytes received hold the keyword `spongebob`
behind a NUL byte; the request is recognised, and the session dials the server and sends
the request and the bytes behind the header. -/
theorem clientSession_url_block_counterexample :
    applyFilter "POST / HTTP/1.1\r\nHost: x\r\n\r\n\x00spongebob".toList = true
      ∧ clientSession
          [RecvResult.data "POST / HTTP/1.1\r\nHost: x\r\n\r\n\x00spongebob".toList] true
        = some { ret_val := none,
                 events := [ Event.connect "x".toList "80".toList,
                             Event.startListener true,
                             Event.sendServer
                               "POST / HTTP/1.1\r\nHost: x\r\nConnection: close\r\n\r\n".toList,
                             Event.sendServer "\x00spongebob".toList ] } := by
  decide

/-- C14 (as amended): the client input `GET /paris hilton HTTP/1.1` with `Host: x`.  The
target holds a space, so the start line does not match and `checkHeaderExtractHost`
returns `E_NO_MATCH`; the request header is never recognised, whatever is read
afterwards, and the session neither sends the 301 nor dials the server: it ends with -1,
having sent nothing or `413 Entity Too Large`, or it is still reading. -/
theorem clientSession_paris_hilton (rest : List RecvResult) (connect_ok : Bool) :
    checkHeaderExtractHost "GET /paris hilton HTTP/1.1\r\nHost: x\r\n\r\n".toList
        initRequestHeader none none
      = some (E_NO_MATCH, initRequestHeader, none, none)
    ∧ (∀ s reads,
        headerLoop
            (RecvResult.data "GET /paris hilton HTTP/1.1\r\nHost: x\r\n\r\n".toList :: rest)
            initHeaderLoopState
          ≠ some (HeaderLoopResult.found s reads))
    ∧ (clientSession
            (RecvResult.data "GET /paris hilton HTTP/1.1\r\nHost: x\r\n\r\n".toList :: rest)
            connect_ok = none
        ∨ clientSession
            (RecvResult.data "GET /paris hilton HTTP/1.1\r\nHost: x\r\n\r\n".toList :: rest)
            connect_ok = some { ret_val := some (-1), events := [] }
        ∨ clientSession
            (RecvResult.data "GET /paris hilton HTTP/1.1\r\nHost: x\r\n\r\n".toList :: rest)
            connect_ok
          = some { ret_val := some (-1),
                   events := [Event.sendClient error_entity_too_large] }) := by
  have hcheck : checkHeaderExtractHost
      "GET /paris hilton HTTP/1.1\r\nHost: x\r\n\r\n".toList initRequestHeader none none
      = some (E_NO_MATCH, initRequestHeader, none, none) := by decide
  have hloop := headerLoop_stuck_first
    "GET /paris hilton HTTP/1.1\r\nHost: x\r\n\r\n".toList E_NO_MATCH 35 rest
    (by decide) (by decide) (by decide) (by decide) hcheck (by decide)
  refine ⟨hcheck, ?_, ?_⟩
  · intro s reads hfound
    rw [hfound] at hloop
    simp at hloop
  · unfold clientSession
    rcases hloop with h | h | h
    · left
      rw [h]
    · right; left
      rw [h]
    · right; right
      rw [h]

/-- Counterexample to C14 as stated: the keyword `paris hilton` is in the input, yet when
the client closes after the request the session returns -1 and has sent nothing. -/
theorem clientSession_paris_hilton_counterexample :
    applyFilter "GET /paris hilton HTTP/1.1\r\nHost: x\r\n\r\n".toList = true
      ∧ clientSession
          [ RecvResult.data "GET /paris hilton HTTP/1.1\r\nHost: x\r\n\r\n".toList,
            RecvResult.eof ] true
        = some { ret_val := some (-1), events := [] } := by
  decide

/-- C15: the size limit of the header-read loop of `clientSession`.  A request of exactly
8192 bytes that ends with its end-of-header marker and is a valid request with a `Host`
field is recognised, in whatever pieces it arrives; a loop that has received 8192 bytes
and goes on sends `413 Entity Too Large` and returns -1; and so does the session when the
first 8192 bytes received hold no end-of-header marker, as for a header of 8193 bytes. -/
theorem clientSession_header_limit :
    (∀ (request : List Char) (chunks : List (List Char)) (rest : List RecvResult)
        (parsed : HTTPRequestHeader) (hostname port : Option (List Char)),
        chunks.flatten = request → (∀ c ∈ chunks, c ≠ []) →
        request.length = 8192 → (∀ c ∈ request, c ≠ '\x00') →
        strstr request ['\r', '\n', '\r', '\n'] = some 8188 →
        checkHeaderExtractHost request initRequestHeader none none
          = some (0, parsed, hostname, port) →
        headerLoop (chunks.map RecvResult.data ++ rest) initHeaderLoopState
          = some (HeaderLoopResult.found (headerState request parsed hostname port) rest))
      ∧ (∀ (reads : List RecvResult) (s : HeaderLoopState),
          s.client_open = true → s.received_bytes = 8192 →
          headerLoop reads s
            = some (HeaderLoopResult.failed (-1)
                [Event.sendClient "HTTP/1.1 413 Entity Too Large\r\n\r\n".toList]))
      ∧ (∀ (chunks : List (List Char)) (rest : List RecvResult) (connect_ok : Bool),
          (∀ c ∈ chunks, c ≠ []) → 8192 ≤ chunks.flatten.length →
          (∀ c ∈ chunks.flatten.take 8192, c ≠ '\x00') →
          strstr (chunks.flatten.take 8192) ['\r', '\n', '\r', '\n'] = none →
          clientSession (chunks.map RecvResult.data ++ rest) connect_ok
            = some { ret_val := some (-1),
                     events := [Event.sendClient
                       "HTTP/1.1 413 Entity Too Large\r\n\r\n".toList] }) := by
  refine ⟨?_, ?_, ?_⟩
  · intro request chunks rest parsed hostname port hflat hne hlen hnul hend hcheck
    subst hflat
    have hch : chunks ≠ [] := by
      intro h0
      rw [h0] at hlen
      simp at hlen
    rw [headerState_init]
    have h := headerLoop_chunks_found chunks [] rest initRequestHeader parsed none none
      hostname port hne hch (by rw [List.nil_append, hlen]; exact Nat.le_refl _)
      (by simpa using hnul) (by rw [List.nil_append, hlen]; exact hend)
      (by simpa using hcheck)
    simpa using h
  · intro reads s hopen hfull
    exact headerLoop_full reads s hopen hfull
  · intro chunks rest connect_ok hne hlen hnul hnone
    have h := headerLoop_chunks_full chunks [] rest initRequestHeader none none hne
      (Nat.zero_le _) (by simpa using hlen) (by simpa using hnul) (by simpa using hnone)
    rw [← headerState_init] at h
    simp only [clientSession, h]
    rfl

/-- Witness for C15: the request `paddedRequest 8158` of 8192 bytes, read at once, is
recognised, and the request `paddedRequest 8159` of 8193 bytes is answered with 413. -/
theorem clientSession_header_limit_witness :
    headerLoop ([paddedRequest 8158].map RecvResult.data ++ []) initHeaderLoopState
        = some (HeaderLoopResult.found
            (headerState (paddedRequest 8158)
              { request_info := { req_type := some "GET".toList,
                                  resource := some "/".toList,
                                  http_version := some "1.1".toList },
                fields := [ fieldOf ("Host".toList, "x".toList),
                            fieldOf ("Pad".toList, List.replicate 8158 'a') ] }
              (some "x".toList) (some "80".toList)) [])
      ∧ clientSession ([paddedRequest 8159].map RecvResult.data ++ []) true
        = some { ret_val := some (-1),
                 events := [Event.sendClient
                   "HTTP/1.1 413 Entity Too Large\r\n\r\n".toList] } :=
  ⟨clientSession_header_limit.1 (paddedRequest 8158) [paddedRequest 8158] [] _ _ _
      (by simp)
      (by
        intro c hc
        rw [List.mem_singleton] at hc
        intro h0
        have := congrArg List.length (hc.symm.trans h0)
        rw [paddedRequest_length] at this
        simp at this)
      (paddedRequest_length 8158) (paddedRequest_no_nul 8158) (paddedRequest_strstr 8158)
      (paddedRequest_check 8158),
   clientSession_header_limit.2.2 [paddedRequest 8159] [] true
      (by
        intro c hc
        rw [List.mem_singleton] at hc
        intro h0
        have := congrArg List.length (hc.symm.trans h0)
        rw [paddedRequest_length] at this
        simp at this)
      (by
        rw [List.flatten_cons, List.flatten_nil, List.append_nil, paddedRequest_length]
        omega)
      (by
        intro c hc
        rw [List.flatten_cons, List.flatten_nil, List.append_nil] at hc
        exact paddedRequest_no_nul 8159 c (List.mem_of_mem_take hc))
      (by
        rw [List.flatten_cons, List.flatten_nil, List.append_nil]
        exact paddedRequest_take_none 8159 8192 (by omega))⟩

/-- C16: invariant of the header-read loop of `clientSession`.  The invariant holds
before the loop and is kept by every iteration, for every outcome of the read; with it,
`received_bytes` is at most 8192, the buffer has 8193 bytes of which the one at index
`received_bytes` is NUL, and the read asks for exactly `8192 - received_bytes` bytes,
which fit behind the bytes received. -/
theorem headerLoop_invariant :
    headerBufferInv initHeaderLoopState
      ∧ (∀ s : HeaderLoopState, headerBufferInv s →
          s.received_bytes ≤ 8192
          ∧ s.header_buffer.length = 8193
          ∧ s.header_buffer[s.received_bytes]? = some '\x00'
          ∧ headerReadSize s = 8192 - s.received_bytes
          ∧ s.received_bytes + headerReadSize s ≤ 8192)
      ∧ (∀ (s s1 : HeaderLoopState) (outcome : RecvResult) (header_found : Bool),
          headerBufferInv s →
          headerLoopBody s outcome = some (Except.ok (s1, header_found)) →
          headerBufferInv s1)
      ∧ (∀ (reads rest : List RecvResult) (s : HeaderLoopState),
          headerLoop reads initHeaderLoopState = some (HeaderLoopResult.found s rest) →
          headerBufferInv s) := by
  refine ⟨headerBufferInv_init, ?_, ?_, ?_⟩
  · intro s hinv
    have hlen := headerBufferInv_length s hinv
    obtain ⟨hrecv, hdrop⟩ := hinv
    have hsize : headerReadSize s = 8192 - s.received_bytes := rfl
    have hmax : MAX_HEADER_SIZE = 8192 := rfl
    refine ⟨by omega, by rw [hlen]; rfl, ?_, hsize, by omega⟩
    have h0 : (s.header_buffer.drop s.received_bytes)[0]? = some '\x00' := by
      rw [hdrop]
      have hpos : RECEIVE_BUFFER_SIZE + 1 - s.received_bytes
          = (RECEIVE_BUFFER_SIZE - s.received_bytes) + 1 := by
        simp only [RECEIVE_BUFFER_SIZE]
        omega
      rw [hpos, List.replicate_succ]
      simp
    rw [List.getElem?_drop] at h0
    simpa using h0
  · intro s s1 outcome header_found hinv h
    exact (headerLoopBody_inv s s1 outcome header_found hinv h).1
  · intro reads rest s h
    exact headerLoop_found_inv reads rest _ s headerBufferInv_init h

/-- Witness for C16: before the first read the invariant holds, nothing is received
and the first byte of the buffer is NUL. -/
theorem headerLoop_invariant_witness :
    headerBufferInv initHeaderLoopState
      ∧ initHeaderLoopState.received_bytes ≤ 8192
      ∧ initHeaderLoopState.header_buffer[initHeaderLoopState.received_bytes]? = some '\x00' :=
  ⟨headerLoop_invariant.1,
   (headerLoop_invariant.2.1 initHeaderLoopState headerLoop_invariant.1).1,
   (headerLoop_invariant.2.1 initHeaderLoopState headerLoop_invariant.1).2.2.1⟩

/-- C17: for every parsed request header with a `Host` field of value `v`,
`checkHeaderExtractHost` returns 0 with the hostname equal to the part of `v` before its
first `:` (all of `v` if there is none) and the port equal to the part of `v` after the
first `:` when that part is non-empty, and `80` otherwise. -/
theorem checkHeaderExtractHost_host_port (buffer : List Char)
    (request_header parsed : HTTPRequestHeader)
    (hostname_target port_target : Option (List Char)) (v : List Char)
    (hparse : parseRequestHeader request_header buffer = some (0, parsed))
    (hhost : getValue parsed.fields "Host".toList = some v) :
    ∃ hostname port,
      checkHeaderExtractHost buffer request_header hostname_target port_target
        = some (0, parsed, some hostname, some port)
      ∧ ((∀ c ∈ v, c ≠ ':') → hostname = v ∧ port = "80".toList)
      ∧ (∀ a b, v = a ++ ':' :: b → (∀ c ∈ a, c ≠ ':') →
          hostname = a ∧ port = if b = [] then "80".toList else b) := by
  rcases split_first_colon v with hv | ⟨a, b, hv, ha⟩
  · refine ⟨v, "80".toList,
      checkHeaderExtractHost_no_port buffer request_header parsed _ _ v hparse hhost hv,
      fun _ => ⟨rfl, rfl⟩, ?_⟩
    intro a b hab _
    exact absurd rfl (hv ':' (by rw [hab]; simp))
  · subst hv
    refine ⟨a, if b = [] then "80".toList else b,
      checkHeaderExtractHost_port buffer request_header parsed _ _ a b hparse hhost ha,
      fun hv => absurd rfl (hv ':' (by simp)), ?_⟩
    intro a2 b2 hab ha2
    -- the first colon is at one place only
    have h1 := strstr_colon_some a b ha
    rw [hab, strstr_colon_some a2 b2 ha2] at h1
    simp only [Option.some.injEq] at h1
    have h2 := List.append_inj hab h1.symm
    have h3 : b = b2 := by simpa using h2.2
    rw [h2.1, h3]
    exact ⟨rfl, rfl⟩

/-- Witness for C17: `Host: example.com:8080`. -/
theorem checkHeaderExtractHost_host_port_witness :
    ∃ hostname port,
      checkHeaderExtractHost
          "GET / HTTP/1.1\r\nHost: example.com:8080\r\n\r\n".toList
          initRequestHeader none none
        = some (0,
            { request_info := { req_type := some "GET".toList, resource := some "/".toList,
                                http_version := some "1.1".toList },
              fields := [ { key := "Host".toList, key_length := 4,
                            value := "example.com:8080".toList, value_length := 16 } ] },
            some hostname, some port)
      ∧ ((∀ c ∈ "example.com:8080".toList, c ≠ ':') →
          hostname = "example.com:8080".toList ∧ port = "80".toList)
      ∧ (∀ a b, "example.com:8080".toList = a ++ ':' :: b → (∀ c ∈ a, c ≠ ':') →
          hostname = a ∧ port = if b = [] then "80".toList else b) :=
  checkHeaderExtractHost_host_port
    "GET / HTTP/1.1\r\nHost: example.com:8080\r\n\r\n".toList initRequestHeader
    { request_info := { req_type := some "GET".toList, resource := some "/".toList,
                        http_version := some "1.1".toList },
      fields := [ { key := "Host".toList, key_length := 4,
                    value := "example.com:8080".toList, value_length := 16 } ] }
    none none "example.com:8080".toList (by decide) (by decide)

/-- C18 (as amended): whenever `checkHeaderExtractHost` returns 0, the extracted port is
a non-empty string, and the extracted hostname is non-empty unless the value of the
`Host` field is empty or begins with `:`. -/
theorem checkHeaderExtractHost_nonempty (buffer : List Char)
    (request_header parsed : HTTPRequestHeader)
    (hostname_target port_target hostname port : Option (List Char))
    (h : checkHeaderExtractHost buffer request_header hostname_target port_target
      = some (0, parsed, hostname, port)) :
    ∃ host p v, hostname = some host ∧ port = some p
      ∧ getValue parsed.fields "Host".toList = some v
      ∧ p ≠ []
      ∧ (host = [] ↔ (v = [] ∨ ∃ b, v = ':' :: b)) := by
  obtain ⟨hparse, v, hhost⟩ := checkHeaderExtractHost_zero buffer request_header parsed
    hostname_target port_target hostname port h
  rcases split_first_colon v with hv | ⟨a, b, hab, ha⟩
  · rw [checkHeaderExtractHost_no_port buffer request_header parsed _ _ v hparse hhost hv] at h
    simp only [Option.some.injEq, Prod.mk.injEq, true_and] at h
    refine ⟨v, "80".toList, v, h.1.symm, h.2.symm, hhost, by decide, ?_⟩
    constructor
    · intro h0; exact Or.inl h0
    · rintro (h0 | ⟨b, hb⟩)
      · exact h0
      · exact absurd rfl (hv ':' (by rw [hb]; simp))
  · subst hab
    rw [checkHeaderExtractHost_port buffer request_header parsed _ _ a b hparse hhost ha] at h
    simp only [Option.some.injEq, Prod.mk.injEq, true_and] at h
    refine ⟨a, if b = [] then "80".toList else b, a ++ ':' :: b, h.1.symm, h.2.symm, hhost,
      ?_, ?_⟩
    · by_cases hb : b = []
      · simp [hb]
      · simp [hb]
    · constructor
      · intro h0
        right
        exact ⟨b, by simp [h0]⟩
      · rintro (h0 | ⟨b2, hb2⟩)
        · simp at h0
        · cases a with
          | nil => rfl
          | cons c a2 =>
            simp only [List.cons_append, List.cons.injEq] at hb2
            exact absurd hb2.1 (ha c (by simp))

/-- Witness for C18: `Host: example.com`. -/
theorem checkHeaderExtractHost_nonempty_witness :
    ∃ host p v, some "example.com".toList = some host ∧ some "80".toList = some p
      ∧ getValue
          [ ({ key := "Host".toList, key_length := 4,
               value := "example.com".toList, value_length := 11 } : KeyValue) ]
          "Host".toList = some v
      ∧ p ≠ []
      ∧ (host = [] ↔ (v = [] ∨ ∃ b, v = ':' :: b)) :=
  checkHeaderExtractHost_nonempty
    "GET / HTTP/1.1\r\nHost: example.com\r\n\r\n".toList initRequestHeader
    { request_info := { req_type := some "GET".toList, resource := some "/".toList,
                        http_version := some "1.1".toList },
      fields := [ { key := "Host".toList, key_length := 4,
                    value := "example.com".toList, value_length := 11 } ] }
    none none (some "example.com".toList) (some "80".toList) (by decide)

/-- Counterexample to C18 as stated: for `Host: :8080` the function returns 0 with the
empty string as hostname. -/
theorem checkHeaderExtractHost_nonempty_counterexample :
    checkHeaderExtractHost "GET / HTTP/1.1\r\nHost: :8080\r\n\r\n".toList
        initRequestHeader none none
      = some (0,
          { request_info := { req_type := some "GET".toList, resource := some "/".toList,
                              http_version := some "1.1".toList },
            fields := [ { key := "Host".toList, key_length := 4,
                          value := ":8080".toList, value_length := 5 } ] },
          some [], some "8080".toList) := by
  decide

/-- C20 (the code at failing inputs): for the hostname `p` and the target `http://p/x`
the function returns the start of the target, not the path `/x`; for the hostname `http`
and the target `http://http/x` it returns `http/x`. -/
theorem extractResource_scheme_overlap :
    extractResource "http://p/x".toList "p".toList "80".toList = 0
      ∧ "http://p/x".toList.drop
          (extractResource "http://p/x".toList "p".toList "80".toList) = "http://p/x".toList
      ∧ "http://http/x".toList.drop
          (extractResource "http://http/x".toList "http".toList "80".toList)
        = "http/x".toList := by
  decide

/-! ## Further lemmas on the pattern matchers -/

theorem regexecBol_cons {α : Type} (m : List Char → Option α) (bol : Bool) (c : Char)
    (cs : List Char) :
    regexecBol m bol (c :: cs)
      = match (if bol then m (c :: cs) else none) with
        | some r => some r
        | none => regexecBol m (c == '\n') cs := rfl

/-- A leftmost search that succeeds has matched at an anchor: at offset 0 or right
behind an LF. -/
theorem regexecBol_some_anchor {α : Type} (m : List Char → Option α) (bol : Bool)
    (s : List Char) (r : α) (h : regexecBol m bol s = some r) :
    ∃ pre t, s = pre ++ t ∧ ((pre = [] ∧ bol = true) ∨ pre.getLast? = some '\n')
      ∧ m t = some r := by
  induction s generalizing bol with
  | nil =>
    cases bol
    · simp [regexecBol] at h
    · exact ⟨[], [], rfl, Or.inl ⟨rfl, rfl⟩, by simpa [regexecBol] using h⟩
  | cons c cs ih =>
    rw [regexecBol_cons] at h
    cases hfirst : (if bol then m (c :: cs) else none) with
    | some r0 =>
      rw [hfirst] at h
      simp only [Option.some.injEq] at h
      subst h
      cases bol
      · simp at hfirst
      · simp only [if_true] at hfirst
        exact ⟨[], c :: cs, rfl, Or.inl ⟨rfl, rfl⟩, hfirst⟩
    | none =>
      rw [hfirst] at h
      obtain ⟨pre, t, hs, hanchor, hm⟩ := ih _ h
      refine ⟨c :: pre, t, by rw [hs]; rfl, Or.inr ?_, hm⟩
      rcases hanchor with ⟨hp, hb⟩ | hl
      · subst hp
        have hc : c = '\n' := by simpa using hb
        simp [hc]
      · cases pre with
        | nil => simp at hl
        | cons p ps => simpa using hl

theorem dropWhile_head (p : Char → Bool) (l : List Char) :
    l.dropWhile p = [] ∨ ∃ c r, l.dropWhile p = c :: r ∧ p c = false := by
  induction l with
  | nil => left; rfl
  | cons x l ih =>
    by_cases hx : p x = true
    · simpa [List.dropWhile_cons, hx] using ih
    · right
      have hx2 : p x = false := by simpa using hx
      exact ⟨x, l, by simp [List.dropWhile_cons, hx2], hx2⟩

/-- A match of the status-line pattern at an anchor: the shape of the text. -/
theorem matchResponseLine_some (s m1 m2 m3 : List Char)
    (h : matchResponseLine s = some (m1, m2, m3)) :
    ∃ rest, s = 'H' :: 'T' :: 'T' :: 'P' :: '/' :: (m1 ++ ' ' :: (m2 ++ ' ' :: (m3 ++ rest)))
      ∧ (∀ c ∈ m1, clsNotSpace c = true) ∧ (∀ c ∈ m2, clsDigit c = true)
      ∧ (∀ c ∈ m3, clsNotCRLF c = true)
      ∧ (rest = [] ∨ ∃ c r, rest = c :: r ∧ clsNotCRLF c = false) := by
  unfold matchResponseLine at h
  split at h
  · rename_i r1
    rw [List.span_eq_take_drop] at h
    split at h
    · rename_i version r2 heq
      simp only [Prod.mk.injEq] at heq
      rw [List.span_eq_take_drop] at h
      split at h
      · rename_i status r3 heq2
        simp only [Prod.mk.injEq] at heq2
        rw [List.span_eq_take_drop] at h
        simp only [Option.some.injEq, Prod.mk.injEq] at h
        obtain ⟨h1, h2, h3⟩ := h
        subst h1 h2 h3
        refine ⟨r3.dropWhile clsNotCRLF, ?_, ?_, ?_, ?_, dropWhile_head clsNotCRLF r3⟩
        · have e1 := List.takeWhile_append_dropWhile clsNotSpace r1
          have e2 := List.takeWhile_append_dropWhile clsDigit r2
          have e3 := List.takeWhile_append_dropWhile clsNotCRLF r3
          rw [heq.1, heq.2] at e1
          rw [heq2.1, heq2.2] at e2
          rw [e3, e2, e1]
        · intro c hc
          rw [← heq.1] at hc
          exact List.mem_takeWhile_imp hc
        · intro c hc
          rw [← heq2.1] at hc
          exact List.mem_takeWhile_imp hc
        · intro c hc
          exact List.mem_takeWhile_imp hc
      · simp at h
    · simp at h
  · simp at h

/-- The header text that the parsers cut out ends with the end-of-header marker. -/
theorem take_header_end (buffer : List Char) (i : Nat)
    (h : strstr buffer ['\r', '\n', '\r', '\n'] = some i) :
    buffer.take (i + 4) = buffer.take i ++ ['\r', '\n', '\r', '\n'] := by
  obtain ⟨hlen, hpre⟩ := strstr_some_spec _ _ _ h
  obtain ⟨t, ht⟩ := hpre
  have hb : buffer = buffer.take i ++ (['\r', '\n', '\r', '\n'] ++ t) := by
    rw [ht, List.take_append_drop]
  have hl : (buffer.take i).length = i := by
    simp only [List.length_cons, List.length_nil] at hlen
    rw [List.length_take]
    omega
  conv_lhs => rw [hb]
  rw [List.take_append_eq_append_take, hl, List.take_of_length_le (by rw [hl]; omega)]
  simp

theorem span_all (p : Char → Bool) (l : List Char) (h : ∀ x ∈ l, p x = true) :
    l.span p = (l, []) := by
  rw [List.span_eq_take_drop, List.takeWhile_eq_self_iff.mpr h,
    List.dropWhile_eq_nil_iff.mpr h]

/-- The field pattern on a line without CR and LF that is closed by CRLF: it matches as
on the line alone, and the match ends in front of the CRLF. -/
theorem matchField_line (l tail : List Char) (hl : ∀ c ∈ l, c ≠ '\r' ∧ c ≠ '\n') :
    matchField (l ++ '\r' :: '\n' :: tail)
      = (matchField l).map (fun m => (m.1, m.2.1, '\r' :: '\n' :: tail)) := by
  rcases split_first_colon l with hno | ⟨a, b, hab, ha⟩
  · have h1 : l.span clsNotColon = (l, []) :=
      span_all _ _ (fun x hx => by simp [clsNotColon, hno x hx, (hl x hx).2])
    have h2 : (l ++ '\r' :: '\n' :: tail).span clsNotColon = (l ++ ['\r'], '\n' :: tail) := by
      have := span_append_cons clsNotColon (l ++ ['\r']) tail '\n'
        (fun x hx => by
          simp only [List.mem_append, List.mem_singleton] at hx
          rcases hx with hx | hx
          · simp [clsNotColon, hno x hx, (hl x hx).2]
          · rw [hx]; decide)
        (by decide)
      simpa using this
    unfold matchField
    rw [h1, h2]
    rfl
  · subst hab
    have hka : ∀ x ∈ a, clsNotColon x = true := fun x hx => by
      simp [clsNotColon, ha x hx, (hl x (List.mem_append_left _ hx)).2]
    have h1 : (a ++ ':' :: b).span clsNotColon = (a, ':' :: b) :=
      span_append_cons clsNotColon a b ':' hka (by decide)
    have h2 : (a ++ ':' :: b ++ '\r' :: '\n' :: tail).span clsNotColon
        = (a, ':' :: (b ++ '\r' :: '\n' :: tail)) := by
      have := span_append_cons clsNotColon a (b ++ '\r' :: '\n' :: tail) ':' hka (by decide)
      simpa using this
    unfold matchField
    rw [h1, h2]
    cases b with
    | nil => rfl
    | cons c b2 =>
      by_cases hc : c = ' '
      · subst hc
        have hb2 : ∀ x ∈ b2, clsNotCRLF x = true := fun x hx => by
          have := hl x (by simp [hx])
          simp [clsNotCRLF, this.1, this.2]
        have h3 : b2.span clsNotCRLF = (b2, []) := span_all _ _ hb2
        have h4 : (b2 ++ '\r' :: '\n' :: tail).span clsNotCRLF
            = (b2, '\r' :: '\n' :: tail) :=
          span_append_cons clsNotCRLF b2 _ '\r' hb2 (by decide)
        simp only [List.cons_append, h3, h4, Option.map_some']
      · have hne : ∀ r : List Char, ¬ (c :: r = ' ' :: r) := by
          intro r h
          exact hc (List.cons.inj h).1
        simp only [List.cons_append]
        split
        · rename_i heq
          simp only [Prod.mk.injEq, List.cons.injEq, true_and] at heq
          exact absurd heq.2.1 hc
        · split
          · rename_i heq
            simp only [Prod.mk.injEq, List.cons.injEq, true_and] at heq
            exact absurd heq.2.1 hc
          · rfl

theorem fieldOfLine_none (l : List Char)
    (hline : ∀ k x, (∀ c ∈ k, c ≠ ':') → l ≠ k ++ ':' :: ' ' :: x) :
    fieldOfLine l = none := by
  unfold fieldOfLine
  cases hm : matchField l with
  | none => rfl
  | some r =>
    exfalso
    obtain ⟨key, value, rest⟩ := r
    obtain ⟨hs, hkey, _⟩ := matchField_some _ key value rest hm
    refine hline key (value ++ rest) ?_ hs
    intro c hc h
    have := hkey c hc
    simp [clsNotColon, h] at this

theorem fieldOfLine_field (k v : List Char) (hk : ∀ c ∈ k, c ≠ ':' ∧ c ≠ '\n')
    (hv : ∀ c ∈ v, c ≠ '\r' ∧ c ≠ '\n') :
    fieldOfLine (k ++ ':' :: ' ' :: v) = some (fieldOf (k, v)) := by
  have h1 : (k ++ ':' :: ' ' :: v).span clsNotColon = (k, ':' :: ' ' :: v) :=
    span_append_cons clsNotColon k _ ':'
      (fun x hx => by simp [clsNotColon, (hk x hx).1, (hk x hx).2]) (by decide)
  have h3 : v.span clsNotCRLF = (v, []) :=
    span_all _ _ (fun x hx => by simp [clsNotCRLF, (hv x hx).1, (hv x hx).2])
  unfold fieldOfLine matchField
  rw [h1]
  simp only [h3, Option.map_some']

/-- The loop of `parseFields` over lines without CR and LF: the lines that the field
pattern matches give one pair each, the other lines are passed over. -/
theorem parseFieldsLoop_lines (ls : List (List Char))
    (fuel : Nat) (acc : KeyValueArray) (start : List Char)
    (hfuel : ls.length < fuel)
    (hl : ∀ l ∈ ls, ∀ c ∈ l, c ≠ '\r' ∧ c ≠ '\n')
    (hstart : regexec matchField start = regexecBol matchField true (wireLines ls [])) :
    parseFieldsLoop fuel acc start = some (acc ++ ls.filterMap fieldOfLine) := by
  induction ls generalizing fuel acc start with
  | nil =>
    cases fuel with
    | zero => simp at hfuel
    | succ n =>
      simp only [wireLines, List.foldr_nil, regexecBol, if_true] at hstart
      have : matchField [] = none := by decide
      rw [this] at hstart
      simp [parseFieldsLoop, hstart]
  | cons l ls ih =>
    have hl0 := hl l (by simp)
    have hlf : ∀ c ∈ l, c ≠ '\n' := fun c hc => (hl0 c hc).2
    have hline := matchField_line l (wireLines ls []) hl0
    have hw : wireLines (l :: ls) [] = l ++ '\r' :: '\n' :: wireLines ls [] := rfl
    rw [hw] at hstart
    cases hm : matchField l with
    | none =>
      rw [hm] at hline
      rw [regexecBol_skip_line matchField l _ hlf hline] at hstart
      have hf : fieldOfLine l = none := by simp [fieldOfLine, hm]
      rw [List.filterMap_cons_none hf]
      exact ih fuel acc start (by simp only [List.length_cons] at hfuel; omega)
        (fun x hx => hl x (List.mem_cons_of_mem _ hx)) hstart
    | some r =>
      obtain ⟨key, value, rest⟩ := r
      rw [hm] at hline
      simp only [Option.map_some'] at hline
      rw [regexecBol_of_match _ _ _ hline] at hstart
      have hf : fieldOfLine l = some (fieldOf (key, value)) := by simp [fieldOfLine, hm]
      rw [List.filterMap_cons_some hf]
      cases fuel with
      | zero => simp at hfuel
      | succ n =>
        simp only [parseFieldsLoop, hstart, addField]
        have hih := ih n (acc ++ [fieldOf (key, value)])
          ('\r' :: '\n' :: wireLines ls []) (by simpa using hfuel)
          (fun x hx => hl x (List.mem_cons_of_mem _ hx))
          (regexec_matchField_crlf _)
        simp only [fieldOf] at hih ⊢
        rw [hih]
        simp [fieldOf]

/-! ## Further lemmas on the header-read loop -/

/-- One iteration of the header-read loop whose read returns bytes, for bytes of any
value: the buffer is searched as a string, up to its first NUL. -/
theorem headerLoopBody_headerState_cstr (received chunk : List Char)
    (request_header : HTTPRequestHeader) (hostname port : Option (List Char))
    (hlt : received.length < MAX_HEADER_SIZE) (hc : chunk ≠ []) :
    headerLoopBody (headerState received request_header hostname port)
        (RecvResult.data chunk)
      = (checkHeaderExtractHost
            (cstr (received ++ chunk.take (MAX_HEADER_SIZE - received.length)))
            request_header hostname port).map
          (fun r => Except.ok
            (headerState (received ++ chunk.take (MAX_HEADER_SIZE - received.length))
              r.2.1 r.2.2.1 r.2.2.2, r.1 == 0)) := by
  generalize hst : chunk.take (MAX_HEADER_SIZE - received.length) = stored
  have hlen : stored.length ≠ 0 := by
    rw [← hst, List.length_take]
    have : chunk.length ≠ 0 := by
      intro h0
      exact hc (List.length_eq_zero.mp h0)
    omega
  have hrd : readData true (RECEIVE_BUFFER_SIZE - received.length) (RecvResult.data chunk)
      = ((stored.length : Int), stored, true) := by
    simp only [readData, RECEIVE_BUFFER_SIZE, hst]
    simp [hlen]
  have hbuf := storeAt_headerState received stored (RECEIVE_BUFFER_SIZE + 1)
  have hpos : RECEIVE_BUFFER_SIZE + 1 - (received ++ stored).length
      = (RECEIVE_BUFFER_SIZE - (received ++ stored).length) + 1 := by
    have : stored.length ≤ MAX_HEADER_SIZE - received.length := by
      rw [← hst, List.length_take]
      omega
    simp only [RECEIVE_BUFFER_SIZE, List.length_append]
    omega
  have hcstr : cstr ((received ++ stored)
      ++ List.replicate (RECEIVE_BUFFER_SIZE + 1 - (received ++ stored).length) '\x00')
      = cstr (received ++ stored) := by
    rw [hpos, List.replicate_succ, cstr_append_nul]
  unfold headerLoopBody
  simp only [headerState, headerReadSize, hrd, hbuf, hcstr]
  have hnn : ¬ ((stored.length : Int) < 0) := by omega
  simp only [hnn, if_false, Int.toNat_ofNat, List.length_append]
  cases checkHeaderExtractHost (cstr (received ++ stored)) request_header hostname port with
  | none => rfl
  | some r =>
    obtain ⟨status, hdr, h1, p1⟩ := r
    rfl

/-- One turn of the header-read loop on a read that returns bytes. -/
theorem headerLoop_data_step (received chunk : List Char) (reads : List RecvResult)
    (request_header parsed : HTTPRequestHeader)
    (hostname port hostname1 port1 : Option (List Char)) (status : Int)
    (hlt : received.length < MAX_HEADER_SIZE) (hc : chunk ≠ [])
    (hcheck : checkHeaderExtractHost
        (cstr (received ++ chunk.take (MAX_HEADER_SIZE - received.length)))
        request_header hostname port = some (status, parsed, hostname1, port1)) :
    headerLoop (RecvResult.data chunk :: reads)
        (headerState received request_header hostname port)
      = if status = 0 then
          some (HeaderLoopResult.found
            (headerState (received ++ chunk.take (MAX_HEADER_SIZE - received.length))
              parsed hostname1 port1) reads)
        else
          headerLoop reads
            (headerState (received ++ chunk.take (MAX_HEADER_SIZE - received.length))
              parsed hostname1 port1) := by
  rw [headerLoop_cons, headerLoopGuard_headerState _ _ _ _ hlt,
    headerLoopBody_headerState_cstr _ _ _ _ _ hlt hc, hcheck]
  by_cases hs : status = 0
  · simp [hs]
  · have hb : (status == 0) = false := by simpa using hs
    simp [hs, hb]

/-- The string in a start of a buffer without the end-of-header marker has none. -/
theorem strstr_cstr_none (text needle : List Char) (h : strstr text needle = none) :
    strstr (cstr text) needle = none := by
  have hsplit : text = cstr text ++ text.dropWhile (fun c => c != '\x00') := by
    unfold cstr
    exact (List.takeWhile_append_dropWhile _ _).symm
  rw [hsplit] at h
  exact strstr_none_of_append _ _ _ h

/-- A valid request that arrives in pieces: the loop goes on while the bytes received are
a proper start of the header, and finds the header with the first read that completes
it. -/
theorem headerLoop_chunks_split (header body : List Char) (rest : List RecvResult)
    (parsed : HTTPRequestHeader) (hostname port : Option (List Char))
    (hnul : ∀ c ∈ header, c ≠ '\x00')
    (hend : strstr header ['\r', '\n', '\r', '\n'] = some (header.length - 4))
    (hcheck : checkHeaderExtractHost header initRequestHeader none none
      = some (0, parsed, hostname, port))
    (hlen : (header ++ body).length ≤ MAX_HEADER_SIZE)
    (chunks : List (List Char)) (received : List Char)
    (hrecv : received.length < header.length)
    (hall : received ++ chunks.flatten = header ++ body)
    (hne : ∀ c ∈ chunks, c ≠ []) :
    ∃ n, n < chunks.length
      ∧ (received ++ (chunks.take n).flatten).length < header.length
      ∧ header.length ≤ (received ++ (chunks.take (n + 1)).flatten).length
      ∧ headerLoop (chunks.map RecvResult.data ++ rest)
            (headerState received initRequestHeader none none)
          = some (HeaderLoopResult.found
              (headerState (received ++ (chunks.take (n + 1)).flatten)
                parsed hostname port)
              ((chunks.drop (n + 1)).map RecvResult.data ++ rest)) := by
  induction chunks generalizing received with
  | nil =>
    exfalso
    simp only [List.flatten_nil, List.append_nil] at hall
    rw [hall, List.length_append] at hrecv
    omega
  | cons c cs ih =>
    have hc : c ≠ [] := hne c (List.mem_cons_self _ _)
    have hall2 : (received ++ c) ++ cs.flatten = header ++ body := by
      rw [← hall]
      simp
    have hlen2 : (received ++ c).length ≤ MAX_HEADER_SIZE := by
      have := congrArg List.length hall2
      simp only [List.length_append] at this hlen ⊢
      omega
    have hlt : received.length < MAX_HEADER_SIZE := by
      have hcl : c.length ≠ 0 := fun h0 => hc (List.length_eq_zero.mp h0)
      simp only [List.length_append] at hlen2
      omega
    have htake : c.take (MAX_HEADER_SIZE - received.length) = c :=
      List.take_of_length_le (by simp only [List.length_append] at hlen2; omega)
    have hp1 : (received ++ c) <+: header ++ body := ⟨cs.flatten, hall2⟩
    have hp2 : header <+: header ++ body := ⟨body, rfl⟩
    by_cases hcase : (received ++ c).length < header.length
    · -- the header is not complete yet
      obtain ⟨t, ht⟩ := List.prefix_of_prefix_length_le hp1 hp2 (Nat.le_of_lt hcase)
      have htne : t ≠ [] := by
        intro h0
        rw [h0, List.append_nil] at ht
        rw [ht] at hcase
        exact Nat.lt_irrefl _ hcase
      have hnone : strstr (received ++ c) ['\r', '\n', '\r', '\n'] = none := by
        apply strstr_none_of_last _ t _ htne
        rw [ht]
        exact hend
      have hnul2 : ∀ x ∈ received ++ c, x ≠ '\x00' := fun x hx =>
        hnul x (by rw [← ht]; exact List.mem_append_left _ hx)
      have hstep := headerLoop_data_step received c (cs.map RecvResult.data ++ rest)
        initRequestHeader initRequestHeader none none none none E_NOT_HTTP hlt hc
        (by
          rw [htake, cstr_of_no_nul _ hnul2]
          exact checkHeaderExtractHost_not_http _ _ _ _ hnone)
      rw [htake] at hstep
      have hE : ¬ (E_NOT_HTTP = 0) := by decide
      rw [if_neg hE] at hstep
      obtain ⟨n, hn, h1, h2, h3⟩ := ih (received ++ c) hcase hall2
        (fun x hx => hne x (List.mem_cons_of_mem _ hx))
      refine ⟨n + 1, by simpa using hn, ?_, ?_, ?_⟩
      · simpa using h1
      · simpa using h2
      · rw [List.map_cons, List.cons_append, hstep, h3]
        simp
    · -- the header is complete with this read
      have hge : header.length ≤ (received ++ c).length := Nat.le_of_not_lt hcase
      obtain ⟨b, hb⟩ := List.prefix_of_prefix_length_le hp2 hp1 hge
      have hck : checkHeaderExtractHost (cstr (received ++ c)) initRequestHeader none none
          = some (0, parsed, hostname, port) := by
        rw [← hb, cstr_append_of_no_nul _ _ hnul,
          checkHeaderExtractHost_append _ _ _ _ _ _ hend]
        exact hcheck
      have hstep := headerLoop_data_step received c (cs.map RecvResult.data ++ rest)
        initRequestHeader parsed none none hostname port 0 hlt hc
        (by rw [htake]; exact hck)
      rw [htake, if_pos rfl] at hstep
      refine ⟨0, by simp, by simpa using hrecv, by simpa using hge, ?_⟩
      rw [List.map_cons, List.cons_append, hstep]
      simp

/-! ## Further lemmas on the session -/

/-- The session behind a recognised header whose method holds `CONNECT`: the server is
dialled, `200 Connection Established` goes to the client, the listener is started with
the filter off, and nothing is sent to the server. -/
theorem sessionAfterHeader_connect (s : HeaderLoopState)
    (method hostname port : List Char) (n : Nat)
    (hf : applyFilter (cstr s.header_buffer) = false)
    (hh : s.hostname = some hostname) (hp : s.port = some port)
    (hm : s.request_header.request_info.req_type = some method)
    (hlen : requestHeaderLength s.request_header = some n)
    (hc : (strstr method "CONNECT".toList).isSome = true) :
    sessionAfterHeader s true
      = some { ret_val := none,
               events := [ Event.connect hostname port, Event.sendClient conn_est,
                           Event.startListener false ] } := by
  unfold sessionAfterHeader
  rw [hf, hh, hp, hm]
  simp only [Bool.false_eq_true, if_false, Bool.not_true, hlen, hc, Bool.not_true,
    Bool.and_false, Bool.false_and, if_true]
  rfl

/-- The session behind a recognised header whose method does not hold `CONNECT`: the
server is dialled, the listener is started with the filter on, and the rewritten header
and the bytes of the buffer from offset `requestHeaderLength` on are sent to the
server. -/
theorem sessionAfterHeader_forward (s : HeaderLoopState)
    (method hostname port text : List Char) (modified : HTTPRequestHeader) (n k : Nat)
    (hf : applyFilter (cstr s.header_buffer) = false)
    (hh : s.hostname = some hostname) (hp : s.port = some port)
    (hm : s.request_header.request_info.req_type = some method)
    (hlen : requestHeaderLength s.request_header = some k)
    (hk : k ≤ s.received_bytes)
    (hc : strstr method "CONNECT".toList = none)
    (hmod : modifyRequest s.request_header hostname port = some modified)
    (hser : serializeRequestHeader modified = some (0, text, n)) :
    sessionAfterHeader s true
      = some { ret_val := none,
               events := [ Event.connect hostname port, Event.startListener true,
                           Event.sendServer (text.take n),
                           Event.sendServer
                             ((s.header_buffer.drop k).take (s.received_bytes - k)) ] } := by
  unfold sessionAfterHeader
  rw [hf, hh, hp, hm]
  simp only [Bool.false_eq_true, if_false, Bool.not_true, hlen, hc, Option.isSome_none,
    Bool.not_false, if_true, hmod, Bool.and_self, hser, if_pos hk]
  rfl

/-- A request whose header is valid, has a `Host` field and ends with its first
end-of-header marker, read at once with the bytes behind it, is recognised. -/
theorem headerLoop_single_read (header body : List Char) (rest : List RecvResult)
    (parsed : HTTPRequestHeader) (hostname port : Option (List Char))
    (hnul : ∀ c ∈ header, c ≠ '\x00')
    (hend : strstr header ['\r', '\n', '\r', '\n'] = some (header.length - 4))
    (hcheck : checkHeaderExtractHost header initRequestHeader none none
      = some (0, parsed, hostname, port))
    (hlen : (header ++ body).length ≤ MAX_HEADER_SIZE) :
    headerLoop (RecvResult.data (header ++ body) :: rest) initHeaderLoopState
      = some (HeaderLoopResult.found
          (headerState (header ++ body) parsed hostname port) rest) := by
  have hhl : 4 ≤ header.length := by
    have := (strstr_some_spec _ _ _ hend).1
    simp only [List.length_cons, List.length_nil] at this
    omega
  obtain ⟨n, hn, _, _, h3⟩ := headerLoop_chunks_split header body rest parsed hostname
    port hnul hend hcheck hlen [header ++ body] []
    (by simp only [List.length_nil]; omega) (by simp)
    (by
      intro c hc
      rw [List.mem_singleton] at hc
      intro h0
      have := congrArg List.length (hc.symm.trans h0)
      simp only [List.length_append, List.length_nil] at this
      omega)
  have hn0 : n = 0 := by
    simp only [List.length_singleton] at hn
    omega
  subst hn0
  rw [headerState_init]
  simpa using h3

theorem flatten_take_le (chunks : List (List Char)) (k n : Nat) (h : k ≤ n) :
    ∃ t, (chunks.take n).flatten = (chunks.take k).flatten ++ t := by
  obtain ⟨d, hd⟩ := Nat.exists_eq_add_of_le h
  refine ⟨((chunks.drop k).take d).flatten, ?_⟩
  rw [hd, List.take_add, List.flatten_append]

/-- The session behind a recognised header whose method does not hold `CONNECT`, when
it reaches the forwarding loop: no `200 Connection Established`, the listener runs with
the filter on, and two buffers have been sent to the server. -/
theorem sessionAfterHeader_not_connect (s : HeaderLoopState)
    (method hostname port : List Char) (result : SessionResult)
    (hf : applyFilter (cstr s.header_buffer) = false)
    (hh : s.hostname = some hostname) (hp : s.port = some port)
    (hm : s.request_header.request_info.req_type = some method)
    (hc : strstr method "CONNECT".toList = none)
    (hr : sessionAfterHeader s true = some result) :
    ∃ a b, result
      = { ret_val := none,
          events := [ Event.connect hostname port, Event.startListener true,
                      Event.sendServer a, Event.sendServer b ] } := by
  unfold sessionAfterHeader at hr
  rw [hf, hh, hp, hm] at hr
  simp only [Bool.false_eq_true, if_false, Bool.not_true, hc, Option.isSome_none,
    Bool.not_false, if_true, Bool.and_self] at hr
  cases hlen : requestHeaderLength s.request_header with
  | none => simp [hlen] at hr
  | some k =>
    simp only [hlen] at hr
    cases hmod : modifyRequest s.request_header hostname port with
    | none => simp [hmod] at hr
    | some modified =>
      simp only [hmod] at hr
      cases hser : serializeRequestHeader modified with
      | none => simp [hser] at hr
      | some r =>
        obtain ⟨code, text, n⟩ := r
        simp only [hser] at hr
        by_cases hk : k ≤ s.received_bytes
        · rw [if_pos hk] at hr
          simp only [Option.map_some', Option.some.injEq] at hr
          exact ⟨_, _, hr.symm⟩
        · rw [if_neg hk] at hr
          simp at hr

/-- The text `specRequestText` ends with its first end-of-header marker. -/
theorem specRequestText_strstr (method target version : List Char)
    (pairs : List (List Char × List Char))
    (hm : ∀ c ∈ method, clsUpper c = true)
    (ht : ∀ c ∈ target, c ≠ ' ' ∧ c ≠ '\n')
    (hv : ∀ c ∈ version, c ≠ '\r' ∧ c ≠ '\n')
    (hp : ∀ p ∈ pairs, (∀ c ∈ p.1, c ≠ ':' ∧ c ≠ '\n') ∧ (∀ c ∈ p.2, c ≠ '\r' ∧ c ≠ '\n')) :
    strstr (specRequestText method target version pairs) ['\r', '\n', '\r', '\n']
      = some ((specRequestText method target version pairs).length - 4) := by
  have hne : ∀ x ∈ requestLine method target version :: pairs.map fieldLine, x ≠ [] := by
    intro x hx
    simp only [List.mem_cons, List.mem_map] at hx
    rcases hx with hx | ⟨p, _, hx⟩
    · rw [hx]; simp [requestLine]
    · rw [← hx]; simp [fieldLine]
  have hlf : ∀ x ∈ requestLine method target version :: pairs.map fieldLine,
      ∀ c ∈ x, c ≠ '\n' := by
    intro x hx c hc
    simp only [List.mem_cons, List.mem_map] at hx
    rcases hx with hx | ⟨p, hpm, hx⟩
    · rw [hx] at hc
      simp only [requestLine, List.mem_append, List.mem_cons] at hc
      rcases hc with hc | hc | hc | hc | hc | hc | hc | hc | hc | hc
      · intro h; rw [h] at hc; exact absurd (hm _ hc) (by decide)
      · rw [hc]; decide
      · exact (ht c hc).2
      · rw [hc]; decide
      · rw [hc]; decide
      · rw [hc]; decide
      · rw [hc]; decide
      · rw [hc]; decide
      · rw [hc]; decide
      · exact (hv c hc).2
    · rw [← hx] at hc
      simp only [fieldLine, List.mem_append, List.mem_cons] at hc
      rcases hc with hc | hc | hc | hc
      · exact ((hp p hpm).1 c hc).2
      · rw [hc]; decide
      · rw [hc]; decide
      · exact ((hp p hpm).2 c hc).2
  obtain ⟨i, hi, hlen⟩ := strstr_wireLines (requestLine method target version)
    (pairs.map fieldLine) [] hne hlf
  rw [specRequestText_eq_wireLines, hi]
  congr 1
  rw [wireLines_append_tail]
  simp only [List.length_append, List.length_cons, List.length_nil]
  omega

/-! ## The claims C21 to C30 -/

/-- C21: for the client request `GET http://example.com:8080/x HTTP/1.1` with the field
`Host: example.com:8080`, host extraction gives the hostname `example.com` and the port
`8080`, rewriting and serialization give exactly the upstream header
`GET /x HTTP/1.1`, `Host: example.com:8080`, `Connection: close`, and that header is what
the session sends to the server it has dialled. -/
theorem clientSession_absolute_form :
    checkHeaderExtractHost
        "GET http://example.com:8080/x HTTP/1.1\r\nHost: example.com:8080\r\n\r\n".toList
        initRequestHeader none none
      = some (0,
          { request_info := { req_type := some "GET".toList,
                              resource := some "http://example.com:8080/x".toList,
                              http_version := some "1.1".toList },
            fields := [ { key := "Host".toList, key_length := 4,
                          value := "example.com:8080".toList, value_length := 16 } ] },
          some "example.com".toList, some "8080".toList)
    ∧ (modifyRequest
          { request_info := { req_type := some "GET".toList,
                              resource := some "http://example.com:8080/x".toList,
                              http_version := some "1.1".toList },
            fields := [ { key := "Host".toList, key_length := 4,
                          value := "example.com:8080".toList, value_length := 16 } ] }
          "example.com".toList "8080".toList).bind serializeRequestHeader
      = some (0,
          "GET /x HTTP/1.1\r\nHost: example.com:8080\r\nConnection: close\r\n\r\n".toList,
          62)
    ∧ clientSession
        [RecvResult.data
          "GET http://example.com:8080/x HTTP/1.1\r\nHost: example.com:8080\r\n\r\n".toList]
        true
      = some { ret_val := none,
               events := [ Event.connect "example.com".toList "8080".toList,
                           Event.startListener true,
                           Event.sendServer
                             ("GET /x HTTP/1.1\r\nHost: example.com:8080\r\n"
                               ++ "Connection: close\r\n\r\n").toList,
                           Event.sendServer [] ] } := by
  decide

/-- The bytes sent behind the rewritten header when the header is well formed.  For a
client buffer made of a well-formed request header (start line
`METHOD SP target SP HTTP/version` that is not itself of the form `name: value`, lines
`name: value`, the empty line, no NUL) with a `Host` field, followed by any bytes, received in one read, with a method
that does not hold `CONNECT`, no filter keyword and a target from which `extractResource`
returns a pointer inside the string: `requestHeaderLength` of the parsed header is the
length of the original header, which ends with the first end-of-header marker of the
buffer, and the session sends the rewritten header and then exactly the bytes behind the
original header to the server. -/
theorem clientSession_forwards_body (method target version : List Char)
    (pairs : List (List Char × List Char)) (body hostname port : List Char)
    (parsed : HTTPRequestHeader) (rest : List RecvResult)
    (hm : ∀ c ∈ method, 'A' ≤ c ∧ c ≤ 'Z')
    (ht : ∀ c ∈ target, c ≠ ' ' ∧ c ≠ '\n')
    (hv : ∀ c ∈ version, c ≠ '\r' ∧ c ≠ '\n')
    (hline : ∀ k x, (∀ c ∈ k, c ≠ ':') →
      method ++ [' '] ++ target ++ " HTTP/".toList ++ version ≠ k ++ [':', ' '] ++ x)
    (hp : ∀ p ∈ pairs, (∀ c ∈ p.1, c ≠ ':' ∧ c ≠ '\n') ∧ (∀ c ∈ p.2, c ≠ '\r' ∧ c ≠ '\n'))
    (hnul : ∀ c ∈ specRequestText method target version pairs, c ≠ '\x00')
    (hlen : (specRequestText method target version pairs ++ body).length ≤ MAX_HEADER_SIZE)
    (hcheck : checkHeaderExtractHost (specRequestText method target version pairs)
        initRequestHeader none none = some (0, parsed, some hostname, some port))
    (hfilter : applyFilter (cstr (specRequestText method target version pairs ++ body))
      = false)
    (hconn : ¬ "CONNECT".toList <:+: method)
    (hres : extractResource target hostname port ≤ target.length) :
    requestHeaderLength parsed
        = some (specRequestText method target version pairs).length
      ∧ strstr (specRequestText method target version pairs ++ body)
            ['\r', '\n', '\r', '\n']
          = some ((specRequestText method target version pairs).length - 4)
      ∧ clientSession
          (RecvResult.data (specRequestText method target version pairs ++ body) :: rest)
          true
        = some { ret_val := none,
                 events :=
                   [ Event.connect hostname port, Event.startListener true,
                     Event.sendServer
                       (specRequestText method
                         (target.drop (extractResource target hostname port)) version
                         ((setConnectionClose (pairs.map fieldOf)).map
                           (fun kv => (kv.key, kv.value)))),
                     Event.sendServer body ] } := by
  have hmu : ∀ c ∈ method, clsUpper c = true := fun c hc => by
    simpa [clsUpper] using hm c hc
  have hline2 : ∀ k x, (∀ c ∈ k, c ≠ ':') →
      requestLine method target version ≠ k ++ ':' :: ' ' :: x := by
    intro k x hk h
    apply hline k x hk
    rw [requestLine] at h
    simpa using h
  have hend := specRequestText_strstr method target version pairs hmu ht hv hp
  -- the parsed header
  have hparse0 := parseRequestHeader_wire initRequestHeader method target version pairs []
    hmu ht hv hline2 hp
  rw [← specRequestText_eq_wireLines] at hparse0
  have hparse := (checkHeaderExtractHost_zero _ _ _ _ _ _ _ hcheck).1
  rw [hparse0] at hparse
  have hparsed : parsed
      = { request_info := { req_type := some method, resource := some target,
                            http_version := some version },
          fields := pairs.map fieldOf } := by
    have h0 : initRequestHeader.fields = [] := rfl
    simp only [Option.some.injEq, Prod.mk.injEq, true_and, h0, List.nil_append] at hparse
    exact hparse.symm
  have hpairs : (pairs.map fieldOf).map (fun kv => (kv.key, kv.value)) = pairs := by
    rw [List.map_map]
    conv_rhs => rw [← List.map_id pairs]
    apply List.map_congr_left
    intro p _
    rfl
  have hrl : requestHeaderLength parsed
      = some (specRequestText method target version pairs).length := by
    rw [hparsed, requestHeaderLength_eq, hpairs]
  -- the loop and the state it ends in
  have hfound := headerLoop_single_read (specRequestText method target version pairs) body
    rest parsed (some hostname) (some port) hnul hend hcheck hlen
  have hinv := headerBufferInv_headerState
    (specRequestText method target version pairs ++ body) parsed (some hostname)
    (some port) hlen
  have hcstr := headerBufferInv_cstr _ hinv
  have hbuf : (headerState (specRequestText method target version pairs ++ body) parsed
      (some hostname) (some port)).header_buffer
        = (specRequestText method target version pairs ++ body)
          ++ List.replicate (RECEIVE_BUFFER_SIZE + 1
              - (specRequestText method target version pairs ++ body).length) '\x00' := rfl
  have hrecv : (headerState (specRequestText method target version pairs ++ body) parsed
      (some hostname) (some port)).received_bytes
        = (specRequestText method target version pairs ++ body).length := rfl
  rw [hrecv, hbuf, List.take_left] at hcstr
  rw [← hbuf] at hcstr
  have hmod : modifyRequest parsed hostname port
      = some { request_info := { req_type := some method,
                                 resource := some
                                   (target.drop (extractResource target hostname port)),
                                 http_version := some version },
               fields := setConnectionClose (pairs.map fieldOf) } := by
    rw [hparsed]
    simp only [modifyRequest, if_pos hres]
  have hser := serializeRequestHeader_eq method
    (target.drop (extractResource target hostname port)) version
    (setConnectionClose (pairs.map fieldOf))
  have hsess := sessionAfterHeader_forward
    (headerState (specRequestText method target version pairs ++ body) parsed
      (some hostname) (some port))
    method hostname port _ _ _ (specRequestText method target version pairs).length
    (by rw [hcstr]; exact hfilter) rfl rfl (by rw [hparsed]; rfl) hrl
    (by rw [hrecv, List.length_append]; omega)
    ((strstr_eq_none_iff _ _).mpr hconn) hmod hser
  refine ⟨hrl, strstr_append _ _ _ _ hend, ?_⟩
  rw [clientSession_found _ rest _ true hfound, hsess, List.take_length]
  have hbody : ((headerState (specRequestText method target version pairs ++ body) parsed
      (some hostname) (some port)).header_buffer.drop
        (specRequestText method target version pairs).length).take
      ((headerState (specRequestText method target version pairs ++ body) parsed
        (some hostname) (some port)).received_bytes
        - (specRequestText method target version pairs).length) = body := by
    rw [hrecv, hbuf, List.append_assoc, List.drop_left, List.length_append,
      Nat.add_sub_cancel_left, List.take_left]
  rw [hbody]

/-- The request `POST /submit HTTP/1.1` with `Host: x` and the three bytes `a=1` behind
the header: the session sends the rewritten header and then `a=1`. -/
theorem clientSession_forwards_body_witness :
    requestHeaderLength
        { request_info := { req_type := some "POST".toList,
                            resource := some "/submit".toList,
                            http_version := some "1.1".toList },
          fields := [ { key := "Host".toList, key_length := 4,
                        value := "x".toList, value_length := 1 } ] }
        = some (specRequestText "POST".toList "/submit".toList "1.1".toList
            [("Host".toList, "x".toList)]).length
      ∧ strstr (specRequestText "POST".toList "/submit".toList "1.1".toList
            [("Host".toList, "x".toList)] ++ "a=1".toList)
            ['\r', '\n', '\r', '\n']
          = some ((specRequestText "POST".toList "/submit".toList "1.1".toList
              [("Host".toList, "x".toList)]).length - 4)
      ∧ clientSession
          (RecvResult.data (specRequestText "POST".toList "/submit".toList "1.1".toList
            [("Host".toList, "x".toList)] ++ "a=1".toList) :: [])
          true
        = some { ret_val := none,
                 events :=
                   [ Event.connect "x".toList "80".toList, Event.startListener true,
                     Event.sendServer
                       (specRequestText "POST".toList
                         ("/submit".toList.drop
                           (extractResource "/submit".toList "x".toList "80".toList))
                         "1.1".toList
                         ((setConnectionClose
                            ([("Host".toList, "x".toList)].map fieldOf)).map
                           (fun kv => (kv.key, kv.value)))),
                     Event.sendServer "a=1".toList ] } :=
  clientSession_forwards_body "POST".toList "/submit".toList "1.1".toList
    [("Host".toList, "x".toList)] "a=1".toList "x".toList "80".toList
    { request_info := { req_type := some "POST".toList,
                        resource := some "/submit".toList,
                        http_version := some "1.1".toList },
      fields := [ { key := "Host".toList, key_length := 4,
                    value := "x".toList, value_length := 1 } ] }
    [] (by decide) (by decide) (by decide)
    (not_fieldForm_of_dropWhile
      ("POST".toList ++ [' '] ++ "/submit".toList ++ " HTTP/".toList ++ "1.1".toList)
      (by decide))
    (by decide) (by decide) (by decide) (by decide) (by decide) (by decide) (by decide)

/-- C22 (the code at the failing inputs): the bytes that `clientSession` sends behind
the rewritten header start at the offset `requestHeaderLength` of the parsed header, not
at the end of the original header.  In the buffer
`GET / HTTP/1.1 CRLF Host: x CRLF Accept:*/* CRLF CRLF BODY` the end-of-header marker is
at offset 35, so the original header is 39 bytes long; the parser passes over the line
`Accept:*/*`, so `requestHeaderLength` of the parsed header is 27, and behind the
rewritten header the session sends `cept:*/* CRLF CRLF BODY`, which starts inside the
original header.  With the line `bogus` in place of `Accept:*/*` the original header is
34 bytes long, the offset is again 27, and the session sends `gus CRLF CRLF BODY`. -/
theorem clientSession_body_offset :
    strstr "GET / HTTP/1.1\r\nHost: x\r\nAccept:*/*\r\n\r\nBODY".toList
          ['\r', '\n', '\r', '\n'] = some 35
      ∧ (parseRequestHeader initRequestHeader
            "GET / HTTP/1.1\r\nHost: x\r\nAccept:*/*\r\n\r\nBODY".toList).bind
          (fun r => requestHeaderLength r.2) = some 27
      ∧ clientSession
          [RecvResult.data "GET / HTTP/1.1\r\nHost: x\r\nAccept:*/*\r\n\r\nBODY".toList]
          true
        = some { ret_val := none,
                 events :=
                   [ Event.connect "x".toList "80".toList, Event.startListener true,
                     Event.sendServer
                       "GET / HTTP/1.1\r\nHost: x\r\nConnection: close\r\n\r\n".toList,
                     Event.sendServer "cept:*/*\r\n\r\nBODY".toList ] }
      ∧ strstr "GET / HTTP/1.1\r\nHost: x\r\nbogus\r\n\r\nBODY".toList
          ['\r', '\n', '\r', '\n'] = some 30
      ∧ (parseRequestHeader initRequestHeader
            "GET / HTTP/1.1\r\nHost: x\r\nbogus\r\n\r\nBODY".toList).bind
          (fun r => requestHeaderLength r.2) = some 27
      ∧ clientSession
          [RecvResult.data "GET / HTTP/1.1\r\nHost: x\r\nbogus\r\n\r\nBODY".toList] true
        = some { ret_val := none,
                 events :=
                   [ Event.connect "x".toList "80".toList, Event.startListener true,
                     Event.sendServer
                       "GET / HTTP/1.1\r\nHost: x\r\nConnection: close\r\n\r\n".toList,
                     Event.sendServer "gus\r\n\r\nBODY".toList ] } := by
  decide

/-- C23: for every field map `m` and key `k`, `getValue` returns the value of the first
pair in insertion order whose key equals `k` byte for byte, and returns `NULL` exactly
when no pair has the key `k`; the comparison is case-sensitive, so `host` does not find
`Host`. -/
theorem getValue_first_match (m : KeyValueArray) (k : List Char) :
    (getValue m k = none ↔ ∀ kv ∈ m, kv.key ≠ k)
      ∧ (∀ v, getValue m k = some v
          ↔ ∃ pre kv post, m = pre ++ kv :: post ∧ (∀ x ∈ pre, x.key ≠ k)
              ∧ kv.key = k ∧ kv.value = v)
      ∧ getValue [ { key := "Host".toList, key_length := 4,
                     value := "x".toList, value_length := 1 } ] "host".toList = none := by
  have hsome : ∀ v, getValue m k = some v
      ↔ ∃ pre kv post, m = pre ++ kv :: post ∧ (∀ x ∈ pre, x.key ≠ k)
          ∧ kv.key = k ∧ kv.value = v := by
    intro v
    constructor
    · intro h
      by_cases hex : ∃ kv ∈ m, kv.key = k
      · obtain ⟨pre, kv, post, hm, hpre, hk⟩ := split_first_key m k hex
        refine ⟨pre, kv, post, hm, hpre, hk, ?_⟩
        rw [hm, getValue_append_cons pre post kv k hpre hk] at h
        simpa using h
      · have hall : ∀ x ∈ m, x.key ≠ k := fun x hx hk => hex ⟨x, hx, hk⟩
        rw [getValue_eq_none m k hall] at h
        simp at h
    · rintro ⟨pre, kv, post, hm, hpre, hk, hv⟩
      rw [hm, getValue_append_cons pre post kv k hpre hk, hv]
  refine ⟨?_, hsome, by decide⟩
  constructor
  · intro h kv hkv hk
    obtain ⟨pre, kv2, post, hm, hpre, hk2⟩ := split_first_key m k ⟨kv, hkv, hk⟩
    rw [hm, getValue_append_cons pre post kv2 k hpre hk2] at h
    simp at h
  · exact getValue_eq_none m k

/-- C24: for every field map `m`, key `k` and new value `v` of which `n` bytes are
stored.  If some pair has the key `k`, `setValue` returns 0 and the array is the old one
with the value and the value length of the first such pair replaced, every other pair
(also later pairs with the key `k`), the size, the keys and the order being as before;
if no pair has the key `k`, it returns -1 and the array is unchanged.  With `n` the
length of `v`, as `clientSession` calls it, the new value is `v`. -/
theorem setValue_frame (m : KeyValueArray) (k v : List Char) (n : Nat) :
    ((∃ kv ∈ m, kv.key = k) →
        ∃ pre kv post, m = pre ++ kv :: post ∧ (∀ x ∈ pre, x.key ≠ k) ∧ kv.key = k
          ∧ setValue m k v n
              = (0, pre ++ { key := kv.key, key_length := kv.key_length,
                             value := v.take n, value_length := n } :: post))
      ∧ ((∀ kv ∈ m, kv.key ≠ k) → setValue m k v n = (-1, m))
      ∧ (setValue m k v n).2.length = m.length
      ∧ (setValue m k v n).2.map (fun kv => (kv.key, kv.key_length))
          = m.map (fun kv => (kv.key, kv.key_length))
      ∧ v.take (strlen v) = v := by
  have hfound : (∃ kv ∈ m, kv.key = k) →
      ∃ pre kv post, m = pre ++ kv :: post ∧ (∀ x ∈ pre, x.key ≠ k) ∧ kv.key = k
        ∧ setValue m k v n
            = (0, pre ++ { key := kv.key, key_length := kv.key_length,
                           value := v.take n, value_length := n } :: post) := by
    intro h
    obtain ⟨pre, kv, post, hm, hpre, hk⟩ := split_first_key m k h
    exact ⟨pre, kv, post, hm, hpre, hk, by rw [hm, setValue_found pre post kv k v n hpre hk]⟩
  refine ⟨hfound, setValue_not_found m k v n, ?_, ?_, by simp [strlen]⟩
  · by_cases hex : ∃ kv ∈ m, kv.key = k
    · obtain ⟨pre, kv, post, hm, _, _, hs⟩ := hfound hex
      rw [hs, hm]
      simp
    · have hall : ∀ x ∈ m, x.key ≠ k := fun x hx hk => hex ⟨x, hx, hk⟩
      rw [setValue_not_found m k v n hall]
  · by_cases hex : ∃ kv ∈ m, kv.key = k
    · obtain ⟨pre, kv, post, hm, _, _, hs⟩ := hfound hex
      rw [hs, hm]
      simp
    · have hall : ∀ x ∈ m, x.key ≠ k := fun x hx hk => hex ⟨x, hx, hk⟩
      rw [setValue_not_found m k v n hall]

/-- C25: partial reads.  For a request made of a header without NUL that ends with its
first end-of-header marker, on which `checkHeaderExtractHost` returns 0 (a valid header
with a `Host` field), followed by any bytes, and for every way of splitting its bytes
into non-empty successive reads: on every cumulative part without the end-of-header
marker `checkHeaderExtractHost` returns `E_NOT_HTTP` and changes nothing; the header is
recognised at the first read after which the bytes received hold the marker; and the
loop ends with the same parsed header, hostname and port as when the request arrives in
a single read. -/
theorem headerLoop_partial_reads (header body : List Char) (chunks : List (List Char))
    (rest : List RecvResult) (parsed : HTTPRequestHeader)
    (hostname port : Option (List Char))
    (hnul : ∀ c ∈ header, c ≠ '\x00')
    (hend : strstr header ['\r', '\n', '\r', '\n'] = some (header.length - 4))
    (hcheck : checkHeaderExtractHost header initRequestHeader none none
      = some (0, parsed, hostname, port))
    (hlen : (header ++ body).length ≤ MAX_HEADER_SIZE)
    (hchunks : chunks.flatten = header ++ body)
    (hne : ∀ c ∈ chunks, c ≠ []) :
    (∀ k, strstr (chunks.take k).flatten ['\r', '\n', '\r', '\n'] = none →
        checkHeaderExtractHost (cstr (chunks.take k).flatten) initRequestHeader none none
          = some (E_NOT_HTTP, initRequestHeader, none, none))
      ∧ (∃ n, n < chunks.length
          ∧ (∀ k ≤ n, strstr (chunks.take k).flatten ['\r', '\n', '\r', '\n'] = none)
          ∧ strstr (chunks.take (n + 1)).flatten ['\r', '\n', '\r', '\n']
              = some (header.length - 4)
          ∧ headerLoop (chunks.map RecvResult.data ++ rest) initHeaderLoopState
              = some (HeaderLoopResult.found
                  (headerState (chunks.take (n + 1)).flatten parsed hostname port)
                  ((chunks.drop (n + 1)).map RecvResult.data ++ rest)))
      ∧ headerLoop (RecvResult.data (header ++ body) :: rest) initHeaderLoopState
          = some (HeaderLoopResult.found
              (headerState (header ++ body) parsed hostname port) rest) := by
  have hhl : 4 ≤ header.length := by
    have := (strstr_some_spec _ _ _ hend).1
    simp only [List.length_cons, List.length_nil] at this
    omega
  have hp2 : header <+: header ++ body := ⟨body, rfl⟩
  refine ⟨?_, ?_, ?_⟩
  · intro k hk
    exact checkHeaderExtractHost_not_http _ _ _ _ (strstr_cstr_none _ _ hk)
  · obtain ⟨n, hn, h1, h2, h3⟩ := headerLoop_chunks_split header body rest parsed hostname
      port hnul hend hcheck hlen chunks [] (by simp only [List.length_nil]; omega)
      (by simpa using hchunks) hne
    simp only [List.nil_append] at h1 h2 h3
    refine ⟨n, hn, ?_, ?_, ?_⟩
    · intro k hk
      obtain ⟨t, ht⟩ := flatten_take_le chunks k n hk
      obtain ⟨u, hu⟩ := flatten_take_le chunks n chunks.length (Nat.le_of_lt hn)
      rw [List.take_length, hchunks] at hu
      have hp1 : (chunks.take n).flatten <+: header ++ body := ⟨u, hu.symm⟩
      obtain ⟨w, hw⟩ := List.prefix_of_prefix_length_le hp1 hp2 (Nat.le_of_lt h1)
      have hwne : w ≠ [] := by
        intro h0
        rw [h0, List.append_nil] at hw
        rw [hw] at h1
        exact Nat.lt_irrefl _ h1
      have hne2 : t ++ w ≠ [] := by
        intro h0
        exact hwne (List.append_eq_nil.mp h0).2
      apply strstr_none_of_last _ (t ++ w) _ hne2
      rw [← List.append_assoc, ← ht, hw]
      exact hend
    · obtain ⟨u, hu⟩ := flatten_take_le chunks (n + 1) chunks.length hn
      rw [List.take_length, hchunks] at hu
      have hp1 : (chunks.take (n + 1)).flatten <+: header ++ body := ⟨u, hu.symm⟩
      obtain ⟨b, hb⟩ := List.prefix_of_prefix_length_le hp2 hp1 h2
      rw [← hb]
      exact strstr_append _ _ _ _ hend
    · rw [headerState_init]
      exact h3
  · exact headerLoop_single_read header body rest parsed hostname port hnul hend hcheck hlen

/-- Witness for C25: the request `GET / HTTP/1.1` with `Host: x`, read in three
pieces. -/
theorem headerLoop_partial_reads_witness :
    (∀ k, strstr
          ([ "GET / HT".toList, "TP/1.1\r\nHost: x\r\n".toList, "\r\n".toList ].take k).flatten
          ['\r', '\n', '\r', '\n'] = none →
        checkHeaderExtractHost
            (cstr ([ "GET / HT".toList, "TP/1.1\r\nHost: x\r\n".toList,
                     "\r\n".toList ].take k).flatten)
            initRequestHeader none none
          = some (E_NOT_HTTP, initRequestHeader, none, none))
      ∧ (∃ n, n < [ "GET / HT".toList, "TP/1.1\r\nHost: x\r\n".toList,
                    "\r\n".toList ].length
          ∧ (∀ k ≤ n, strstr
              ([ "GET / HT".toList, "TP/1.1\r\nHost: x\r\n".toList,
                 "\r\n".toList ].take k).flatten
              ['\r', '\n', '\r', '\n'] = none)
          ∧ strstr
              ([ "GET / HT".toList, "TP/1.1\r\nHost: x\r\n".toList,
                 "\r\n".toList ].take (n + 1)).flatten
              ['\r', '\n', '\r', '\n']
              = some ("GET / HTTP/1.1\r\nHost: x\r\n\r\n".toList.length - 4)
          ∧ headerLoop
              ([ "GET / HT".toList, "TP/1.1\r\nHost: x\r\n".toList,
                 "\r\n".toList ].map RecvResult.data ++ [])
              initHeaderLoopState
              = some (HeaderLoopResult.found
                  (headerState
                    ([ "GET / HT".toList, "TP/1.1\r\nHost: x\r\n".toList,
                       "\r\n".toList ].take (n + 1)).flatten
                    { request_info := { req_type := some "GET".toList,
                                        resource := some "/".toList,
                                        http_version := some "1.1".toList },
                      fields := [ { key := "Host".toList, key_length := 4,
                                    value := "x".toList, value_length := 1 } ] }
                    (some "x".toList) (some "80".toList))
                  (([ "GET / HT".toList, "TP/1.1\r\nHost: x\r\n".toList,
                      "\r\n".toList ].drop (n + 1)).map RecvResult.data ++ [])))
      ∧ headerLoop
          (RecvResult.data ("GET / HTTP/1.1\r\nHost: x\r\n\r\n".toList ++ []) :: [])
          initHeaderLoopState
          = some (HeaderLoopResult.found
              (headerState ("GET / HTTP/1.1\r\nHost: x\r\n\r\n".toList ++ [])
                { request_info := { req_type := some "GET".toList,
                                    resource := some "/".toList,
                                    http_version := some "1.1".toList },
                  fields := [ { key := "Host".toList, key_length := 4,
                                value := "x".toList, value_length := 1 } ] }
                (some "x".toList) (some "80".toList)) []) :=
  headerLoop_partial_reads "GET / HTTP/1.1\r\nHost: x\r\n\r\n".toList []
    [ "GET / HT".toList, "TP/1.1\r\nHost: x\r\n".toList, "\r\n".toList ] []
    { request_info := { req_type := some "GET".toList, resource := some "/".toList,
                        http_version := some "1.1".toList },
      fields := [ { key := "Host".toList, key_length := 4,
                    value := "x".toList, value_length := 1 } ] }
    (some "x".toList) (some "80".toList)
    (by decide) (by decide) (by decide) (by decide) (by decide) (by decide)

/-- C27 (as amended): in `parseFields`, a line that is not of the form `name: value` is
passed over and does not end field parsing.  For every header text made of lines without
CR and LF, each closed by CRLF, the pairs appended are those of the lines of the form
`name: value` (the first colon of the line is followed by a space), in order, whatever
lines stand before them. -/
theorem parseFields_skips_malformed (fields : KeyValueArray) (ls : List (List Char))
    (hl : ∀ l ∈ ls, ∀ c ∈ l, c ≠ '\r' ∧ c ≠ '\n') :
    parseFields fields (wireLines ls []) = some (0, fields ++ ls.filterMap fieldOfLine)
      ∧ (∀ l ∈ ls, (fieldOfLine l = none
          ↔ ∀ k x, (∀ c ∈ k, c ≠ ':') → l ≠ k ++ ':' :: ' ' :: x))
      ∧ (∀ l ∈ ls, ∀ k v, (∀ c ∈ k, c ≠ ':') → l = k ++ ':' :: ' ' :: v →
          fieldOfLine l = some (fieldOf (k, v))) := by
  have hfield : ∀ l ∈ ls, ∀ k v, (∀ c ∈ k, c ≠ ':') → l = k ++ ':' :: ' ' :: v →
      fieldOfLine l = some (fieldOf (k, v)) := by
    intro l hmem k v hk hkv
    have hl0 := hl l hmem
    rw [hkv] at hl0 ⊢
    exact fieldOfLine_field k v
      (fun c hc => ⟨hk c hc, (hl0 c (List.mem_append_left _ hc)).2⟩)
      (fun c hc => hl0 c (by simp [hc]))
  refine ⟨?_, ?_, hfield⟩
  · unfold parseFields
    rw [parseFieldsLoop_lines ls _ fields _ ?_ hl rfl]
    · rfl
    · have := wireLines_length ls
      omega
  · intro l hmem
    constructor
    · intro hnone k x hk hkx
      rw [hfield l hmem k x hk hkx] at hnone
      simp at hnone
    · exact fieldOfLine_none l

/-- Witness for C27: a header text with the line `bogus` between two field lines. -/
theorem parseFields_skips_malformed_witness :
    parseFields []
        (wireLines [ "GET / HTTP/1.1".toList, "Host: x".toList, "bogus".toList,
                     "Accept: y".toList ] [])
      = some (0, [] ++ [ "GET / HTTP/1.1".toList, "Host: x".toList, "bogus".toList,
                         "Accept: y".toList ].filterMap fieldOfLine)
      ∧ (∀ l ∈ [ "GET / HTTP/1.1".toList, "Host: x".toList, "bogus".toList,
                 "Accept: y".toList ],
          (fieldOfLine l = none
            ↔ ∀ k x, (∀ c ∈ k, c ≠ ':') → l ≠ k ++ ':' :: ' ' :: x))
      ∧ (∀ l ∈ [ "GET / HTTP/1.1".toList, "Host: x".toList, "bogus".toList,
                 "Accept: y".toList ],
          ∀ k v, (∀ c ∈ k, c ≠ ':') → l = k ++ ':' :: ' ' :: v →
            fieldOfLine l = some (fieldOf (k, v))) :=
  parseFields_skips_malformed []
    [ "GET / HTTP/1.1".toList, "Host: x".toList, "bogus".toList, "Accept: y".toList ]
    (by decide)

/-- Counterexample to C27 as stated: the line `bogus` has no colon, and the line
`Accept: y` behind it still contributes a field. -/
theorem parseFields_skips_malformed_counterexample :
    parseFields [] "GET / HTTP/1.1\r\nHost: x\r\nbogus\r\nAccept: y\r\n".toList
      = some (0, [ { key := "Host".toList, key_length := 4,
                     value := "x".toList, value_length := 1 },
                   { key := "Accept".toList, key_length := 6,
                     value := "y".toList, value_length := 1 } ])
    ∧ parseRequestHeader initRequestHeader
        "GET / HTTP/1.1\r\nHost: x\r\nbogus\r\nAccept: y\r\n\r\n".toList
      = some (0,
          { request_info := { req_type := some "GET".toList, resource := some "/".toList,
                              http_version := some "1.1".toList },
            fields := [ { key := "Host".toList, key_length := 4,
                          value := "x".toList, value_length := 1 },
                        { key := "Accept".toList, key_length := 6,
                          value := "y".toList, value_length := 1 } ] }) := by
  decide

/-- C29 (as amended): whenever `parseResponseHeader` returns 0, the buffer holds, at
offset 0 or right behind an LF, the text `HTTP/`, the parsed version, a space, the parsed
status code, a space and the parsed reason, followed by a CR or an LF; the version is
without space and LF, the status code is a string of decimal digits that may be empty,
and the reason is without CR and LF. -/
theorem parseResponseHeader_status_line (header parsed : HTTPResponseHeader)
    (buffer : List Char) (h : parseResponseHeader header buffer = some (0, parsed)) :
    ∃ version status reason pre post,
      parsed.response_info = { http_version := some version, status_code := some status,
                               reason := some reason }
      ∧ buffer = pre ++ 'H' :: 'T' :: 'T' :: 'P' :: '/'
          :: (version ++ ' ' :: (status ++ ' ' :: (reason ++ post)))
      ∧ (pre = [] ∨ pre.getLast? = some '\n')
      ∧ (∀ c ∈ version, c ≠ ' ' ∧ c ≠ '\n')
      ∧ (∀ c ∈ status, '0' ≤ c ∧ c ≤ '9')
      ∧ (∀ c ∈ reason, c ≠ '\r' ∧ c ≠ '\n')
      ∧ (post.head? = some '\r' ∨ post.head? = some '\n') := by
  unfold parseResponseHeader at h
  cases hend : strstr buffer ['\r', '\n', '\r', '\n'] with
  | none =>
    simp [hend, E_NOT_HTTP] at h
  | some i =>
    simp only [hend, parseResponseLine] at h
    cases hre : regexec matchResponseLine (buffer.take (i + 4)) with
    | none => simp [hre, E_NO_MATCH] at h
    | some r =>
      obtain ⟨m1, m2, m3⟩ := r
      obtain ⟨fs, hfs⟩ := parseFields_total header.fields (buffer.take (i + 4))
      simp only [hre, hfs] at h
      have hparsed : parsed
          = { response_info :=
                { http_version := some m1, status_code := some m2, reason := some m3 },
              fields := fs } := by
        simpa using h.symm
      obtain ⟨pre, t, hst, hanchor, hm⟩ := regexecBol_some_anchor _ _ _ _ hre
      obtain ⟨rest, ht, h1, h2, h3, hrest⟩ := matchResponseLine_some t m1 m2 m3 hm
      have htake := take_header_end buffer i hend
      have hrest2 : ∃ c r, rest = c :: r ∧ clsNotCRLF c = false := by
        rcases hrest with h0 | h0
        · exfalso
          subst h0
          have hend2 : buffer.take (i + 4) = (buffer.take i ++ ['\r', '\n', '\r']) ++ ['\n'] := by
            rw [htake]
            simp
          rw [hst, ht] at hend2
          rcases List.eq_nil_or_concat m3 with hm3 | ⟨L, b, hL⟩
          · subst hm3
            have hform : pre ++ 'H' :: 'T' :: 'T' :: 'P' :: '/'
                :: (m1 ++ ' ' :: (m2 ++ ' ' :: ([] ++ [])))
                = (pre ++ 'H' :: 'T' :: 'T' :: 'P' :: '/' :: (m1 ++ ' ' :: m2)) ++ [' '] := by
              simp
            rw [hform] at hend2
            have := (List.append_inj' hend2 rfl).2
            simp at this
          · rw [List.concat_eq_append] at hL
            subst hL
            have hform : pre ++ 'H' :: 'T' :: 'T' :: 'P' :: '/'
                :: (m1 ++ ' ' :: (m2 ++ ' ' :: (L ++ [b] ++ [])))
                = (pre ++ 'H' :: 'T' :: 'T' :: 'P' :: '/' :: (m1 ++ ' ' :: (m2 ++ ' ' :: L)))
                    ++ [b] := by
              simp
            rw [hform] at hend2
            have hb := (List.append_inj' hend2 rfl).2
            simp only [List.cons.injEq, and_true] at hb
            have := h3 b (by simp)
            rw [hb] at this
            simp [clsNotCRLF] at this
        · exact h0
      obtain ⟨c, r, hcr, hc⟩ := hrest2
      refine ⟨m1, m2, m3, pre, rest ++ buffer.drop (i + 4), by rw [hparsed], ?_,
        hanchor.imp (fun h => h.1) id, ?_, ?_, ?_, ?_⟩
      · conv_lhs => rw [← List.take_append_drop (i + 4) buffer, hst, ht]
        simp
      · intro x hx
        simpa [clsNotSpace] using h1 x hx
      · intro x hx
        simpa [clsDigit] using h2 x hx
      · intro x hx
        simpa [clsNotCRLF] using h3 x hx
      · rw [hcr]
        simp only [List.cons_append, List.head?_cons, Option.some.injEq]
        simp only [clsNotCRLF, Bool.and_eq_false_iff, bne_eq_false_iff_eq] at hc
        exact hc

/-- Witness for C29: the response `HTTP/1.1 200 OK`. -/
theorem parseResponseHeader_status_line_witness :
    ∃ version status reason pre post,
      ({ http_version := some "1.1".toList, status_code := some "200".toList,
         reason := some "OK".toList } : HTTPResponseInfo)
        = { http_version := some version, status_code := some status,
            reason := some reason }
      ∧ "HTTP/1.1 200 OK\r\n\r\n".toList = pre ++ 'H' :: 'T' :: 'T' :: 'P' :: '/'
          :: (version ++ ' ' :: (status ++ ' ' :: (reason ++ post)))
      ∧ (pre = [] ∨ pre.getLast? = some '\n')
      ∧ (∀ c ∈ version, c ≠ ' ' ∧ c ≠ '\n')
      ∧ (∀ c ∈ status, '0' ≤ c ∧ c ≤ '9')
      ∧ (∀ c ∈ reason, c ≠ '\r' ∧ c ≠ '\n')
      ∧ (post.head? = some '\r' ∨ post.head? = some '\n') :=
  parseResponseHeader_status_line initResponseHeader
    { response_info := { http_version := some "1.1".toList, status_code := some "200".toList,
                         reason := some "OK".toList },
      fields := [] }
    "HTTP/1.1 200 OK\r\n\r\n".toList (by decide)

/-- Counterexample to C29 as stated: on the status line `HTTP/1.1`, two spaces, `OK`,
`parseResponseHeader` returns 0 and the parsed status code is the empty string. -/
theorem parseResponseHeader_status_line_counterexample :
    parseResponseHeader initResponseHeader "HTTP/1.1  OK\r\n\r\n".toList
      = some (0,
          { response_info := { http_version := some "1.1".toList, status_code := some [],
                               reason := some "OK".toList },
            fields := [] }) := by
  decide

/-- C30 (the code at the failing input, and in general): `clientSession` treats a
request as CONNECT exactly when the parsed method holds the string `CONNECT` somewhere.
The request `XCONNECT example.com:443 HTTP/1.1` is answered with
`200 Connection Established`, its header is neither rewritten nor forwarded and the
listener is started with the filter off. -/
theorem clientSession_connect_substring :
    clientSession
        [RecvResult.data
          "XCONNECT example.com:443 HTTP/1.1\r\nHost: example.com:443\r\n\r\n".toList] true
      = some { ret_val := none,
               events := [ Event.connect "example.com".toList "443".toList,
                           Event.sendClient
                             "HTTP/1.1 200 Connection Established\r\n\r\n".toList,
                           Event.startListener false ] }
    ∧ (∀ (s : HeaderLoopState) (method hostname port : List Char) (n : Nat),
        applyFilter (cstr s.header_buffer) = false →
        s.hostname = some hostname → s.port = some port →
        s.request_header.request_info.req_type = some method →
        requestHeaderLength s.request_header = some n →
        "CONNECT".toList <:+: method →
        sessionAfterHeader s true
          = some { ret_val := none,
                   events := [ Event.connect hostname port, Event.sendClient conn_est,
                               Event.startListener false ] })
    ∧ (∀ (s : HeaderLoopState) (method hostname port : List Char) (result : SessionResult),
        applyFilter (cstr s.header_buffer) = false →
        s.hostname = some hostname → s.port = some port →
        s.request_header.request_info.req_type = some method →
        ¬ "CONNECT".toList <:+: method →
        sessionAfterHeader s true = some result →
        ∃ a b, result
          = { ret_val := none,
              events := [ Event.connect hostname port, Event.startListener true,
                          Event.sendServer a, Event.sendServer b ] }) := by
  refine ⟨by decide, ?_, ?_⟩
  · intro s method hostname port n hf hh hp hm hlen hc
    exact sessionAfterHeader_connect s method hostname port n hf hh hp hm hlen
      ((strstr_isSome_iff _ _).mpr hc)
  · intro s method hostname port result hf hh hp hm hc hr
    exact sessionAfterHeader_not_connect s method hostname port result hf hh hp hm
      ((strstr_eq_none_iff _ _).mpr hc) hr

/-! ## Further lemmas on the parsers -/

/-- The loop of `parseFields` ends within half the length of the text, and stores at
most that many pairs. -/
theorem parseFieldsLoop_bound (fuel : Nat) (acc : KeyValueArray) (s : List Char)
    (h : s.length < 2 * fuel) :
    ∃ fs, parseFieldsLoop fuel acc s = some (acc ++ fs) ∧ 2 * fs.length ≤ s.length := by
  induction fuel generalizing acc s with
  | zero => omega
  | succ n ih =>
    unfold parseFieldsLoop
    cases hm : regexec matchField s with
    | none => exact ⟨[], by simp, by simp⟩
    | some r =>
      obtain ⟨key, value, rest⟩ := r
      have hlen := regexec_matchField_length s key value rest hm
      obtain ⟨fs, hfs, hb⟩ := ih (addField acc key value).2 rest (by omega)
      refine ⟨fieldOf (key, value) :: fs, ?_, ?_⟩
      · show parseFieldsLoop n (addField acc key value).2 rest = _
        rw [hfs]
        simp [addField, fieldOf]
      · simp only [List.length_cons]
        omega

/-- The text behind a match of the field pattern is an end of the text searched. -/
theorem regexec_matchField_suffix (s key value rest : List Char)
    (h : regexec matchField s = some (key, value, rest)) : rest <:+ s := by
  obtain ⟨t, ht, hm⟩ := regexecBol_some matchField true s _ h
  have h1 := (matchField_some t key value rest hm).1
  refine List.IsSuffix.trans ?_ ht
  rw [h1]
  exact ⟨key ++ ':' :: ' ' :: value, by simp⟩

/-- The header text ends with the first end-of-header marker of the buffer. -/
theorem strstr_take_header (buffer : List Char) (i : Nat)
    (h : strstr buffer ['\r', '\n', '\r', '\n'] = some i) :
    strstr (buffer.take (i + 4)) ['\r', '\n', '\r', '\n'] = some i := by
  have htake := take_header_end buffer i h
  have hin : ['\r', '\n', '\r', '\n'] <:+: buffer.take (i + 4) :=
    ⟨buffer.take i, [], by rw [htake]; simp⟩
  cases hs : strstr (buffer.take (i + 4)) ['\r', '\n', '\r', '\n'] with
  | none => exact absurd hin ((strstr_eq_none_iff _ _).mp hs)
  | some j =>
    have h2 := strstr_append _ (buffer.drop (i + 4)) _ _ hs
    rw [List.take_append_drop, h] at h2
    rw [h2]

/-- Bytes behind the end-of-header marker do not change what is parsed of a response. -/
theorem parseResponseHeader_append (header : HTTPResponseHeader) (buffer extra : List Char)
    (i : Nat) (h : strstr buffer ['\r', '\n', '\r', '\n'] = some i) :
    parseResponseHeader header (buffer ++ extra) = parseResponseHeader header buffer := by
  have hlen := (strstr_some_spec _ _ _ h).1
  simp only [List.length_cons, List.length_nil] at hlen
  simp only [parseResponseHeader, strstr_append _ _ _ _ h, h]
  rw [List.take_append_of_le_length (by omega)]

/-! ## Lemmas on the forwarding loop of `clientSession` -/

theorem closeSocket_locked (socket : Socket) : (closeSocket socket).locked = socket.locked := by
  unfold closeSocket
  split <;> rfl

/-- The loop of `sendData`, entered with the lock held, ends with -1 and the lock still
held, or with the byte count and the lock released. -/
theorem sendLoop_locked (results : List SendResult) (len total : Nat) (socket socket1 : Socket)
    (r : Int) (hl : socket.locked = true)
    (h : sendLoop results len total socket = some (r, socket1)) :
    (r = -1 ∧ socket1.locked = true) ∨ (0 ≤ r ∧ socket1.locked = false) := by
  induction results generalizing total with
  | nil =>
    simp only [sendLoop] at h
    split at h
    · simp at h
    · simp only [Option.some.injEq, Prod.mk.injEq] at h
      obtain ⟨h1, h2⟩ := h
      subst h1 h2
      exact Or.inr ⟨Int.ofNat_nonneg _, rfl⟩
  | cons result results ih =>
    simp only [sendLoop] at h
    split at h
    · cases result with
      | failed econnreset =>
        simp only [Option.some.injEq, Prod.mk.injEq] at h
        obtain ⟨h1, h2⟩ := h
        subst h1 h2
        refine Or.inl ⟨rfl, ?_⟩
        cases econnreset
        · simpa using hl
        · simpa [closeSocket_locked] using hl
      | sent n => exact ih (total + n) h
    · simp only [Option.some.injEq, Prod.mk.injEq] at h
      obtain ⟨h1, h2⟩ := h
      subst h1 h2
      exact Or.inr ⟨Int.ofNat_nonneg _, rfl⟩

/-! ## Further lemmas on the header limit of the forwarder -/

/-- The buffering block aborts only when the cache has outgrown `MAX_HEADER_SIZE`. -/
theorem bufferChunk_error_length (c : List Char) (env env1 : MidlayerCallbackEnv)
    (hb : bufferChunk c env = some (Except.error env1)) :
    MAX_HEADER_SIZE < (env.cache_buffer ++ c).length := by
  by_cases h : env.apply_filter = true
  · unfold bufferChunk at hb
    simp only [h, if_true] at hb
    split at hb
    · split at hb
      · simp at hb
      · rename_i retval resp_header hp
        split at hb
        · cases hg : shouldApplyContentFilterHeader resp_header with
          | none => simp [hg] at hb
          | some g =>
            simp only [hg, Option.map_some', Option.some.injEq] at hb
            split at hb
            · rename_i hcond
              simp at hcond
            · simp at hb
        · simp only [Option.map_some', Option.some.injEq] at hb
          split at hb
          · rename_i hcond
            simp only [Bool.and_eq_true, decide_eq_true_eq] at hcond
            exact hcond.1
          · simp at hb
    · simp at hb
  · have h0 : env.apply_filter = false := by simpa using h
    rw [bufferChunk_filter_off c env h0] at hb
    simp at hb

/-- The codes of a call of the forwarder whose buffering block does not abort. -/
theorem forwardToClient_ok_code (c : List Char) (env env1 : MidlayerCallbackEnv)
    (hb : bufferChunk c env = some (Except.ok env1)) :
    ∃ code sent env2, forwardToClient c env = some (code, sent, env2)
      ∧ (code = 0 ∨ code = 1) := by
  rw [forwardToClient_ok_eq c env env1 hb]
  by_cases hf : env1.apply_filter = false
  · by_cases hc : env1.cache_buffer = []
    · by_cases hbl : env1.block_response = true <;> simp [hf, hc, hbl]
    · by_cases hbl : env1.block_response = true <;> simp [hf, hc, hbl]
  · have hf1 : env1.apply_filter = true := by simpa using hf
    by_cases hc : c = []
    · by_cases ha : applyFilter (cstr env1.cache_buffer) = true
      · simp [hf1, hc, ha]
      · have ha0 : applyFilter (cstr env1.cache_buffer) = false := by simpa using ha
        simp [hf1, hc, ha0]
    · by_cases hbl : env1.block_response = true <;> simp [hf1, hc, hbl]

/-! ## Lemmas on the chunking of the server stream -/

/-- The C string in a buffer that is extended: it stays as it is, or the buffer holds
no NUL and the string goes on in the extension. -/
theorem cstr_append_cases (a b : List Char) :
    cstr (a ++ b) = cstr a ∨ (cstr a = a ∧ cstr (a ++ b) = a ++ cstr b) := by
  by_cases h : ∀ c ∈ a, c ≠ '\x00'
  · exact Or.inr ⟨cstr_of_no_nul a h, cstr_append_of_no_nul a b h⟩
  · left
    have hmem : '\x00' ∈ a := by
      by_contra hn
      exact h (fun c hc hc0 => hn (hc0 ▸ hc))
    obtain ⟨a1, a2, ha⟩ := List.append_of_mem hmem
    rw [ha, List.append_assoc, List.cons_append, cstr_append_nul, cstr_append_nul]

/-- The function `parseResponseHeader` always returns. -/
theorem parseResponseHeader_some (header : HTTPResponseHeader) (buffer : List Char) :
    ∃ r h, parseResponseHeader header buffer = some (r, h) := by
  rcases parseResponseHeader_cases header buffer with ⟨_, h2⟩ | ⟨_, r, h, h2, _⟩
  · exact ⟨_, _, h2⟩
  · exact ⟨r, h, h2⟩

/-- A response header that is parsed holds the end-of-header marker. -/
theorem parseResponseHeader_zero_strstr (header parsed : HTTPResponseHeader)
    (buffer : List Char) (h : parseResponseHeader header buffer = some (0, parsed)) :
    ∃ i, strstr buffer ['\r', '\n', '\r', '\n'] = some i := by
  cases hs : strstr buffer ['\r', '\n', '\r', '\n'] with
  | some i => exact ⟨i, rfl⟩
  | none =>
    simp [parseResponseHeader, hs, E_NOT_HTTP] at h

/-- A response header recognised in the cache is recognised, with the same result, in
every extension of the cache. -/
theorem parseResponseHeader_cstr_mono (a b : List Char) (parsed : HTTPResponseHeader)
    (h : parseResponseHeader initResponseHeader (cstr a) = some (0, parsed)) :
    parseResponseHeader initResponseHeader (cstr (a ++ b)) = some (0, parsed) := by
  rcases cstr_append_cases a b with h1 | ⟨h1, h2⟩
  · rw [h1]; exact h
  · rw [h1] at h
    obtain ⟨i, hi⟩ := parseResponseHeader_zero_strstr _ _ _ h
    rw [h2, parseResponseHeader_append _ _ _ i hi]
    exact h

/-- A response header recognised in a stream is recognised, with the same result, in
every start of the stream that reaches the end of the header. -/
theorem parseResponseHeader_cstr_covered (a b : List Char) (parsed : HTTPResponseHeader)
    (i : Nat)
    (h : parseResponseHeader initResponseHeader (cstr (a ++ b)) = some (0, parsed))
    (hi : strstr (cstr (a ++ b)) ['\r', '\n', '\r', '\n'] = some i)
    (hlen : i + 4 ≤ a.length) :
    parseResponseHeader initResponseHeader (cstr a) = some (0, parsed) := by
  rcases cstr_append_cases a b with h1 | ⟨h1, h2⟩
  · rw [← h1]; exact h
  · rw [h2] at h hi
    rw [h1]
    have htake := take_header_end _ i hi
    rw [List.take_append_of_le_length hlen] at htake
    have hin : ['\r', '\n', '\r', '\n'] <:+: a :=
      ⟨(a ++ cstr b).take i, a.drop (i + 4), by
        rw [← htake, List.take_append_drop]⟩
    cases hs : strstr a ['\r', '\n', '\r', '\n'] with
    | none => exact absurd hin ((strstr_eq_none_iff _ _).mp hs)
    | some j =>
      rw [parseResponseHeader_append _ _ _ j hs] at h
      exact h

theorem forwarderOutcome_no_header (stream : List Char)
    (hnot : ∀ h, parseResponseHeader initResponseHeader (cstr stream) ≠ some (0, h)) :
    forwarderOutcome stream
      = if stream.length > MAX_HEADER_SIZE then some (-1, [])
        else if applyFilter (cstr stream) then some (1, filtered_redirect_content)
        else some (0, stream) := by
  obtain ⟨r, h, hp⟩ := parseResponseHeader_some initResponseHeader (cstr stream)
  have hr : r ≠ 0 := by
    intro h0
    subst h0
    exact hnot h hp
  simp [forwarderOutcome, hp, hr]

theorem forwarderOutcome_header (stream : List Char) (parsed : HTTPResponseHeader)
    (hp : parseResponseHeader initResponseHeader (cstr stream) = some (0, parsed)) :
    forwarderOutcome stream
      = match shouldApplyContentFilterHeader parsed with
        | none => none
        | some false => some (0, stream)
        | some true =>
          if applyFilter (cstr stream) then some (1, filtered_redirect_content)
          else some (0, stream) := by
  simp [forwarderOutcome, hp]

/-- A state that has decided not to filter and holds no cached bytes passes a whole
stream through and ends with 0. -/
theorem readFromSocket_filter_off (chunks : List (List Char)) (env : MidlayerCallbackEnv)
    (hne : ∀ c ∈ chunks, c ≠ [])
    (hblock : env.block_response = false) (hf : env.apply_filter = false)
    (hc : env.cache_buffer = []) :
    readFromSocket forwardToClient (chunks.map some ++ [some []]) env
      = some (0, chunks ++ [[]], env) := by
  induction chunks with
  | nil =>
    simp [readFromSocket, forwardToClient_filter_off [] env hblock hf hc]
  | cons c cs ih =>
    have hc1 : c ≠ [] := hne c (List.mem_cons_self _ _)
    rw [List.map_cons, List.cons_append,
      readFromSocket_cons_zero _ c _ env env [c] hc1
        (forwardToClient_filter_off c env hblock hf hc),
      ih (fun x hx => hne x (List.mem_cons_of_mem _ hx))]
    rfl

/-- The end of the stream in a filter-armed state that has recognised the header. -/
theorem readFromSocket_eof_header (env : MidlayerCallbackEnv)
    (hf : env.apply_filter = true) (hh : env.have_header = true) :
    (readFromSocket forwardToClient [some []] env).map (fun r => (r.1, r.2.1.flatten))
      = if applyFilter (cstr env.cache_buffer) then some (1, filtered_redirect_content)
        else some (0, env.cache_buffer) := by
  have hb := bufferChunk_have_header [] env hf hh
  rw [List.append_nil] at hb
  have hfw := forwardToClient_ok_eq [] env _ hb
  by_cases ha : applyFilter (cstr env.cache_buffer) = true
  · simp [hf, ha] at hfw
    simp [readFromSocket, hfw, ha]
  · have ha0 : applyFilter (cstr env.cache_buffer) = false := by simpa using ha
    simp [hf, ha0] at hfw
    simp [readFromSocket, hfw, ha0]

/-- The end of the stream in a filter-armed state that has recognised no header. -/
theorem readFromSocket_eof_no_header (env : MidlayerCallbackEnv)
    (hf : env.apply_filter = true) (hh : env.have_header = false)
    (hlen : env.cache_buffer.length ≤ MAX_HEADER_SIZE)
    (hnot : ∀ h, parseResponseHeader initResponseHeader (cstr env.cache_buffer)
      ≠ some (0, h)) :
    (readFromSocket forwardToClient [some []] env).map (fun r => (r.1, r.2.1.flatten))
      = if applyFilter (cstr env.cache_buffer) then some (1, filtered_redirect_content)
        else some (0, env.cache_buffer) := by
  obtain ⟨r, h, hp⟩ := parseResponseHeader_some initResponseHeader (cstr env.cache_buffer)
  have hr : r ≠ 0 := by
    intro h0
    subst h0
    exact hnot h hp
  have hb := bufferChunk_not_recognised [] env r h hf hh
    (by rw [List.append_nil]; exact hp) hr (by rw [List.append_nil]; exact hlen)
  rw [List.append_nil] at hb
  have hfw := forwardToClient_ok_eq [] env _ hb
  by_cases ha : applyFilter (cstr env.cache_buffer) = true
  · simp [hf, ha] at hfw
    simp [readFromSocket, hfw, ha]
  · have ha0 : applyFilter (cstr env.cache_buffer) = false := by simpa using ha
    simp [hf, ha0] at hfw
    simp [readFromSocket, hfw, ha0]

/-- The read loop on a chunked stream, from a filter-armed state that has cached a
start of the stream without recognising a header: as long as a header that the whole
stream holds ends within `MAX_HEADER_SIZE` bytes, the outcome is that of the whole
stream. -/
theorem readFromSocket_outcome (chunks : List (List Char)) (env : MidlayerCallbackEnv)
    (stream : List Char)
    (hne : ∀ c ∈ chunks, c ≠ [])
    (hblock : env.block_response = false) (hf : env.apply_filter = true)
    (hh : env.have_header = false)
    (hstream : stream = env.cache_buffer ++ chunks.flatten)
    (hlen : env.cache_buffer.length ≤ MAX_HEADER_SIZE)
    (hnot : ∀ h, parseResponseHeader initResponseHeader (cstr env.cache_buffer)
      ≠ some (0, h))
    (hhdr : ∀ i h, strstr (cstr stream) ['\r', '\n', '\r', '\n'] = some i →
      parseResponseHeader initResponseHeader (cstr stream) = some (0, h) →
      i + 4 ≤ MAX_HEADER_SIZE) :
    (readFromSocket forwardToClient (chunks.map some ++ [some []]) env).map
        (fun r => (r.1, r.2.1.flatten))
      = forwarderOutcome stream := by
  induction chunks generalizing env with
  | nil =>
    simp only [List.flatten_nil, List.append_nil] at hstream
    subst hstream
    rw [List.map_nil, List.nil_append, readFromSocket_eof_no_header env hf hh hlen hnot,
      forwarderOutcome_no_header _ hnot]
    have : ¬ (env.cache_buffer.length > MAX_HEADER_SIZE) := by omega
    rw [if_neg this]
  | cons c cs ih =>
    have hc : c ≠ [] := hne c (List.mem_cons_self _ _)
    have hcs : ∀ x ∈ cs, x ≠ [] := fun x hx => hne x (List.mem_cons_of_mem _ hx)
    have hstream1 : stream = (env.cache_buffer ++ c) ++ cs.flatten := by
      rw [hstream, List.flatten_cons, List.append_assoc]
    obtain ⟨r, h, hp⟩ :=
      parseResponseHeader_some initResponseHeader (cstr (env.cache_buffer ++ c))
    by_cases hr : r = 0
    · -- the header is recognised with this chunk
      subst hr
      have hps : parseResponseHeader initResponseHeader (cstr stream) = some (0, h) := by
        rw [hstream1]
        exact parseResponseHeader_cstr_mono _ _ _ hp
      rw [forwarderOutcome_header stream h hps]
      cases hg : shouldApplyContentFilterHeader h with
      | none =>
        have hb : bufferChunk c env = none := by
          simp [bufferChunk, hf, hh, hp, hg]
        simp [readFromSocket, forwardToClient, hb]
      | some gate =>
        have hb := bufferChunk_recognised c env h gate hf hh hp hg
        cases gate with
        | false =>
          have hfw := forwardToClient_of_bufferChunk c env _ hb hblock
          have hx : env.cache_buffer ++ c ≠ [] := by
            intro h0
            exact hc (List.append_eq_nil.mp h0).2
          simp only [if_true, if_neg hx] at hfw
          rw [List.map_cons, List.cons_append,
            readFromSocket_cons_zero _ c _ env _ _ hc hfw,
            readFromSocket_filter_off cs
              { env with cache_buffer := [], have_header := true, apply_filter := false }
              hcs hblock rfl rfl]
          simp [hstream1]
        | true =>
          have hfw := forwardToClient_caching c env _ hb hblock rfl hc
          rw [List.map_cons, List.cons_append,
            readFromSocket_cons_zero _ c _ env _ _ hc hfw,
            readFromSocket_caching cs [some []]
              { env with cache_buffer := env.cache_buffer ++ c, have_header := true,
                         apply_filter := true }
              hcs hblock rfl rfl]
          have hend := readFromSocket_eof_header
            { env with cache_buffer := env.cache_buffer ++ c ++ cs.flatten,
                       have_header := true, apply_filter := true } rfl rfl
          simp only [← hstream1] at hend
          rw [← hstream1]
          refine Eq.trans ?_ hend
          cases readFromSocket forwardToClient [some []]
            { env with cache_buffer := stream,
                       have_header := true, apply_filter := true } <;> simp
    · have hnot1 : ∀ h1, parseResponseHeader initResponseHeader
          (cstr (env.cache_buffer ++ c)) ≠ some (0, h1) := by
        intro h1 hp1
        rw [hp] at hp1
        simp only [Option.some.injEq, Prod.mk.injEq] at hp1
        exact hr hp1.1
      by_cases hl : (env.cache_buffer ++ c).length ≤ MAX_HEADER_SIZE
      · -- the chunk is cached
        have hb := bufferChunk_not_recognised c env r h hf hh hp hr hl
        have hfw := forwardToClient_caching c env _ hb hblock hf hc
        rw [List.map_cons, List.cons_append,
          readFromSocket_cons_zero _ c _ env _ _ hc hfw]
        rw [← ih { env with cache_buffer := env.cache_buffer ++ c } hcs hblock hf hh
          hstream1 hl hnot1]
        cases readFromSocket forwardToClient (cs.map some ++ [some []])
          { env with cache_buffer := env.cache_buffer ++ c } <;> simp
      · -- the cache overflows
        have hl1 : MAX_HEADER_SIZE < (env.cache_buffer ++ c).length := by omega
        have hb := bufferChunk_abort c env r h hf hh hp hr hl1
        have hnots : ∀ h1, parseResponseHeader initResponseHeader (cstr stream)
            ≠ some (0, h1) := by
          intro h1 hp1
          obtain ⟨i, hi⟩ := parseResponseHeader_zero_strstr _ _ _ hp1
          have hle := hhdr i h1 hi hp1
          rw [hstream1] at hp1 hi
          exact hnot1 h1
            (parseResponseHeader_cstr_covered _ _ h1 i hp1 hi (by omega))
        rw [forwarderOutcome_no_header stream hnots]
        have hlong : stream.length > MAX_HEADER_SIZE := by
          rw [hstream1, List.length_append]
          omega
        rw [if_pos hlong]
        simp [readFromSocket, forwardToClient, hb]

/-! ### A response header that ends beyond `MAX_HEADER_SIZE` -/

theorem lateHeaderStream_eq (n : Nat) :
    lateHeaderStream n
      = (List.replicate n 'a' ++ ['b']) ++ '\r' :: '\n' :: "HTTP/1.1 200 OK\r\n\r\n".toList := by
  simp [lateHeaderStream]

theorem lateHeaderStream_length (n : Nat) : (lateHeaderStream n).length = n + 22 := by
  simp [lateHeaderStream]

theorem lateHeaderStream_cstr (n : Nat) : cstr (lateHeaderStream n) = lateHeaderStream n := by
  apply cstr_of_no_nul
  intro c hc
  simp only [lateHeaderStream, List.mem_append, List.mem_replicate] at hc
  rcases hc with ⟨_, hc⟩ | hc
  · rw [hc]; decide
  · revert c; decide

theorem lateHeaderStream_line (n : Nat) :
    ∀ c ∈ List.replicate n 'a' ++ ['b'], c ≠ '\n' ∧ c ≠ ':' ∧ c ≠ '\r' := by
  intro c hc
  simp only [List.mem_append, List.mem_replicate, List.mem_singleton] at hc
  rcases hc with ⟨_, hc⟩ | hc <;> rw [hc] <;> decide

/-- The stream `lateHeaderStream n` is parsed as the response header `HTTP/1.1 200 OK`
without fields. -/
theorem lateHeaderStream_parse (n : Nat) :
    parseResponseHeader initResponseHeader (cstr (lateHeaderStream n))
      = some (0, { response_info := { http_version := some "1.1".toList,
                                      status_code := some "200".toList,
                                      reason := some "OK".toList },
                   fields := [] }) := by
  have hline := lateHeaderStream_line n
  have hstr : strstr (lateHeaderStream n) ['\r', '\n', '\r', '\n'] = some (n + 18) := by
    rw [lateHeaderStream_eq, strstr_skip_line _ _ (fun c hc => (hline c hc).1)]
    have h17 : strstr ('\r' :: '\n' :: "HTTP/1.1 200 OK\r\n\r\n".toList) ['\r', '\n', '\r', '\n']
        = some 17 := by decide
    rw [h17]
    simp only [Option.map_some', List.length_append, List.length_replicate,
      List.length_singleton, Option.some.injEq]
    omega
  have htake : (lateHeaderStream n).take (n + 18 + 4) = lateHeaderStream n :=
    List.take_of_length_le (by rw [lateHeaderStream_length])
  have hm1 : matchResponseLine ((List.replicate n 'a' ++ ['b'])
      ++ '\r' :: '\n' :: "HTTP/1.1 200 OK\r\n\r\n".toList) = none := by
    cases n with
    | zero => decide
    | succ k => simp [matchResponseLine, List.replicate]
  have hre1 : regexec matchResponseLine (lateHeaderStream n)
      = some ("1.1".toList, "200".toList, "OK".toList) := by
    rw [lateHeaderStream_eq, regexec,
      regexecBol_skip_line _ _ _ (fun c hc => (hline c hc).1) hm1]
    decide
  have hm2 : matchField ((List.replicate n 'a' ++ ['b'])
      ++ '\r' :: '\n' :: "HTTP/1.1 200 OK\r\n\r\n".toList) = none := by
    apply matchField_none_of_line
    intro k x _ h
    have hmem : ':' ∈ List.replicate n 'a' ++ ['b'] := by
      rw [h]
      simp
    exact (hline ':' hmem).2.1 rfl
  have hre2 : regexec matchField (lateHeaderStream n) = none := by
    rw [lateHeaderStream_eq, regexec,
      regexecBol_skip_line _ _ _ (fun c hc => (hline c hc).1) hm2]
    decide
  have hfields : parseFields [] (lateHeaderStream n) = some (0, []) := by
    simp only [parseFields, parseFieldsLoop, hre2, Option.map_some']
  rw [lateHeaderStream_cstr]
  simp only [parseResponseHeader, hstr, htake, parseResponseLine, hre1, initResponseHeader,
    hfields]
  simp
  exact hfields

/-- The letters `a` are cached by the initial state of the forwarder. -/
theorem forwardToClient_letters (n : Nat) (h1 : 0 < n) (h2 : n ≤ MAX_HEADER_SIZE) :
    forwardToClient (List.replicate n 'a') initMidlayerCallbackEnv
      = some (0, [],
          { call_counter := 0, cache_buffer := List.replicate n 'a',
            have_header := false, block_response := false, apply_filter := true }) := by
  have hno : ¬ ['\r', '\n', '\r', '\n'] <:+: cstr (List.replicate n 'a') := by
    intro hin
    have h3 : '\r' ∈ cstr (List.replicate n 'a') := hin.subset (by simp)
    have h4 : '\r' ∈ List.replicate n 'a' := ( List.takeWhile_prefix _).subset h3
    simp only [List.mem_replicate] at h4
    exact absurd h4.2 (by decide)
  have hparse : parseResponseHeader initResponseHeader
      (cstr (initMidlayerCallbackEnv.cache_buffer ++ List.replicate n 'a'))
      = some (E_NOT_HTTP, initResponseHeader) := by
    rcases parseResponseHeader_cases initResponseHeader (cstr (List.replicate n 'a'))
      with ⟨_, h5⟩ | ⟨h5, _⟩
    · exact h5
    · exact absurd h5 hno
  have hb := bufferChunk_not_recognised (List.replicate n 'a') initMidlayerCallbackEnv
    E_NOT_HTTP initResponseHeader rfl rfl hparse (by decide)
    (by
      show (List.replicate n 'a').length ≤ MAX_HEADER_SIZE
      rw [List.length_replicate]
      exact h2)
  have hne : List.replicate n 'a' ≠ [] := by
    intro h0
    have := congrArg List.length h0
    simp only [List.length_replicate, List.length_nil] at this
    omega
  exact forwardToClient_caching _ _ _ hb rfl rfl hne

/-- The stream `lateHeaderStream n`, split behind the letters `a`, is delivered whole:
the header is recognised with the second chunk. -/
theorem readFromSocket_late_header (n : Nat) (h1 : 0 < n) (h2 : n ≤ MAX_HEADER_SIZE) :
    (readFromSocket forwardToClient
        ([List.replicate n 'a', "b\r\nHTTP/1.1 200 OK\r\n\r\n".toList].map some ++ [some []])
        initMidlayerCallbackEnv).map (fun r => (r.1, r.2.1.flatten))
      = some (0, lateHeaderStream n) := by
  have hne : List.replicate n 'a' ≠ [] := by
    intro h0
    have := congrArg List.length h0
    simp only [List.length_replicate, List.length_nil] at this
    omega
  have hb := bufferChunk_recognised "b\r\nHTTP/1.1 200 OK\r\n\r\n".toList
    { call_counter := 0, cache_buffer := List.replicate n 'a',
      have_header := false, block_response := false, apply_filter := true }
    _ false rfl rfl (lateHeaderStream_parse n) (by decide)
  have hfw := forwardToClient_of_bufferChunk _ _ _ hb rfl
  have hx : List.replicate n 'a' ++ "b\r\nHTTP/1.1 200 OK\r\n\r\n".toList ≠ [] := by
    intro h0
    exact hne (List.append_eq_nil.mp h0).1
  simp only [if_true, if_neg hx] at hfw
  rw [List.map_cons, List.cons_append,
    readFromSocket_cons_zero _ _ _ _ _ _ hne (forwardToClient_letters n h1 h2),
    List.map_cons, List.cons_append,
    readFromSocket_cons_zero _ _ _ _ _ _ (by decide) hfw]
  have hoff := readFromSocket_filter_off []
    { call_counter := 0, cache_buffer := [],
      have_header := true, block_response := false, apply_filter := false }
    (by simp) rfl rfl rfl
  simp only [List.map_nil, List.nil_append] at hoff ⊢
  rw [hoff]
  simp [lateHeaderStream]

/-- The stream `lateHeaderStream n`, `n` being `MAX_HEADER_SIZE`, split behind the
letters `a` and again behind the letter `b`, is discarded: the cache overflows before
the header is recognised. -/
theorem readFromSocket_late_split (n : Nat) (h1 : 0 < n) (h2 : n = MAX_HEADER_SIZE) :
    (readFromSocket forwardToClient
        ([List.replicate n 'a', ['b'], "\r\nHTTP/1.1 200 OK\r\n\r\n".toList].map some
          ++ [some []])
        initMidlayerCallbackEnv).map (fun r => (r.1, r.2.1.flatten))
      = some (-1, []) := by
  have hne : List.replicate n 'a' ≠ [] := by
    intro h0
    have := congrArg List.length h0
    simp only [List.length_replicate, List.length_nil] at this
    omega
  rw [List.map_cons, List.cons_append,
    readFromSocket_cons_zero _ _ _ _ _ _ hne (forwardToClient_letters n h1 (by omega))]
  simp [readFromSocket, forwardToClient_overflow n (by omega)]

/-! ## The claims C31 to C39 -/

/-- C32: the header limit of the forwarder.  For every filter-armed state without a
recognised header and every chunk: if the cache with the chunk appended is longer than
`MAX_HEADER_SIZE` and `parseResponseHeader` does not return 0 on it, `forwardToClient`
returns -1, sends nothing to the client and discards the cache; if the cache with the
chunk appended is at most `MAX_HEADER_SIZE` long, no result of the call has code -1, and
when no header is parsed the call returns with code 0 or 1. -/
theorem forwardToClient_header_limit (chunk : List Char) (env : MidlayerCallbackEnv)
    (hf : env.apply_filter = true) (hh : env.have_header = false) :
    ((∀ h, parseResponseHeader initResponseHeader (cstr (env.cache_buffer ++ chunk))
          ≠ some (0, h)) →
        MAX_HEADER_SIZE < (env.cache_buffer ++ chunk).length →
        forwardToClient chunk env = some (-1, [], { env with cache_buffer := [] }))
      ∧ ((env.cache_buffer ++ chunk).length ≤ MAX_HEADER_SIZE →
          ∀ r, forwardToClient chunk env = some r → r.1 ≠ -1)
      ∧ ((∀ h, parseResponseHeader initResponseHeader (cstr (env.cache_buffer ++ chunk))
            ≠ some (0, h)) →
          (env.cache_buffer ++ chunk).length ≤ MAX_HEADER_SIZE →
          ∃ code sent env1, forwardToClient chunk env = some (code, sent, env1)
            ∧ (code = 0 ∨ code = 1)) := by
  have hparse : (∀ h, parseResponseHeader initResponseHeader (cstr (env.cache_buffer ++ chunk))
      ≠ some (0, h)) →
      ∃ r h, parseResponseHeader initResponseHeader (cstr (env.cache_buffer ++ chunk))
        = some (r, h) ∧ r ≠ 0 := by
    intro hnot
    rcases parseResponseHeader_cases initResponseHeader (cstr (env.cache_buffer ++ chunk))
      with ⟨_, h2⟩ | ⟨_, r, h, h2, _⟩
    · exact ⟨_, _, h2, by decide⟩
    · refine ⟨r, h, h2, ?_⟩
      intro h0
      subst h0
      exact hnot h h2
  refine ⟨?_, ?_, ?_⟩
  · intro hnot hlen
    obtain ⟨r, h, hp, hr⟩ := hparse hnot
    have hb := bufferChunk_abort chunk env r h hf hh hp hr hlen
    simp only [forwardToClient, hb]
  · intro hlen r hr
    cases hb : bufferChunk chunk env with
    | none => simp [forwardToClient, hb] at hr
    | some res =>
      cases res with
      | error e =>
        have := bufferChunk_error_length chunk env e hb
        omega
      | ok env1 =>
        obtain ⟨code, sent, env2, h1, h2⟩ := forwardToClient_ok_code chunk env env1 hb
        rw [h1] at hr
        simp only [Option.some.injEq] at hr
        subst hr
        rcases h2 with h2 | h2 <;> simp [h2]
  · intro hnot hlen
    obtain ⟨r, h, hp, hr⟩ := hparse hnot
    exact forwardToClient_ok_code chunk env _
      (bufferChunk_not_recognised chunk env r h hf hh hp hr hlen)

/-- Witness for C32: the first chunk `HTTP/1.1 200 OK CRLF` of a response, which does
not yet hold a whole header, in the initial state. -/
theorem forwardToClient_header_limit_witness :
    ((∀ h, parseResponseHeader initResponseHeader
          (cstr (initMidlayerCallbackEnv.cache_buffer ++ "HTTP/1.1 200 OK\r\n".toList))
          ≠ some (0, h)) →
        MAX_HEADER_SIZE
          < (initMidlayerCallbackEnv.cache_buffer ++ "HTTP/1.1 200 OK\r\n".toList).length →
        forwardToClient "HTTP/1.1 200 OK\r\n".toList initMidlayerCallbackEnv
          = some (-1, [], { initMidlayerCallbackEnv with cache_buffer := [] }))
      ∧ ((initMidlayerCallbackEnv.cache_buffer ++ "HTTP/1.1 200 OK\r\n".toList).length
            ≤ MAX_HEADER_SIZE →
          ∀ r, forwardToClient "HTTP/1.1 200 OK\r\n".toList initMidlayerCallbackEnv = some r →
            r.1 ≠ -1)
      ∧ ((∀ h, parseResponseHeader initResponseHeader
            (cstr (initMidlayerCallbackEnv.cache_buffer ++ "HTTP/1.1 200 OK\r\n".toList))
            ≠ some (0, h)) →
          (initMidlayerCallbackEnv.cache_buffer ++ "HTTP/1.1 200 OK\r\n".toList).length
            ≤ MAX_HEADER_SIZE →
          ∃ code sent env1,
            forwardToClient "HTTP/1.1 200 OK\r\n".toList initMidlayerCallbackEnv
              = some (code, sent, env1)
            ∧ (code = 0 ∨ code = 1)) :=
  forwardToClient_header_limit "HTTP/1.1 200 OK\r\n".toList initMidlayerCallbackEnv rfl rfl

/-- C33 (the code at the failing input, and in general): `shouldApplyContentFilterHeader`
has no defined result exactly for a response header with a `Content-Encoding` field and
no `Content-Type` field, where `strstr` is called on the `NULL` value; such a header
reaches it from `forwardToClient` as soon as the response header is recognised. -/
theorem shouldApplyContentFilterHeader_null :
    shouldApplyContentFilterHeader
        { response_info := initResponseHeader.response_info,
          fields := [ { key := "Content-Encoding".toList, key_length := 16,
                        value := "gzip".toList, value_length := 4 } ] } = none
      ∧ (∀ resp_header : HTTPResponseHeader,
          shouldApplyContentFilterHeader resp_header = none
            ↔ (getValue resp_header.fields "Content-Encoding".toList ≠ none
                ∧ getValue resp_header.fields "Content-Type".toList = none))
      ∧ forwardToClient "HTTP/1.1 200 OK\r\nContent-Encoding: gzip\r\n\r\n".toList
          initMidlayerCallbackEnv = none := by
  refine ⟨by decide, ?_, by decide⟩
  intro resp_header
  unfold shouldApplyContentFilterHeader
  cases hce : getValue resp_header.fields "Content-Encoding".toList with
  | none => simp
  | some e =>
    cases hct : getValue resp_header.fields "Content-Type".toList with
    | none => simp
    | some t => simp

/-- C34 (the code at the failing input, and in general): for the target `http://x:80/`,
the hostname `x` and the port `8080`, `extractResource` returns the offset 13, one past
the end of the 12 bytes of the target, so the rewriting step of the session on
`GET http://x:80/ HTTP/1.1` with `Host: x:8080` reads behind the target.  In general the
offset returned is at most the length of the target plus the length of the port. -/
theorem extractResource_past_end :
    extractResource "http://x:80/".toList "x".toList "8080".toList = 13
      ∧ "http://x:80/".toList.length = 12
      ∧ modifyRequest
          { request_info := { req_type := some "GET".toList,
                              resource := some "http://x:80/".toList,
                              http_version := some "1.1".toList },
            fields := [] }
          "x".toList "8080".toList = none
      ∧ clientSession
          [RecvResult.data "GET http://x:80/ HTTP/1.1\r\nHost: x:8080\r\n\r\n".toList] true
        = none
      ∧ (∀ resource hostname port : List Char,
          extractResource resource hostname port ≤ resource.length + port.length) := by
  refine ⟨by decide, by decide, by decide, by decide, ?_⟩
  intro resource hostname port
  unfold extractResource
  cases hs : strstr resource hostname with
  | none => simp
  | some host_off =>
    have hspec := (strstr_some_spec _ _ _ hs).1
    simp only [strlen]
    split
    · rename_i hsp
      simp only [Bool.and_eq_true, beq_iff_eq] at hsp
      have hcolon := hsp.1.2
      have hlt : host_off + hostname.length < resource.length := by
        by_contra hge
        have hge2 : resource.length ≤ host_off + hostname.length := Nat.le_of_not_lt hge
        rw [List.getD_eq_default _ _ hge2] at hcolon
        revert hcolon
        decide
      omega
    · split
      · omega
      · omega

/-- C35 (the code at the failing input): for the client buffer
`GET /a: HTTP/1.1 CRLF Host: x CRLF CRLF` the request header is recognised with 29 bytes
received, and `requestHeaderLength` of the parsed header, in which the start line is
also stored as a field, is 47: `received_bytes - header_len_pre_modifcation` underflows,
and the session has no defined result. -/
theorem clientSession_length_underflow :
    headerLoop [RecvResult.data ("GET /a: HTTP/1.1\r\nHost: x\r\n\r\n".toList ++ [])]
        initHeaderLoopState
      = some (HeaderLoopResult.found
          (headerState ("GET /a: HTTP/1.1\r\nHost: x\r\n\r\n".toList ++ [])
            { request_info := { req_type := some "GET".toList,
                                resource := some "/a:".toList,
                                http_version := some "1.1".toList },
              fields := [ { key := "GET /a".toList, key_length := 6,
                            value := "HTTP/1.1".toList, value_length := 8 },
                          { key := "Host".toList, key_length := 4,
                            value := "x".toList, value_length := 1 } ] }
            (some "x".toList) (some "80".toList)) [])
      ∧ (headerState ("GET /a: HTTP/1.1\r\nHost: x\r\n\r\n".toList ++ [])
            { request_info := { req_type := some "GET".toList,
                                resource := some "/a:".toList,
                                http_version := some "1.1".toList },
              fields := [ { key := "GET /a".toList, key_length := 6,
                            value := "HTTP/1.1".toList, value_length := 8 },
                          { key := "Host".toList, key_length := 4,
                            value := "x".toList, value_length := 1 } ] }
            (some "x".toList) (some "80".toList)).received_bytes = 29
      ∧ requestHeaderLength
          { request_info := { req_type := some "GET".toList,
                              resource := some "/a:".toList,
                              http_version := some "1.1".toList },
            fields := [ { key := "GET /a".toList, key_length := 6,
                          value := "HTTP/1.1".toList, value_length := 8 },
                        { key := "Host".toList, key_length := 4,
                          value := "x".toList, value_length := 1 } ] } = some 47
      ∧ clientSession [RecvResult.data "GET /a: HTTP/1.1\r\nHost: x\r\n\r\n".toList] true
          = none :=
  ⟨headerLoop_single_read "GET /a: HTTP/1.1\r\nHost: x\r\n\r\n".toList [] [] _ _ _
      (by decide) (by decide) (by decide) (by decide),
    by decide, by decide, by decide⟩

/-- C36: `parseFields` terminates on every buffer.  Each match of the field pattern
leaves, as the text for the next search, an end of the text searched that is shorter by
at least two bytes; so the loop ends after at most half as many matches as the buffer
has bytes, whatever number of iterations beyond that is allowed, returns 0, and appends
at most that many fields. -/
theorem parseFields_terminates (fields : KeyValueArray) (buffer : List Char) :
    (∃ fs, parseFields fields buffer = some (0, fields ++ fs)
        ∧ 2 * fs.length ≤ buffer.length)
      ∧ (∀ s key value rest, regexec matchField s = some (key, value, rest) →
          rest.length + 2 ≤ s.length ∧ rest <:+ s)
      ∧ (∀ fuel, buffer.length < 2 * fuel →
          ∃ fs, parseFieldsLoop fuel fields buffer = some (fields ++ fs)
            ∧ 2 * fs.length ≤ buffer.length) := by
  refine ⟨?_, ?_, ?_⟩
  · obtain ⟨fs, hfs, hb⟩ := parseFieldsLoop_bound (buffer.length + 1) fields buffer
      (by omega)
    exact ⟨fs, by simp [parseFields, hfs], hb⟩
  · intro s key value rest h
    exact ⟨regexec_matchField_length s key value rest h,
      regexec_matchField_suffix s key value rest h⟩
  · intro fuel hfuel
    exact parseFieldsLoop_bound fuel fields buffer hfuel

/-- C37: bytes behind the header do not influence parsing.  For every buffer `b` whose
first end-of-header marker is at offset `i` and every string `x`, `parseRequestHeader`
on `b ++ x` returns the same code and the same header record as on the first `i + 4`
bytes of `b`, and so does `parseResponseHeader`. -/
theorem parse_ignores_trailing_bytes (b x : List Char) (i : Nat)
    (request_header : HTTPRequestHeader) (response_header : HTTPResponseHeader)
    (hend : strstr b ['\r', '\n', '\r', '\n'] = some i) :
    parseRequestHeader request_header (b ++ x)
        = parseRequestHeader request_header (b.take (i + 4))
      ∧ parseResponseHeader response_header (b ++ x)
        = parseResponseHeader response_header (b.take (i + 4)) := by
  have ht := strstr_take_header b i hend
  have hsplit : b ++ x = b.take (i + 4) ++ (b.drop (i + 4) ++ x) := by
    rw [← List.append_assoc, List.take_append_drop]
  rw [hsplit]
  exact ⟨parseRequestHeader_append _ _ _ _ ht, parseResponseHeader_append _ _ _ _ ht⟩

/-- Witness for C37: the request `GET / HTTP/1.1` with `Host: x`, followed in the buffer
by `BODY` and then by `more`. -/
theorem parse_ignores_trailing_bytes_witness :
    parseRequestHeader initRequestHeader
        ("GET / HTTP/1.1\r\nHost: x\r\n\r\nBODY".toList ++ "more".toList)
        = parseRequestHeader initRequestHeader
            ("GET / HTTP/1.1\r\nHost: x\r\n\r\nBODY".toList.take (23 + 4))
      ∧ parseResponseHeader initResponseHeader
          ("GET / HTTP/1.1\r\nHost: x\r\n\r\nBODY".toList ++ "more".toList)
        = parseResponseHeader initResponseHeader
            ("GET / HTTP/1.1\r\nHost: x\r\n\r\nBODY".toList.take (23 + 4)) :=
  parse_ignores_trailing_bytes "GET / HTTP/1.1\r\nHost: x\r\n\r\nBODY".toList "more".toList 23
    initRequestHeader initResponseHeader (by decide)

/-- C38 (as amended): chunking independence of the forwarder for streams whose response
header, if the whole stream holds one that is parsed, ends within `MAX_HEADER_SIZE`
bytes.  For two splittings of such a stream into non-empty chunks, each followed by the
end of the stream, the read loop with `forwardToClient` from the initial state ends
with the same code and has delivered the same bytes to the client; both are those of
`forwarderOutcome` on the whole stream, which is undefined only when the gate reads the
`NULL` value of an absent `Content-Type`. -/
theorem forwardToClient_chunking (chunks1 chunks2 : List (List Char))
    (hsame : chunks1.flatten = chunks2.flatten)
    (hne1 : ∀ c ∈ chunks1, c ≠ []) (hne2 : ∀ c ∈ chunks2, c ≠ [])
    (hhdr : ∀ i h, strstr (cstr chunks1.flatten) ['\r', '\n', '\r', '\n'] = some i →
      parseResponseHeader initResponseHeader (cstr chunks1.flatten) = some (0, h) →
      i + 4 ≤ MAX_HEADER_SIZE) :
    (readFromSocket forwardToClient (chunks1.map some ++ [some []])
          initMidlayerCallbackEnv).map (fun r => (r.1, r.2.1.flatten))
        = (readFromSocket forwardToClient (chunks2.map some ++ [some []])
            initMidlayerCallbackEnv).map (fun r => (r.1, r.2.1.flatten))
      ∧ (readFromSocket forwardToClient (chunks1.map some ++ [some []])
            initMidlayerCallbackEnv).map (fun r => (r.1, r.2.1.flatten))
          = forwarderOutcome chunks1.flatten
      ∧ (forwarderOutcome chunks1.flatten = none
          ↔ ∃ h, parseResponseHeader initResponseHeader (cstr chunks1.flatten) = some (0, h)
              ∧ shouldApplyContentFilterHeader h = none) := by
  have hinit : ∀ h, parseResponseHeader initResponseHeader
      (cstr initMidlayerCallbackEnv.cache_buffer) ≠ some (0, h) := by
    intro h hc
    have hp0 : parseResponseHeader initResponseHeader
        (cstr initMidlayerCallbackEnv.cache_buffer)
        = some (E_NOT_HTTP, initResponseHeader) := by decide
    rw [hp0] at hc
    simp [E_NOT_HTTP] at hc
  have h1 := readFromSocket_outcome chunks1 initMidlayerCallbackEnv chunks1.flatten hne1
    rfl rfl rfl rfl (by decide) hinit hhdr
  have h2 := readFromSocket_outcome chunks2 initMidlayerCallbackEnv chunks1.flatten hne2
    rfl rfl rfl hsame (by decide) hinit hhdr
  refine ⟨by rw [h1, h2], h1, ?_⟩
  obtain ⟨r, h, hp⟩ := parseResponseHeader_some initResponseHeader (cstr chunks1.flatten)
  by_cases hr : r = 0
  · subst hr
    rw [forwarderOutcome_header _ h hp]
    constructor
    · intro hnone
      refine ⟨h, hp, ?_⟩
      cases hg : shouldApplyContentFilterHeader h with
      | none => rfl
      | some g =>
        rw [hg] at hnone
        cases g
        · simp at hnone
        · by_cases ha : applyFilter (cstr chunks1.flatten) = true <;> simp [ha] at hnone
    · rintro ⟨h3, hp3, hg⟩
      rw [hp] at hp3
      simp only [Option.some.injEq, Prod.mk.injEq, true_and] at hp3
      subst hp3
      rw [hg]
  · have hnot : ∀ h3, parseResponseHeader initResponseHeader (cstr chunks1.flatten)
        ≠ some (0, h3) := by
      intro h3 hp3
      rw [hp] at hp3
      simp only [Option.some.injEq, Prod.mk.injEq] at hp3
      exact hr hp3.1
    rw [forwarderOutcome_no_header _ hnot]
    constructor
    · intro hnone
      by_cases hl : chunks1.flatten.length > MAX_HEADER_SIZE
      · rw [if_pos hl] at hnone
        simp at hnone
      · rw [if_neg hl] at hnone
        by_cases ha : applyFilter (cstr chunks1.flatten) = true
        · rw [if_pos ha] at hnone
          simp at hnone
        · rw [if_neg ha] at hnone
          simp at hnone
    · rintro ⟨h3, hp3, _⟩
      exact absurd hp3 (hnot h3)

/-- Witness for C38: the response `HTTP/1.1 200 OK` with `Content-Type: text/html` and
the body `hello`, split once inside the body and once inside the header. -/
theorem forwardToClient_chunking_witness :
    (readFromSocket forwardToClient
          (["HTTP/1.1 200 OK\r\nContent-Type: text/html\r\n\r\nhel".toList, "lo".toList].map
            some ++ [some []])
          initMidlayerCallbackEnv).map (fun r => (r.1, r.2.1.flatten))
        = (readFromSocket forwardToClient
            (["HTTP/1.1 200 OK\r\nContent-".toList,
              "Type: text/html\r\n\r\nhello".toList].map some ++ [some []])
            initMidlayerCallbackEnv).map (fun r => (r.1, r.2.1.flatten))
      ∧ (readFromSocket forwardToClient
            (["HTTP/1.1 200 OK\r\nContent-Type: text/html\r\n\r\nhel".toList,
              "lo".toList].map some ++ [some []])
            initMidlayerCallbackEnv).map (fun r => (r.1, r.2.1.flatten))
          = forwarderOutcome
              ["HTTP/1.1 200 OK\r\nContent-Type: text/html\r\n\r\nhel".toList,
                "lo".toList].flatten
      ∧ (forwarderOutcome
            ["HTTP/1.1 200 OK\r\nContent-Type: text/html\r\n\r\nhel".toList,
              "lo".toList].flatten = none
          ↔ ∃ h, parseResponseHeader initResponseHeader
                (cstr ["HTTP/1.1 200 OK\r\nContent-Type: text/html\r\n\r\nhel".toList,
                  "lo".toList].flatten) = some (0, h)
              ∧ shouldApplyContentFilterHeader h = none) :=
  forwardToClient_chunking
    ["HTTP/1.1 200 OK\r\nContent-Type: text/html\r\n\r\nhel".toList, "lo".toList]
    ["HTTP/1.1 200 OK\r\nContent-".toList, "Type: text/html\r\n\r\nhello".toList]
    (by decide) (by decide) (by decide)
    (fun i _ hi _ =>
      Nat.le_trans (strstr_some_spec _ _ i hi).1
        (by decide :
          (cstr ["HTTP/1.1 200 OK\r\nContent-Type: text/html\r\n\r\nhel".toList,
            "lo".toList].flatten).length ≤ MAX_HEADER_SIZE))

/-- Counterexample to C38 as stated: the stream of 8192 letters `a`, the letter `b` and
the response header `HTTP/1.1 200 OK` on the next line.  Split into the letters `a` and
the rest, it is delivered whole with code 0; split into the letters `a`, the letter `b`
and the rest, nothing is delivered and the read ends with -1.  All chunks have 1 to 8192
bytes. -/
theorem forwardToClient_chunking_counterexample :
    [List.replicate 8192 'a', "b\r\nHTTP/1.1 200 OK\r\n\r\n".toList].flatten
        = [List.replicate 8192 'a', ['b'], "\r\nHTTP/1.1 200 OK\r\n\r\n".toList].flatten
      ∧ (∀ c ∈ [List.replicate 8192 'a', "b\r\nHTTP/1.1 200 OK\r\n\r\n".toList, ['b'],
            "\r\nHTTP/1.1 200 OK\r\n\r\n".toList], 1 ≤ c.length ∧ c.length ≤ 8192)
      ∧ (readFromSocket forwardToClient
            ([List.replicate 8192 'a', "b\r\nHTTP/1.1 200 OK\r\n\r\n".toList].map some
              ++ [some []])
            initMidlayerCallbackEnv).map (fun r => (r.1, r.2.1.flatten))
          = some (0, lateHeaderStream 8192)
      ∧ (readFromSocket forwardToClient
            ([List.replicate 8192 'a', ['b'], "\r\nHTTP/1.1 200 OK\r\n\r\n".toList].map some
              ++ [some []])
            initMidlayerCallbackEnv).map (fun r => (r.1, r.2.1.flatten))
          = some (-1, []) := by
  refine ⟨?_, ?_, readFromSocket_late_header 8192 (by decide) (by decide),
    readFromSocket_late_split 8192 (by decide) rfl⟩
  · simp only [List.flatten_cons, List.flatten_nil, List.append_nil]
    rfl
  · intro c hc
    simp only [List.mem_cons, List.mem_singleton, List.not_mem_nil, or_false] at hc
    rcases hc with hc | hc | hc | hc
    · rw [hc, List.length_replicate]
      exact ⟨by decide, by decide⟩
    · rw [hc]; exact ⟨by decide, by decide⟩
    · rw [hc]; exact ⟨by decide, by decide⟩
    · rw [hc]; exact ⟨by decide, by decide⟩

/-- C39 (the code at the failing input, and in general): `sendData` returns with the
lock of the socket held when a `send` fails.  On an open, unlocked socket whose first
`send` fails with an error other than `ECONNRESET`, the call returns -1 and leaves the
socket open and locked, and the next `sendData` on this socket does not get the lock.
For every open, unlocked socket and every sequence of `send` results, a call that
returns -1 leaves the lock held, and a call that returns a byte count leaves it
released. -/
theorem sendData_lock_held :
    sendData { open_ := true, locked := false } 5 [SendResult.failed false]
        = some (-1, { open_ := true, locked := true })
      ∧ (∀ (len : Nat) (results : List SendResult),
          sendData { open_ := true, locked := true } len results = none)
      ∧ (∀ (socket socket1 : Socket) (len : Nat) (results : List SendResult) (r : Int),
          socket.open_ = true → socket.locked = false →
          sendData socket len results = some (r, socket1) →
          (r = -1 ∧ socket1.locked = true) ∨ (0 ≤ r ∧ socket1.locked = false)) := by
  refine ⟨by decide, ?_, ?_⟩
  · intro len results
    simp [sendData]
  · intro socket socket1 len results r ho hl h
    simp only [sendData, ho, hl, Bool.not_true, Bool.false_eq_true, if_false] at h
    exact sendLoop_locked results len 0 _ socket1 r rfl h

end Proxy
